import Mathlib

/-!
# red_goose: retry policy, batch coordinator, transfer executors, progress stream

A shallow embedding of `internal/errors/errors.go`, `internal/utils/utils.go`,
`internal/downloader/downloader.go` and `pkg/youtube/youtube.go`, with the
properties of the design document and of the tests stated over it.

Conventions of the embedding
* a value of Go type `error` is a `GoError`; `GoError.nil` is the nil error;
* `int64` arithmetic (`time.Duration`, the byte counter) is integer arithmetic
  reduced by `wrapInt64`;
* a closure `func() error` with side effects is a function `σ → GoError × σ`
  on the state `σ` it can touch;
* effects that the properties talk about (sleeps, requests sent, callback
  notifications) are recorded in explicit logs;
* a Go string is the list of its bytes;
* the goroutines of `DownloadAll` are a transition system whose steps are
  interleaved by a schedule;
* of the libraries, `net/url` and the two regular expressions are modelled as
  far as `ParseURL` uses them.
-/

namespace RedGoose

/-! ## Machine integers -/

/-- Two's-complement reduction of an integer to the range of `int64`. -/
def wrapInt64 (x : Int) : Int := (x + 9223372036854775808) % 18446744073709551616 - 9223372036854775808

/-- Membership in the range of `int64`. -/
def fitsInt64 (x : Int) : Prop := -9223372036854775808 ≤ x ∧ x < 9223372036854775808

instance (x : Int) : Decidable (fitsInt64 x) := by unfold fitsInt64; infer_instance

/-! ## `internal/errors/errors.go` -/

/-- Go `ErrorType` (an `iota` enumeration). -/
inductive ErrorType where
  | ErrorTypeNetwork
  | ErrorTypeExtraction
  | ErrorTypeDownload
  | ErrorTypeFileSystem
  | ErrorTypeConfiguration
  | ErrorTypeValidation
  deriving DecidableEq, Repr

/-- Values of the Go interface type `error` that occur in the program.
`str` is an error that only carries a message (library errors, `fmt.Errorf`
without `%w`), `eof` is the sentinel `io.EOF`, `redGoose` is a `*RedGooseError`,
`wrapped` is the result of `fmt.Errorf` with one `%w` operand. -/
inductive GoError where
  | nil
  | eof
  | str (msg : String)
  | redGoose (type : ErrorType) (message : String) (cause : GoError)
  | wrapped (msg : String) (err : GoError)
  deriving DecidableEq, Repr

namespace GoError

/-- Method `Error()`; for `*RedGooseError` as in `errors.go`. -/
def Error : GoError → String
  | nil => "<nil>"
  | eof => "EOF"
  | str msg => msg
  | redGoose _ message cause =>
    match cause with
    | nil => message
    | c => message ++ ": " ++ Error c
  | wrapped msg _ => msg

/-- Method `Unwrap()`; for `*RedGooseError` it returns the cause. -/
def Unwrap : GoError → GoError
  | redGoose _ _ cause => cause
  | wrapped _ err => err
  | _ => nil

/-- Dynamic kind of a `*RedGooseError`, if the error is one. -/
def kind : GoError → Option ErrorType
  | redGoose t _ _ => some t
  | _ => none

end GoError

def NewNetworkError (message : String) (cause : GoError) : GoError :=
  .redGoose .ErrorTypeNetwork message cause

def NewDownloadError (message : String) (cause : GoError) : GoError :=
  .redGoose .ErrorTypeDownload message cause

def NewFileSystemError (message : String) (cause : GoError) : GoError :=
  .redGoose .ErrorTypeFileSystem message cause

/-- Rendering of an `error` operand by the verbs `%v` and `%w` of `fmt`. -/
def fmtV (verb : String) : GoError → String
  | .nil => "%!" ++ verb ++ "(<nil>)"
  | e => e.Error

/-- The call `fmt.Errorf(prefix + "%w", err)`: it wraps `err` when `err` is an
error value, and yields a plain message error when the operand is nil. -/
def errorfW (pre : String) (err : GoError) : GoError :=
  match err with
  | .nil => .str (pre ++ fmtV "w" .nil)
  | e => .wrapped (pre ++ fmtV "w" e) e

/-! ## `internal/utils/utils.go`: `RetryOperation` -/

/-- Observable run of a retried operation: the state the operation left, the
number of times it was invoked and the arguments of the `time.Sleep` calls. -/
structure RetryLog (σ : Type) where
  state : σ
  calls : Nat
  sleeps : List Int

/-- The `for i := 0; i < maxRetries; i++` loop of `RetryOperation`; the first
argument is the number `maxRetries - i` of iterations still to run. The result
is `none` for the early `return nil`, and `some err` when the loop runs out. -/
def retryLoop {σ : Type} (operation : σ → GoError × σ) :
    Nat → Int → GoError → RetryLog σ → Option GoError × RetryLog σ
  | 0, _, err, log => (some err, log)
  | n + 1, delay, _, log =>
    let r := operation log.state
    if r.1 = .nil then
      (none, { state := r.2, calls := log.calls + 1, sleeps := log.sleeps })
    else
      retryLoop operation n (wrapInt64 (delay * 2)) r.1
        { state := r.2, calls := log.calls + 1, sleeps := log.sleeps ++ [delay] }

/-- `RetryOperation(operation, maxRetries, initialDelay)` started in state `s`:
the returned error together with the log of the run. The loop counter runs
from 0 while it is below `maxRetries`, that is for `maxRetries.toNat`
iterations (none when `maxRetries ≤ 0`); the body does not read the counter. -/
def RetryOperation {σ : Type} (operation : σ → GoError × σ) (maxRetries : Int)
    (initialDelay : Int) (s : σ) : GoError × RetryLog σ :=
  match retryLoop operation maxRetries.toNat initialDelay .nil
      { state := s, calls := 0, sleeps := [] } with
  | (none, log) => (.nil, log)
  | (some err, log) =>
    (errorfW ("operation failed after " ++ toString maxRetries ++ " retries: ") err, log)

/-- State in which the `i`-th invocation (counting from 0) of the operation
starts, when the first one starts in `s`. -/
def stateAt {σ : Type} (operation : σ → GoError × σ) (s : σ) : Nat → σ
  | 0 => s
  | i + 1 => (operation (stateAt operation s i)).2

/-- Error returned by the `i`-th invocation (counting from 0). -/
def outcomeAt {σ : Type} (operation : σ → GoError × σ) (s : σ) (i : Nat) : GoError :=
  (operation (stateAt operation s i)).1

/-- The backoff schedule `D, 2D, 4D, …` of length `k` in `time.Duration` arithmetic. -/
def backoff (D : Int) (k : Nat) : List Int :=
  (List.range k).map (fun i => wrapInt64 (2 ^ i * D))

/-- The arguments of the first `n` sleeps of the loop started with delay `d`:
each is the previous one doubled by `delay *= 2`. -/
def delays : Int → Nat → List Int
  | _, 0 => []
  | d, n + 1 => d :: delays (wrapInt64 (d * 2)) n

/-! ## `internal/downloader/downloader.go`: `BatchDownloader.DownloadAll` -/

/-- Go `DownloadOptions`. -/
structure DownloadOptions where
  URL : String
  OutputDir : String
  Filename : String
  ShowProgress : Bool
  deriving DecidableEq, Repr

/-- How the call `bd.downloader.Download(ctx, opts)` made by one goroutine of
`DownloadAll` ends: it returns an error value (possibly nil), or it panics
with a value whose `%v` rendering is `r`. -/
inductive UnitOutcome where
  | returned (err : GoError)
  | panicked (r : String)
  deriving DecidableEq, Repr

/-- A unit of work failed: its download returned a non-nil error or panicked. -/
def UnitOutcome.failed : UnitOutcome → Bool
  | .returned err => decide (err ≠ .nil)
  | .panicked _ => true

/-- The values the goroutine of task `idx` sends on `errChan`, in order. When
the download returns, the goroutine sends its error and the deferred recovery
finds no panic; when it panics, the send after the call is skipped, the slot
is released and the deferred recovery sends the panic as an error. -/
def unitSends (idx : Nat) : UnitOutcome → List GoError
  | .returned err => [err]
  | .panicked r => [.str ("task " ++ toString idx ++ " panicked: " ++ r)]

/-- All values sent on `errChan` by the goroutines started for `tasks`, listed
by task; `run idx opts` is how the download of task `idx` ends. The first
argument is the index of the first task of the list. -/
def sentFrom (run : Nat → DownloadOptions → UnitOutcome) :
    Nat → List DownloadOptions → List GoError
  | _, [] => []
  | idx, t :: ts => unitSends idx (run idx t) ++ sentFrom run (idx + 1) ts

/-- Number of tasks of the list whose unit of work failed. -/
def failuresFrom (run : Nat → DownloadOptions → UnitOutcome) :
    Nat → List DownloadOptions → Nat
  | _, [] => 0
  | idx, t :: ts => (if (run idx t).failed then 1 else 0) + failuresFrom run (idx + 1) ts

/-- State of the collection loop of `DownloadAll`: the slice `errors`, the
number of receives done and the values of `errChan` not yet received. -/
structure Collected where
  errors : List GoError
  received : Nat
  pending : List GoError
  deriving DecidableEq, Repr

/-- The loop `for i := 0; i < len(tasks); i++ { if err := <-errChan; ... }`.
The first argument is the number of iterations left; the channel is given by
the values it delivers, in arrival order. A receive when no value will ever
arrive blocks for ever: the result is `none`. -/
def collectResults : Nat → Collected → Option Collected
  | 0, c => some c
  | n + 1, c =>
    match c.pending with
    | [] => none
    | err :: rest =>
      collectResults n
        { errors := if err ≠ .nil then c.errors ++ [err] else c.errors,
          received := c.received + 1,
          pending := rest }

/-- Result of a call of `DownloadAll` that returns: the error returned, the
number of results received from `errChan` and the values left in it. -/
structure BatchRun where
  err : GoError
  received : Nat
  pending : List GoError
  deriving DecidableEq, Repr

/-- `BatchDownloader.DownloadAll(ctx, tasks)`, given the values `errChan`
delivers in arrival order; `none` when the call never returns. -/
def DownloadAll (tasks : List DownloadOptions) (errChan : List GoError) : Option BatchRun :=
  match collectResults tasks.length { errors := [], received := 0, pending := errChan } with
  | none => none
  | some c =>
    some
      { err :=
          match c.errors with
          | [] => .nil
          | first :: _ =>
            if c.errors.length = tasks.length then
              .str ("all downloads failed: " ++ fmtV "v" first)
            else
              .str (toString c.errors.length ++ " of " ++ toString tasks.length ++
                " downloads failed")
        received := c.received
        pending := c.pending }

/-! ## `internal/downloader/downloader.go`: `ProgressReader` -/

/-- A byte. -/
abbrev Byte := Fin 256

/-- What one call `Read(p)` of an `io.Reader` returns: the bytes stored in
`p[:n]`, so that `n` is their number, and the error. -/
structure ReadResult where
  data : List Byte
  err : GoError
  deriving DecidableEq, Repr

/-- The readings of the clock, in nanoseconds, that a call of
`ProgressReader.Read` takes: for `time.Since` in the condition, for
`time.Since` in the computation of the speed, and for `time.Now()`. -/
structure Clock where
  check : Int
  speed : Int
  update : Int
  deriving DecidableEq, Repr

/-- One call of `Read` on a wrapped reader: the result of the underlying
reader and the clock readings during the call. -/
structure ReadStep where
  result : ReadResult
  clock : Clock
  deriving DecidableEq, Repr

/-- A call `pr.callback(downloaded, total, speed)`; the speed is the
quotient `float64(speedBytes) / d.Seconds()` for the duration `d` of
`speedElapsed` nanoseconds. -/
structure Notification where
  downloaded : Int
  total : Int
  speedBytes : Int
  speedElapsed : Int
  deriving DecidableEq, Repr

/-- Go `ProgressReader`, without the underlying reader, whose results are
supplied call by call; `callback` tells whether `pr.callback != nil`. -/
structure ProgressReader where
  total : Int
  downloaded : Int
  callback : Bool
  lastUpdate : Int
  deriving DecidableEq, Repr

/-- `NewProgressReader(reader, total, callback)` when `time.Now()` is `now`. -/
def NewProgressReader (total : Int) (callback : Bool) (now : Int) : ProgressReader :=
  { total := total, downloaded := 0, callback := callback, lastUpdate := now }

/-- `(*ProgressReader).Read`: the values returned, the reader afterwards and
the calls of the callback made. -/
def ProgressReader.Read (pr : ProgressReader) (step : ReadStep) :
    ReadResult × ProgressReader × List Notification :=
  let n := step.result.data.length
  if n > 0 then
    let downloaded := wrapInt64 (pr.downloaded + (n : Int))
    if step.clock.check - pr.lastUpdate > 100 * 1000000 then
      (step.result,
       { pr with downloaded := downloaded, lastUpdate := step.clock.update },
       if pr.callback then
         [{ downloaded := downloaded, total := pr.total, speedBytes := downloaded,
            speedElapsed := step.clock.speed - pr.lastUpdate }]
       else [])
    else
      (step.result, { pr with downloaded := downloaded }, [])
  else
    (step.result, pr, [])

/-- A sequence of `Read` calls on a `ProgressReader`: the results returned,
in order, the reader afterwards and the notifications made, in order. -/
def ProgressReader.readAll (pr : ProgressReader) :
    List ReadStep → List ReadResult × ProgressReader × List Notification
  | [] => ([], pr, [])
  | step :: rest =>
    let r := pr.Read step
    let rs := ProgressReader.readAll r.2.1 rest
    (r.1 :: rs.1, rs.2.1, r.2.2 ++ rs.2.2)

/-- Sum of the byte counts returned by a sequence of reads. -/
def bytesRead (steps : List ReadStep) : Nat :=
  (steps.map (fun s => s.result.data.length)).sum

/-! ## `internal/downloader/downloader.go`: the transfer executors -/

/-- An HTTP request as the executors build it. -/
structure Request where
  method : String
  url : String
  range : Option String
  userAgent : String
  deriving DecidableEq, Repr

/-- The fields of `http.Response` the executors use; `Body` lists the results
of the successive `Read` calls on `resp.Body`. -/
structure Response where
  StatusCode : Int
  Status : String
  ContentLength : Int
  Body : List ReadStep
  deriving DecidableEq, Repr

/-- The surroundings of one call of a download function. The attempts of the
call are numbered from 0.
* `mkdirErr`: result of `utils.EnsureDir(opts.OutputDir)`;
* `newRequestErr`: error of `http.NewRequestWithContext`;
* `transport k req`: what `d.client.Do(req)` returns in attempt `k`;
* `openErr k`: error with which `os.Create` or `os.OpenFile` fails in attempt
  `k`, nil when the file system lets the file be opened;
* `removeErr k`: error with which `os.Remove` fails in attempt `k` (the
  directory is not writable, the file is still open on a system that forbids
  removing open files), nil when the file system removes the file;
* `quota`: a size beyond which writes to the file fail, if any;
* `now k`: the clock when attempt `k` constructs its `ProgressReader`. -/
structure Env where
  mkdirErr : GoError
  newRequestErr : GoError
  transport : Nat → Request → Except GoError Response
  openErr : Nat → GoError
  removeErr : Nat → GoError
  quota : Option Nat
  now : Nat → Int

/-- The state a download touches: the content of the file at the output
path (`none`: no such file), the requests sent, the number of attempts
started and the progress notifications made. -/
structure World where
  file : Option (List Byte)
  requests : List Request
  attempts : Nat
  notifications : List Notification
  deriving DecidableEq, Repr

/-- `(*os.File).Write(data)` at the end of a file holding `content`: the new
content and the error. -/
def fileWrite (quota : Option Nat) (content data : List Byte) : List Byte × GoError :=
  match quota with
  | none => (content ++ data, .nil)
  | some q =>
    if content.length + data.length ≤ q then (content ++ data, .nil)
    else (content ++ data.take (q - content.length), .str "no space left on device")

/-- `io.Copy(file, reader)`: the loop that reads a chunk and writes it until a
read returns an error (`io.EOF` ends the copy without error) or a write fails.
`read` is the `Read` method of the reader, a decorator with state `ρ` over the
results of the response body; a body whose listed results are used up is at
its end. Returns the error, the content of the file and the reader state. -/
def ioCopy {ρ : Type} (read : ρ → ReadStep → ReadResult × ρ) (quota : Option Nat) :
    ρ → List ReadStep → List Byte → GoError × List Byte × ρ
  | r, [], content => (.nil, content, r)
  | r, step :: rest, content =>
    let got := read r step
    let wrote :=
      if got.1.data.length > 0 then fileWrite quota content got.1.data else (content, .nil)
    if wrote.2 ≠ .nil then (wrote.2, wrote.1, got.2)
    else if got.1.err ≠ .nil then
      (if got.1.err = .eof then .nil else got.1.err, wrote.1, got.2)
    else ioCopy read quota got.2 rest wrote.1

/-- `Read` of the response body itself. -/
def bodyRead (_ : Unit) (step : ReadStep) : ReadResult × Unit := (step.result, ())

/-- `Read` of a `ProgressReader` around the response body; the state carries
the notifications made so far. -/
def progressRead (r : ProgressReader × List Notification) (step : ReadStep) :
    ReadResult × (ProgressReader × List Notification) :=
  let out := r.1.Read step
  (out.1, (out.2.1, r.2 ++ out.2.2))

/-- The bytes a response body delivers: the chunks of its reads up to the
first read that returns an error. -/
def streamBytes : List ReadStep → List Byte
  | [] => []
  | step :: rest =>
    if step.result.err ≠ .nil then step.result.data else step.result.data ++ streamBytes rest

/-- The closure passed to `RetryOperation` by `Download` (with
`progress = opts.ShowProgress`) and by `DownloadWithProgress` (with
`progress = (callback != nil)`): one attempt of a full download. After a
failed copy the code calls `os.Remove(outputPath)` and discards its result:
the file is gone when the removal succeeds, and stays with the bytes written
so far when it fails. -/
def transferAttempt (env : Env) (opts : DownloadOptions) (progress : Bool) (w : World) :
    GoError × World :=
  let k := w.attempts
  let w1 : World := { w with attempts := k + 1 }
  if env.newRequestErr ≠ .nil then
    (NewNetworkError "failed to create request" env.newRequestErr, w1)
  else
    let req : Request :=
      { method := "GET", url := opts.URL, range := none, userAgent := "red-goose/1.0" }
    let w2 : World := { w1 with requests := w1.requests ++ [req] }
    match env.transport k req with
    | .error err => (NewNetworkError "failed to download" err, w2)
    | .ok resp =>
      if resp.StatusCode ≠ 200 then
        (NewNetworkError ("bad status: " ++ resp.Status) .nil, w2)
      else if env.openErr k ≠ .nil then
        (NewFileSystemError "failed to create file" (env.openErr k), w2)
      else if progress then
        let copied := ioCopy progressRead env.quota
          (NewProgressReader resp.ContentLength true (env.now k), w2.notifications) resp.Body []
        if copied.1 ≠ .nil then
          (NewDownloadError "failed to save file" copied.1,
           { w2 with
             file := if env.removeErr k ≠ .nil then some copied.2.1 else none,
             notifications := copied.2.2.2 })
        else
          (.nil, { w2 with file := some copied.2.1, notifications := copied.2.2.2 })
      else
        let copied := ioCopy bodyRead env.quota () resp.Body []
        if copied.1 ≠ .nil then
          (NewDownloadError "failed to save file" copied.1,
           { w2 with file := if env.removeErr k ≠ .nil then some copied.2.1 else none })
        else
          (.nil, { w2 with file := some copied.2.1 })

/-- `(*Downloader).Download(ctx, opts)`. -/
def Download (env : Env) (opts : DownloadOptions) (w : World) : GoError × RetryLog World :=
  if env.mkdirErr ≠ .nil then
    (NewFileSystemError "failed to create output directory" env.mkdirErr,
     { state := w, calls := 0, sleeps := [] })
  else
    RetryOperation (transferAttempt env opts opts.ShowProgress) 3 (2 * 1000000000) w

/-- `(*Downloader).DownloadWithProgress(ctx, opts, callback)`; `callback` tells
whether the callback passed is non-nil. -/
def DownloadWithProgress (env : Env) (opts : DownloadOptions) (callback : Bool) (w : World) :
    GoError × RetryLog World :=
  if env.mkdirErr ≠ .nil then
    (NewFileSystemError "failed to create output directory" env.mkdirErr,
     { state := w, calls := 0, sleeps := [] })
  else
    RetryOperation (transferAttempt env opts callback) 3 (2 * 1000000000) w

/-- The variables the closure of `DownloadResumable` works on: the captured
`startByte` and the world. -/
structure ResumeState where
  startByte : Int
  world : World
  deriving DecidableEq, Repr

/-- The request built by an attempt of `DownloadResumable`. -/
def resumeRequest (opts : DownloadOptions) (startByte : Int) : Request :=
  { method := "GET", url := opts.URL,
    range := if startByte > 0 then some ("bytes=" ++ toString startByte ++ "-") else none,
    userAgent := "red-goose/1.0" }

/-- The part of an attempt of `DownloadResumable` after the status check:
open the file (`os.OpenFile` with `O_WRONLY|O_APPEND`, which needs the file to
exist, when `startByte > 0`; `os.Create`, which truncates, otherwise) and copy
the body to it. A failed copy leaves what was written. -/
def resumableWrite (env : Env) (k : Nat) (resp : Response) (startByte : Int) (w : World) :
    GoError × ResumeState :=
  let opened : Except GoError (List Byte) :=
    if startByte > 0 then
      match w.file with
      | none => .error (.str "no such file or directory")
      | some content => if env.openErr k ≠ .nil then .error (env.openErr k) else .ok content
    else
      if env.openErr k ≠ .nil then .error (env.openErr k) else .ok []
  match opened with
  | .error err =>
    (NewFileSystemError "failed to open file" err, { startByte := startByte, world := w })
  | .ok content =>
    let copied := ioCopy bodyRead env.quota () resp.Body content
    let w3 : World := { w with file := some copied.2.1 }
    if copied.1 ≠ .nil then
      (NewDownloadError "failed to save file" copied.1, { startByte := startByte, world := w3 })
    else
      (.nil, { startByte := startByte, world := w3 })

/-- The closure passed to `RetryOperation` by `DownloadResumable`: one attempt. -/
def resumableAttempt (env : Env) (opts : DownloadOptions) (st : ResumeState) :
    GoError × ResumeState :=
  let k := st.world.attempts
  let w1 : World := { st.world with attempts := k + 1 }
  if env.newRequestErr ≠ .nil then
    (NewNetworkError "failed to create request" env.newRequestErr, { st with world := w1 })
  else
    let req := resumeRequest opts st.startByte
    let w2 : World := { w1 with requests := w1.requests ++ [req] }
    match env.transport k req with
    | .error err => (NewNetworkError "failed to download" err, { st with world := w2 })
    | .ok resp =>
      if st.startByte > 0 ∧ resp.StatusCode ≠ 206 then
        if resp.StatusCode = 200 then
          resumableWrite env k resp 0 w2
        else
          (NewNetworkError ("bad status: " ++ resp.Status) .nil, { st with world := w2 })
      else if st.startByte = 0 ∧ resp.StatusCode ≠ 200 then
        (NewNetworkError ("bad status: " ++ resp.Status) .nil, { st with world := w2 })
      else
        resumableWrite env k resp st.startByte w2

/-- `(*Downloader).DownloadResumable(ctx, opts)`. -/
def DownloadResumable (env : Env) (opts : DownloadOptions) (w : World) :
    GoError × RetryLog ResumeState :=
  if env.mkdirErr ≠ .nil then
    (NewFileSystemError "failed to create output directory" env.mkdirErr,
     { state := { startByte := 0, world := w }, calls := 0, sleeps := [] })
  else
    let startByte : Int :=
      match w.file with
      | some content => content.length
      | none => 0
    RetryOperation (resumableAttempt env opts) 3 (2 * 1000000000)
      { startByte := startByte, world := w }

/-- A sample response body: one read per chunk, then a read that returns
`io.EOF`; the clock readings are 50 ms apart. -/
def chunkedBody (chunks : List (List Byte)) : List ReadStep :=
  (chunks.enum.map (fun ic =>
    { result := { data := ic.2, err := .nil },
      clock := { check := 50000000 * (ic.1 + 1), speed := 50000000 * (ic.1 + 1),
                 update := 50000000 * (ic.1 + 1) } })) ++
  [{ result := { data := [], err := .eof },
     clock := { check := 50000000 * (chunks.length + 1), speed := 50000000 * (chunks.length + 1),
                update := 50000000 * (chunks.length + 1) } }]

/-- A sample resource of five bytes. -/
def sampleResource : List Byte := [10, 20, 30, 40, 50]

/-- A sample server for `sampleResource`. When `honor` is set it answers a
request for the bytes from 2 onward with 206 and the last three bytes; it
answers any other request with 200 and the whole resource. -/
def sampleServer (honor : Bool) (req : Request) : Except GoError Response :=
  if honor ∧ req.range = some "bytes=2-" then
    .ok { StatusCode := 206, Status := "206 Partial Content", ContentLength := 3,
          Body := chunkedBody [[30, 40], [50]] }
  else
    .ok { StatusCode := 200, Status := "200 OK", ContentLength := 5,
          Body := chunkedBody [[10, 20, 30], [40, 50]] }

/-- A sample server that answers every request with 404. -/
def missingServer (_ : Request) : Except GoError Response :=
  .ok { StatusCode := 404, Status := "404 Not Found", ContentLength := 0, Body := chunkedBody [] }

/-- A sample server whose body breaks off after three bytes. -/
def brokenServer (_ : Request) : Except GoError Response :=
  .ok { StatusCode := 200, Status := "200 OK", ContentLength := 5,
        Body := [{ result := { data := [10, 20, 30], err := .nil },
                   clock := { check := 150000000, speed := 150000000, update := 150000000 } },
                 { result := { data := [], err := .str "unexpected EOF" },
                   clock := { check := 200000000, speed := 200000000, update := 200000000 } }] }

/-- Sample surroundings: the given server, a file system without failures. -/
def serverEnv (server : Request → Except GoError Response) : Env :=
  { mkdirErr := .nil, newRequestErr := .nil, transport := fun _ req => server req,
    openErr := fun _ => .nil, removeErr := fun _ => .nil, quota := none, now := fun _ => 0 }

/-- Sample surroundings: the given server, a file system in which files can be
created and written but not removed. -/
def noRemoveEnv (server : Request → Except GoError Response) : Env :=
  { mkdirErr := .nil, newRequestErr := .nil, transport := fun _ req => server req,
    openErr := fun _ => .nil, removeErr := fun _ => .str "permission denied", quota := none,
    now := fun _ => 0 }

/-- Sample options. -/
def sampleOpts : DownloadOptions :=
  { URL := "https://cdn.example/v", OutputDir := "out", Filename := "v.mp4",
    ShowProgress := false }

/-- A sample world in which the output file holds the given content. -/
def worldWith (file : Option (List Byte)) : World :=
  { file := file, requests := [], attempts := 0, notifications := [] }

/-- A sample batch of five tasks. -/
def fiveTasks : List DownloadOptions :=
  (List.range 5).map (fun i =>
    { URL := "https://cdn.example/" ++ toString i, OutputDir := "out",
      Filename := toString i ++ ".mp4", ShowProgress := false })

/-- A sample run in which the tasks with the listed indices fail (index 3 by
a panic) and the others succeed. -/
def failing (bad : List Nat) (idx : Nat) (_ : DownloadOptions) : UnitOutcome :=
  if idx ∈ bad then
    if idx = 3 then .panicked "index out of range"
    else .returned (.str ("download " ++ toString idx ++ " failed"))
  else .returned .nil

/-- A sample operation on a counter of invocations: it fails on its first
`k` invocations and succeeds afterwards. -/
def failsFirst (k : Nat) (c : Nat) : GoError × Nat :=
  (if c < k then .str "connection reset" else .nil, c + 1)

/-- A sample operation on a counter of invocations that fails every time, with
an error that names the invocation. -/
def alwaysFails (c : Nat) : GoError × Nat :=
  (NewNetworkError ("attempt " ++ toString c) .nil, c + 1)

/-! ## Progress stream: notifications with the reads that made them -/

/-- The notifications of a sequence of `Read` calls, each with the clock
readings of the call during which the callback was invoked: the callback runs
after the reading `speed` and before the reading `update` of that call. -/
def ProgressReader.readAllTimed (pr : ProgressReader) :
    List ReadStep → List (Clock × Notification)
  | [] => []
  | step :: rest =>
    (pr.Read step).2.2.map (fun n => (step.clock, n)) ++
      ProgressReader.readAllTimed (pr.Read step).2.1 rest

/-- The clock does not run backwards during a `Read` call. -/
def Clock.ordered (c : Clock) : Prop := c.check ≤ c.speed ∧ c.speed ≤ c.update

instance (c : Clock) : Decidable c.ordered := by unfold Clock.ordered; infer_instance

/-- A sample read of the given bytes at the given time in milliseconds. -/
def readAt (ms : Int) (data : List Byte) : ReadStep :=
  { result := { data := data, err := .nil },
    clock := { check := ms * 1000000, speed := ms * 1000000, update := ms * 1000000 } }

/-! ## `internal/downloader/downloader.go`: `SanitizeFilename`, `GetFileExtension` -/

/-- The bytes of a string literal of ASCII characters. A Go string is the
sequence of its bytes: `len` counts bytes and slicing cuts at bytes. -/
def ascii (s : String) : List Byte := s.toList.map (fun c => Fin.ofNat c.toNat)

/-- `strings.ReplaceAll(s, old, new)` for a pattern `old` of one byte. -/
def ReplaceAll (s : List Byte) (old : Byte) (new : List Byte) : List Byte :=
  s.flatMap (fun c => if c = old then new else [c])

/-- The slice `invalid` of `SanitizeFilename`: the one-byte strings
`/ \ : * ? " < > |`, by their bytes. -/
def invalid : List Byte := [47, 92, 58, 42, 63, 34, 60, 62, 124]

/-- `SanitizeFilename`. -/
def SanitizeFilename (filename : List Byte) : List Byte :=
  let sanitized := invalid.foldl (fun acc char => ReplaceAll acc char (ascii "_")) filename
  if sanitized.length > 200 then sanitized.take 200 else sanitized

/-- `strings.Contains(s, substr)`. -/
def Contains : List Byte → List Byte → Bool
  | [], substr => substr.isEmpty
  | c :: cs, substr => substr.isPrefixOf (c :: cs) || Contains cs substr

/-- `GetFileExtension`. -/
def GetFileExtension (mimeType : List Byte) : List Byte :=
  if Contains mimeType (ascii "mp4") then ascii ".mp4"
  else if Contains mimeType (ascii "webm") then ascii ".webm"
  else if Contains mimeType (ascii "mp3") then ascii ".mp3"
  else if Contains mimeType (ascii "m4a") then ascii ".m4a"
  else ascii ".unknown"

/-- The lookup table of the design document for file extensions, in order:
the substring looked for and the extension. -/
def extensionTable : List (List Byte × List Byte) :=
  [(ascii "mp4", ascii ".mp4"), (ascii "webm", ascii ".webm"),
   (ascii "mp3", ascii ".mp3"), (ascii "m4a", ascii ".m4a")]

/-- The extension lookup as the design document words it: the extension of
the first entry of the table whose substring the MIME type contains, else the
marker for unknown types. -/
def lookupExtension (mimeType : List Byte) : List Byte :=
  match extensionTable.find? (fun e => Contains mimeType e.1) with
  | some e => e.2
  | none => ascii ".unknown"

/-- What `SanitizeFilename` does to one byte: the nine replacements in turn. -/
def sanitizeByte (c : Byte) : Byte :=
  invalid.foldl (fun b char => if b = char then 95 else b) c

/-- `strings.Repeat(s, count)`. -/
def Repeat (s : List Byte) (count : Nat) : List Byte := (List.replicate count s).flatten

/-- The input of the test case "Very long filename". -/
def veryLongFilename : List Byte :=
  ascii "very_long_filename_" ++
    Repeat (ascii "a_very_long_string_that_repeats_itself_many_times_") 10 ++ ascii ".mp4"

/-- The value the test case "Very long filename" expects. -/
def veryLongExpected : List Byte :=
  ascii ("very_long_filename_a_very_long_string_that_repeats_itself_many_times_" ++
    "a_very_long_string_that_repeats_itself_many_times_" ++
    "a_very_long_string_that_repeats_itself_many_times_" ++
    "a_very_long_string_that_repeats_itself_many_times_" ++
    "a_very_long_string_that_repeats_itself_many_times_" ++
    "a_very_long_string_that_repeats_itself_many_times_" ++
    "a_very_long_string_that_repeats_itself_many_times_" ++
    "a_very_long_string_that_repeats_itself_many_times_" ++
    "a_very_long_string_that_repeats_itself_many_times_" ++
    "a_very_long_string_that_repeats_itself_many_times_")

/-! ## `net/url`: the part of `url.Parse` that `ParseURL` relies on -/

/-- The byte of an ASCII character. -/
def byte (c : Char) : Byte := Fin.ofNat c.toNat

/-- An ASCII letter. -/
def isLetter (c : Byte) : Bool :=
  (byte 'a' ≤ c && c ≤ byte 'z') || (byte 'A' ≤ c && c ≤ byte 'Z')

/-- An ASCII digit. -/
def isDigit (c : Byte) : Bool := byte '0' ≤ c && c ≤ byte '9'

/-- The fields of `url.URL` that `url.Parse` fills. -/
structure URL where
  Scheme : List Byte
  Opaque : List Byte
  Host : List Byte
  Path : List Byte
  RawQuery : List Byte
  Fragment : List Byte
  deriving DecidableEq, Repr

/-- `strings.Cut(s, sep)` for a separator of one byte: the text before the
first `sep` and the text after it; all of `s` and nothing when there is none. -/
def cut (s : List Byte) (sep : Byte) : List Byte × List Byte :=
  (s.takeWhile (fun b => b != sep), (s.dropWhile (fun b => b != sep)).drop 1)

/-- `stringContainsCTLByte` of `net/url`. -/
def stringContainsCTLByte (s : List Byte) : Bool :=
  s.any (fun b => b < byte ' ' || b == 127)

/-- The loop of `getScheme` of `net/url` at index `i`, with the bytes from `i`
on: the scheme and the rest, or the error for a leading colon. -/
def getSchemeFrom (rawURL : List Byte) : Nat → List Byte → Except GoError (List Byte × List Byte)
  | _, [] => .ok ([], rawURL)
  | i, c :: cs =>
    if isLetter c then getSchemeFrom rawURL (i + 1) cs
    else if isDigit c || c == byte '+' || c == byte '-' || c == byte '.' then
      if i = 0 then .ok ([], rawURL) else getSchemeFrom rawURL (i + 1) cs
    else if c == byte ':' then
      if i = 0 then .error (.str "missing protocol scheme") else .ok (rawURL.take i, cs)
    else .ok ([], rawURL)

/-- `getScheme` of `net/url`. -/
def getScheme (rawURL : List Byte) : Except GoError (List Byte × List Byte) :=
  getSchemeFrom rawURL 0 rawURL

/-- `strings.ToLower` on ASCII text. -/
def ToLower (s : List Byte) : List Byte :=
  s.map (fun c => if byte 'A' ≤ c ∧ c ≤ byte 'Z' then c + 32 else c)

/-- The bytes below `0x80` that `shouldEscape` of `net/url` lets stand
unescaped in a host, besides letters and digits. -/
def hostPunctuation : List Byte := ascii "!$&()*+,;=:[]<>-_.~" ++ [39, 34]

/-- `parseHost` of `net/url` for a host that is not an IP literal in brackets
and has no percent-escape; `none` for those hosts, which are left out of this
model. The text after the last colon, if any, must be a port: digits only;
every byte below `0x80` must be one a host may hold. -/
def parseHost (host : List Byte) : Option (Except GoError (List Byte)) :=
  if host.head? = some (byte '[') then none
  else if byte ':' ∈ host ∧
      ¬ ((host.reverse.takeWhile (fun b => b != byte ':')).all isDigit) then
    some (.error (.str "invalid port after host"))
  else if byte '%' ∈ host then none
  else if host.any (fun b => b < 128 && !(isLetter b || isDigit b || hostPunctuation.contains b))
  then some (.error (.str "invalid character in host name"))
  else some (.ok host)

/-- `parseAuthority` of `net/url` for an authority without user information;
`none` for an authority with an `@`, left out of this model. -/
def parseAuthority (authority : List Byte) : Option (Except GoError (List Byte)) :=
  if byte '@' ∈ authority then none else parseHost authority

/-- The split of the query off the text after the scheme, in `parse` of
`net/url`: a single `?` at the very end is dropped, otherwise the text is cut
at its first `?`. -/
def splitQuery (rest : List Byte) : List Byte × List Byte :=
  if rest.getLast? = some (byte '?') ∧ rest.count (byte '?') = 1 then (rest.dropLast, [])
  else cut rest (byte '?')

/-- The end of `parse` of `net/url`: `setPath`, for a path without
percent-escape (`none` for a path with one, left out of this model). -/
def finishURL (scheme host path rawQuery : List Byte) : Option (Except GoError URL) :=
  if byte '%' ∈ path then none
  else some (.ok { Scheme := scheme, Opaque := [], Host := host, Path := path,
                   RawQuery := rawQuery, Fragment := [] })

/-- The part of `parse(rawURL, false)` of `net/url` after the query is split
off: a rootless text after a scheme is opaque; a first path segment of a
relative reference must not hold a colon; after `//` comes the authority, up
to the next `/`. -/
def parseAfterQuery (scheme rest rawQuery : List Byte) : Option (Except GoError URL) :=
  if rest.head? ≠ some (byte '/') ∧ scheme ≠ [] then
    some (.ok { Scheme := scheme, Opaque := rest, Host := [], Path := [],
                RawQuery := rawQuery, Fragment := [] })
  else if rest.head? ≠ some (byte '/') ∧ byte ':' ∈ (cut rest (byte '/')).1 then
    some (.error (.str "first path segment in URL cannot contain colon"))
  else if (scheme ≠ [] ∨ ¬ (ascii "///").isPrefixOf rest) ∧ (ascii "//").isPrefixOf rest then
    match parseAuthority ((rest.drop 2).takeWhile (fun b => b != byte '/')) with
    | none => none
    | some (.error err) => some (.error err)
    | some (.ok host) =>
      finishURL scheme host ((rest.drop 2).dropWhile (fun b => b != byte '/')) rawQuery
  else finishURL scheme [] rest rawQuery

/-- `parse(rawURL, false)` of `net/url`. -/
def urlParseNoFragment (rawURL : List Byte) : Option (Except GoError URL) :=
  if stringContainsCTLByte rawURL then
    some (.error (.str "net/url: invalid control character in URL"))
  else if rawURL = [byte '*'] then
    some (.ok { Scheme := [], Opaque := [], Host := [], Path := [byte '*'], RawQuery := [],
                Fragment := [] })
  else
    match getScheme rawURL with
    | .error err => some (.error err)
    | .ok (scheme, rest) =>
      parseAfterQuery (ToLower scheme) (splitQuery rest).1 (splitQuery rest).2

/-- `url.Parse(rawURL)`, for fragments without percent-escape. An error is the
`*url.Error` around the error of the parser, here with the message of the
latter. `none`: the input is outside the part of `net/url` modelled here. -/
def urlParse (rawURL : List Byte) : Option (Except GoError URL) :=
  let u := (cut rawURL (byte '#')).1
  let frag := (cut rawURL (byte '#')).2
  match urlParseNoFragment u with
  | none => none
  | some (.error err) => some (.error (.wrapped ("parse: " ++ err.Error) err))
  | some (.ok url) =>
    if frag = [] then some (.ok url)
    else if byte '%' ∈ frag then none
    else some (.ok { url with Fragment := frag })

/-! ## `pkg/youtube/youtube.go` -/

/-- Go `VideoType` (an `iota` enumeration; the zero value is `VideoTypeSingle`). -/
inductive VideoType where
  | VideoTypeSingle
  | VideoTypePlaylist
  | VideoTypeChannel
  deriving DecidableEq, Repr

/-- Go `VideoInfo`; the field `Type_` is the field `Type`. -/
structure VideoInfo where
  ID : List Byte
  URL : List Byte
  Type_ : VideoType
  Title : List Byte
  Duration : List Byte
  deriving DecidableEq, Repr

/-- The class `[a-zA-Z0-9_-]` of both regular expressions. -/
def isIDByte (c : Byte) : Bool := isLetter c || isDigit c || c == byte '_' || c == byte '-'

/-- One alternative of `videoIDRegex` at the start of `s`: the literal, then
eleven bytes of the class, which are the group. -/
def videoIDAfter (literal s : List Byte) : Option (List Byte) :=
  if literal.isPrefixOf s ∧ 11 ≤ (s.drop literal.length).length ∧
      ((s.drop literal.length).take 11).all isIDByte then
    some ((s.drop literal.length).take 11)
  else none

/-- A match of `videoIDRegex`, that is of
`(?:youtube\.com\/watch\?v=|youtu\.be\/)([a-zA-Z0-9_-]{11})`, at the start of
`s`: the first alternative that matches, with its group. -/
def matchVideoIDAt (s : List Byte) : Option (List Byte) :=
  match videoIDAfter (ascii "youtube.com/watch?v=") s with
  | some id => some id
  | none => videoIDAfter (ascii "youtu.be/") s

/-- `videoIDRegex.FindStringSubmatch(s)`: the group of the leftmost match;
`none` when the result is nil. -/
def findVideoID : List Byte → Option (List Byte)
  | [] => none
  | c :: cs =>
    match matchVideoIDAt (c :: cs) with
    | some id => some id
    | none => findVideoID cs

/-- A match of `playlistIDRegex`, that is of `[?&]list=([a-zA-Z0-9_-]+)`, at
the start of `s`, with its group: the longest run of bytes of the class. -/
def matchPlaylistIDAt (s : List Byte) : Option (List Byte) :=
  match s with
  | [] => none
  | c :: rest =>
    if (c == byte '?' || c == byte '&') ∧ (ascii "list=").isPrefixOf rest ∧
        (rest.drop 5).takeWhile isIDByte ≠ [] then
      some ((rest.drop 5).takeWhile isIDByte)
    else none

/-- `playlistIDRegex.FindStringSubmatch(s)`: the group of the leftmost match;
`none` when the result is nil. -/
def findPlaylistID : List Byte → Option (List Byte)
  | [] => none
  | c :: cs =>
    match matchPlaylistIDAt (c :: cs) with
    | some id => some id
    | none => findPlaylistID cs

/-- `ParseURL`: the pair `(video, nil)` or `(nil, err)`; `none` when
`url.Parse` is not modelled on the input. -/
def ParseURL (inputURL : List Byte) : Option (Except GoError VideoInfo) :=
  match urlParse inputURL with
  | none => none
  | some (.error err) => some (.error (errorfW "invalid URL: " err))
  | some (.ok parsedURL) =>
    if !Contains parsedURL.Host (ascii "youtube.com") &&
        !Contains parsedURL.Host (ascii "youtu.be") then
      some (.error (.str "not a YouTube URL"))
    else
      let video0 : VideoInfo :=
        { ID := [], URL := inputURL, Type_ := .VideoTypeSingle, Title := [], Duration := [] }
      let video1 : VideoInfo :=
        match findVideoID inputURL with
        | some id => { video0 with ID := id, Type_ := .VideoTypeSingle }
        | none => video0
      let video2 : VideoInfo :=
        match findPlaylistID inputURL with
        | some _ => { video1 with Type_ := .VideoTypePlaylist }
        | none => video1
      if video2.ID = [] ∧ video2.Type_ ≠ .VideoTypePlaylist then
        some (.error (.str "could not extract video ID from URL"))
      else some (.ok video2)

/-- `ExtractVideoID`. -/
def ExtractVideoID (url : List Byte) : List Byte :=
  match findVideoID url with
  | some id => id
  | none => []

/-! ## `BatchDownloader.DownloadAll`: the goroutines and the semaphore -/

/-- Where the goroutine of one task stands.
* `waiting`: before `bd.semaphore <- struct{}{}`;
* `transferring`: the slot is acquired, `bd.downloader.Download` is running;
* `returned err`: the download returned `err`, `errChan <- err` is next;
* `releasing p`: the deferred `<-bd.semaphore` is next, after the send
  (`p = none`) or after a panic of the download with value `p`;
* `recovering p`: the slot is released, the deferred recovery is next;
* `finished`. -/
inductive UnitPhase where
  | waiting
  | transferring
  | returned (err : GoError)
  | releasing (p : Option String)
  | recovering (p : Option String)
  | finished
  deriving DecidableEq, Repr

/-- The unit is between its acquire and its release. -/
def UnitPhase.holding : UnitPhase → Bool
  | .transferring => true
  | .returned _ => true
  | .releasing _ => true
  | _ => false

/-- The unit is inside its download. -/
def UnitPhase.isTransferring : UnitPhase → Bool
  | .transferring => true
  | _ => false

/-- A state of the goroutines of `DownloadAll`: the number of values in the
channel `bd.semaphore`, the phase of each unit, and the values sent on
`errChan` so far, in order. -/
structure BatchState where
  slots : Nat
  units : List UnitPhase
  errChan : List GoError
  deriving DecidableEq, Repr

/-- The state in which `DownloadAll` has started one goroutine per task. -/
def BatchState.initial (tasks : List DownloadOptions) : BatchState :=
  { slots := 0, units := tasks.map (fun _ => UnitPhase.waiting), errChan := [] }

/-- One step of the goroutine of task `i`, for a semaphore of capacity `W`;
`none` when the goroutine cannot move: it is blocked on the full semaphore, or
finished, or there is no such task. The send on `errChan`, whose buffer holds
one value per task, does not block. -/
def unitStep (W : Nat) (run : Nat → DownloadOptions → UnitOutcome) (tasks : List DownloadOptions)
    (s : BatchState) (i : Nat) : Option BatchState :=
  match s.units[i]?, tasks[i]? with
  | some phase, some opts =>
    match phase with
    | .waiting =>
      if s.slots < W then
        some { s with slots := s.slots + 1, units := s.units.set i .transferring }
      else none
    | .transferring =>
      match run i opts with
      | .returned err => some { s with units := s.units.set i (.returned err) }
      | .panicked r => some { s with units := s.units.set i (.releasing (some r)) }
    | .returned err =>
      some { s with errChan := s.errChan ++ [err], units := s.units.set i (.releasing none) }
    | .releasing p =>
      if s.slots > 0 then
        some { s with slots := s.slots - 1, units := s.units.set i (.recovering p) }
      else none
    | .recovering none => some { s with units := s.units.set i .finished }
    | .recovering (some r) =>
      some { s with
        errChan := s.errChan ++ [.str ("task " ++ toString i ++ " panicked: " ++ r)],
        units := s.units.set i .finished }
    | .finished => none
  | _, _ => none

/-- The state after a schedule: the goroutines named in the list try one step
each, in that order; a goroutine that cannot move leaves the state as it is. -/
def runSchedule (W : Nat) (run : Nat → DownloadOptions → UnitOutcome)
    (tasks : List DownloadOptions) : List Nat → BatchState → BatchState
  | [], s => s
  | i :: rest, s =>
    match unitStep W run tasks s i with
    | some s1 => runSchedule W run tasks rest s1
    | none => runSchedule W run tasks rest s

/-- The state `DownloadAll` has reached after a schedule of its goroutines. -/
def reached (W : Nat) (run : Nat → DownloadOptions → UnitOutcome)
    (tasks : List DownloadOptions) (schedule : List Nat) : BatchState :=
  runSchedule W run tasks schedule (BatchState.initial tasks)

/-- The unit has done its send on `errChan`. -/
def UnitPhase.hasSent : UnitPhase → Bool
  | .releasing none => true
  | .recovering none => true
  | .finished => true
  | _ => false

/-- The phase of a unit agrees with the way its download ends. -/
def UnitPhase.agrees (o : UnitOutcome) : UnitPhase → Prop
  | .returned err => o = .returned err
  | .releasing none => ∃ err, o = .returned err
  | .recovering none => ∃ err, o = .returned err
  | .releasing (some r) => o = .panicked r
  | .recovering (some r) => o = .panicked r
  | _ => True

/-- The values sent on `errChan` so far, listed by task, for units in the
given phases. The first argument is the index of the first task. -/
def sentSoFar (run : Nat → DownloadOptions → UnitOutcome) :
    Nat → List DownloadOptions → List UnitPhase → List GoError
  | idx, t :: ts, phase :: phases =>
    (if phase.hasSent then unitSends idx (run idx t) else []) ++
      sentSoFar run (idx + 1) ts phases
  | _, _, _ => []

/-- A sample batch of two tasks. -/
def twoTasks : List DownloadOptions := fiveTasks.take 2

/-- A sample server that honors range requests for `sampleResource` from byte
2 on, but whose body in attempt 0 breaks off after one byte. -/
def interruptedServer (k : Nat) (_ : Request) : Except GoError Response :=
  if k = 0 then
    .ok { StatusCode := 206, Status := "206 Partial Content", ContentLength := 3,
          Body := [{ result := { data := [30], err := .nil },
                     clock := { check := 50000000, speed := 50000000, update := 50000000 } },
                   { result := { data := [], err := .str "unexpected EOF" },
                     clock := { check := 100000000, speed := 100000000,
                                update := 100000000 } }] }
  else
    .ok { StatusCode := 206, Status := "206 Partial Content", ContentLength := 3,
          Body := chunkedBody [[30, 40], [50]] }

/-- Sample surroundings: `interruptedServer`, a file system without failures. -/
def interruptedEnv : Env :=
  { mkdirErr := .nil, newRequestErr := .nil, transport := interruptedServer,
    openErr := fun _ => .nil, removeErr := fun _ => .nil, quota := none, now := fun _ => 0 }

/-! # Properties -/

/-! ## Arithmetic of `int64` -/

theorem wrapInt64_fits (x : Int) : fitsInt64 (wrapInt64 x) := by
  unfold fitsInt64 wrapInt64
  omega

theorem wrapInt64_of_fits {x : Int} (h : fitsInt64 x) : wrapInt64 x = x := by
  unfold fitsInt64 at h
  unfold wrapInt64
  omega

theorem wrapInt64_emod (x : Int) :
    wrapInt64 x % 18446744073709551616 = x % 18446744073709551616 := by
  unfold wrapInt64
  omega

theorem wrapInt64_congr {a b : Int}
    (h : a % 18446744073709551616 = b % 18446744073709551616) :
    wrapInt64 a = wrapInt64 b := by
  unfold wrapInt64
  omega

theorem wrapInt64_mul_wrap (a d : Int) :
    wrapInt64 (a * wrapInt64 (d * 2)) = wrapInt64 (a * 2 * d) := by
  apply wrapInt64_congr
  have h : wrapInt64 (d * 2) ≡ d * 2 [ZMOD 18446744073709551616] := wrapInt64_emod (d * 2)
  have h2 := h.mul_left a
  have e : a * (d * 2) = a * 2 * d := by ring
  rw [e] at h2
  exact h2

theorem wrapInt64_add_wrap (a b : Int) :
    wrapInt64 (wrapInt64 a + b) = wrapInt64 (a + b) := by
  apply wrapInt64_congr
  have h : wrapInt64 a ≡ a [ZMOD 18446744073709551616] := wrapInt64_emod a
  exact h.add_right b

/-! ## Retry policy -/

theorem delays_length (n : Nat) : ∀ d : Int, (delays d n).length = n := by
  induction n with
  | zero => intro d; rfl
  | succ n ih => intro d; simp [delays, ih]

theorem delays_eq_backoff (n : Nat) :
    ∀ d : Int, fitsInt64 d → delays d n = backoff d n := by
  induction n with
  | zero => intro d _; rfl
  | succ n ih =>
    intro d hd
    rw [delays, ih _ (wrapInt64_fits _)]
    unfold backoff
    rw [List.range_succ_eq_map, List.map_cons, List.map_map]
    simp only [pow_zero, one_mul, wrapInt64_of_fits hd, List.cons.injEq, true_and]
    apply List.map_congr_left
    intro i _
    simp only [Function.comp, pow_succ]
    exact wrapInt64_mul_wrap _ _

theorem backoff_exact (D : Int) (k : Nat) (h : ∀ i, i < k → fitsInt64 (2 ^ i * D)) :
    backoff D k = (List.range k).map (fun i => 2 ^ i * D) := by
  unfold backoff
  apply List.map_congr_left
  intro i hi
  exact wrapInt64_of_fits (h i (List.mem_range.mp hi))

theorem stateAt_shift {σ : Type} (operation : σ → GoError × σ) (s : σ) (i : Nat) :
    stateAt operation (operation s).2 i = stateAt operation s (i + 1) := by
  induction i with
  | zero => rfl
  | succ i ih => simp only [stateAt, ih]

theorem outcomeAt_shift {σ : Type} (operation : σ → GoError × σ) (s : σ) (i : Nat) :
    outcomeAt operation (operation s).2 i = outcomeAt operation s (i + 1) := by
  unfold outcomeAt
  rw [stateAt_shift]

/-- The loop on an operation that fails `k` times and then succeeds, with
more than `k` iterations left. -/
theorem retryLoop_succeeds {σ : Type} (operation : σ → GoError × σ) (k : Nat) :
    ∀ (n : Nat) (delay : Int) (err : GoError) (log : RetryLog σ), k < n →
      (∀ i, i < k → outcomeAt operation log.state i ≠ .nil) →
      outcomeAt operation log.state k = .nil →
      retryLoop operation n delay err log =
        (none, { state := stateAt operation log.state (k + 1),
                 calls := log.calls + (k + 1),
                 sleeps := log.sleeps ++ delays delay k }) := by
  induction k with
  | zero =>
    intro n delay err log hn _ hok
    obtain ⟨m, rfl⟩ : ∃ m, n = m + 1 := ⟨n - 1, by omega⟩
    have h0 : (operation log.state).1 = .nil := hok
    simp [retryLoop, h0, stateAt, delays]
  | succ k ih =>
    intro n delay err log hn hfail hok
    obtain ⟨m, rfl⟩ : ∃ m, n = m + 1 := ⟨n - 1, by omega⟩
    have h0 : (operation log.state).1 ≠ .nil := hfail 0 (by omega)
    have hfail2 : ∀ i, i < k → outcomeAt operation (operation log.state).2 i ≠ .nil := by
      intro i hi
      rw [outcomeAt_shift]
      exact hfail (i + 1) (by omega)
    have hok2 : outcomeAt operation (operation log.state).2 k = .nil := by
      rw [outcomeAt_shift]
      exact hok
    have step := ih m (wrapInt64 (delay * 2)) (operation log.state).1
      { state := (operation log.state).2, calls := log.calls + 1,
        sleeps := log.sleeps ++ [delay] } (by omega) hfail2 hok2
    simp only [retryLoop, h0, if_false]
    rw [step]
    simp only [stateAt_shift, delays, List.append_assoc, List.singleton_append, Prod.mk.injEq,
      true_and]
    congr 1
    omega

/-- The loop on an operation that fails on each of the `n` iterations left. -/
theorem retryLoop_exhausted {σ : Type} (operation : σ → GoError × σ) (n : Nat) :
    ∀ (delay : Int) (err : GoError) (log : RetryLog σ),
      (∀ i, i < n → outcomeAt operation log.state i ≠ .nil) →
      retryLoop operation n delay err log =
        (some (if n = 0 then err else outcomeAt operation log.state (n - 1)),
         { state := stateAt operation log.state n,
           calls := log.calls + n,
           sleeps := log.sleeps ++ delays delay n }) := by
  induction n with
  | zero =>
    intro delay err log _
    simp [retryLoop, stateAt, delays]
  | succ n ih =>
    intro delay err log hfail
    have h0 : (operation log.state).1 ≠ .nil := hfail 0 (by omega)
    have hfail2 : ∀ i, i < n → outcomeAt operation (operation log.state).2 i ≠ .nil := by
      intro i hi
      rw [outcomeAt_shift]
      exact hfail (i + 1) (by omega)
    have step := ih (wrapInt64 (delay * 2)) (operation log.state).1
      { state := (operation log.state).2, calls := log.calls + 1,
        sleeps := log.sleeps ++ [delay] } hfail2
    simp only [retryLoop, h0, if_false]
    rw [step]
    simp only [stateAt_shift, delays, List.append_assoc, List.singleton_append, Prod.mk.injEq,
      Nat.add_one_ne_zero, if_false, Nat.add_sub_cancel]
    refine ⟨?_, ?_⟩
    · cases n with
      | zero => simp [outcomeAt, stateAt]
      | succ n => simp [outcomeAt_shift]
    · congr 1
      omega

/-- The run of `RetryOperation` on an operation that fails on each of its
`N` invocations. -/
theorem RetryOperation_of_exhausted {σ : Type} (operation : σ → GoError × σ) (s : σ)
    (N D : Int) (hfail : ∀ i, i < N.toNat → outcomeAt operation s i ≠ .nil) :
    RetryOperation operation N D s =
      (errorfW ("operation failed after " ++ toString N ++ " retries: ")
        (if N.toNat = 0 then .nil else outcomeAt operation s (N.toNat - 1)),
       { state := stateAt operation s N.toNat, calls := N.toNat,
         sleeps := delays D N.toNat }) := by
  have h := retryLoop_exhausted operation N.toNat D .nil
    { state := s, calls := 0, sleeps := [] } hfail
  unfold RetryOperation
  rw [h]
  simp

/-- Every run of `RetryOperation` is of one of two kinds: some invocation among
the first `N` succeeds after failures only, or all `N` invocations fail. -/
theorem RetryOperation_dichotomy {σ : Type} (operation : σ → GoError × σ) (s : σ) (N : Int) :
    (∃ k : Nat, (k : Int) < N ∧ (∀ i, i < k → outcomeAt operation s i ≠ .nil) ∧
      outcomeAt operation s k = .nil) ∨
    (∀ i, i < N.toNat → outcomeAt operation s i ≠ .nil) := by
  by_cases h : ∀ i, i < N.toNat → outcomeAt operation s i ≠ .nil
  · exact Or.inr h
  · left
    have hex : ∃ i, i < N.toNat ∧ outcomeAt operation s i = .nil := by
      by_contra hno
      apply h
      intro i hi hnil
      exact hno ⟨i, hi, hnil⟩
    classical
    refine ⟨Nat.find hex, ?_, ?_, (Nat.find_spec hex).2⟩
    · have := (Nat.find_spec hex).1
      omega
    · intro i hi hnil
      have hlt : i < N.toNat := lt_trans hi (Nat.find_spec hex).1
      exact Nat.find_min hex hi ⟨hlt, hnil⟩

/-- The run of `RetryOperation` on an operation that fails `k < N` times and
then succeeds. -/
theorem RetryOperation_of_succeeds {σ : Type} (operation : σ → GoError × σ) (s : σ)
    (N D : Int) (k : Nat) (hk : (k : Int) < N)
    (hfail : ∀ i, i < k → outcomeAt operation s i ≠ .nil)
    (hok : outcomeAt operation s k = .nil) :
    RetryOperation operation N D s =
      (.nil, { state := stateAt operation s (k + 1), calls := k + 1, sleeps := delays D k }) := by
  have hn : k < N.toNat := by omega
  have h := retryLoop_succeeds operation k N.toNat D .nil
    { state := s, calls := 0, sleeps := [] } hn hfail hok
  unfold RetryOperation
  rw [h]
  simp

/-- C1. When the operation fails on its first `k` invocations and succeeds on
invocation `k+1`, with `k < N`, `RetryOperation` returns nil, has invoked the
operation exactly `k+1` times and has slept exactly `k` times, with the delays
`D, 2D, 4D, …, 2^(k-1)·D` in that order. The products are those of
`time.Duration` (64-bit) arithmetic; they are the exact integers `2^i·D`
whenever these fit in 64 bits. -/
theorem RetryOperation_fails_then_succeeds {σ : Type} (operation : σ → GoError × σ) (s : σ)
    (N D : Int) (k : Nat) (hD : fitsInt64 D) (hk : (k : Int) < N)
    (hfail : ∀ i, i < k → outcomeAt operation s i ≠ .nil)
    (hok : outcomeAt operation s k = .nil) :
    (RetryOperation operation N D s).1 = .nil ∧
    (RetryOperation operation N D s).2.calls = k + 1 ∧
    (RetryOperation operation N D s).2.sleeps.length = k ∧
    (RetryOperation operation N D s).2.sleeps = backoff D k ∧
    ((∀ i, i < k → fitsInt64 (2 ^ i * D)) →
      (RetryOperation operation N D s).2.sleeps = (List.range k).map (fun i => 2 ^ i * D)) ∧
    (RetryOperation operation N D s).2.state = stateAt operation s (k + 1) := by
  rw [RetryOperation_of_succeeds operation s N D k hk hfail hok]
  refine ⟨rfl, rfl, delays_length k D, delays_eq_backoff k D hD, ?_, rfl⟩
  intro hfit
  rw [delays_eq_backoff k D hD]
  exact backoff_exact D k hfit

/-- C1, at an operation that fails twice and then succeeds, with 3 attempts and
an initial delay of 2 seconds. -/
theorem RetryOperation_fails_then_succeeds_witness :
    (fitsInt64 2000000000 ∧ ((2 : Nat) : Int) < 3 ∧
      (∀ i, i < 2 → outcomeAt (failsFirst 2) 0 i ≠ .nil) ∧
      outcomeAt (failsFirst 2) 0 2 = .nil) ∧
    (RetryOperation (failsFirst 2) 3 2000000000 0).1 = .nil ∧
    (RetryOperation (failsFirst 2) 3 2000000000 0).2.calls = 3 ∧
    (RetryOperation (failsFirst 2) 3 2000000000 0).2.sleeps = [2000000000, 4000000000] := by
  have hD : fitsInt64 2000000000 := by decide
  have hk : ((2 : Nat) : Int) < 3 := by decide
  have hfail : ∀ i, i < 2 → outcomeAt (failsFirst 2) 0 i ≠ .nil := by
    intro i hi
    interval_cases i <;> decide
  have hok : outcomeAt (failsFirst 2) 0 2 = .nil := by decide
  have h := RetryOperation_fails_then_succeeds (failsFirst 2) 0 3 2000000000 2 hD hk hfail hok
  refine ⟨⟨hD, hk, hfail, hok⟩, h.1, h.2.1, ?_⟩
  rw [h.2.2.2.1]
  decide

/-- C2. When `N ≥ 1` and the operation fails on every invocation,
`RetryOperation` invokes it exactly `N` times and returns a non-nil error whose
message reports the attempt count `N` followed by the message of the error of
the last (`N`-th) invocation, and which wraps that error (`Unwrap` returns it),
whatever that error is. -/
theorem RetryOperation_always_fails {σ : Type} (operation : σ → GoError × σ) (s : σ)
    (N D : Int) (hN : 1 ≤ N) (hfail : ∀ i, outcomeAt operation s i ≠ .nil) :
    ((RetryOperation operation N D s).2.calls : Int) = N ∧
    (RetryOperation operation N D s).1 ≠ .nil ∧
    (RetryOperation operation N D s).1 =
      .wrapped ("operation failed after " ++ toString N ++ " retries: " ++
        (outcomeAt operation s (N.toNat - 1)).Error) (outcomeAt operation s (N.toNat - 1)) ∧
    (RetryOperation operation N D s).1.Unwrap = outcomeAt operation s (N.toNat - 1) := by
  have hne : N.toNat ≠ 0 := by omega
  have hlast := hfail (N.toNat - 1)
  have e := RetryOperation_of_exhausted operation s N D (fun i _ => hfail i)
  simp only [hne, if_false] at e
  have w : errorfW ("operation failed after " ++ toString N ++ " retries: ")
        (outcomeAt operation s (N.toNat - 1)) =
      .wrapped ("operation failed after " ++ toString N ++ " retries: " ++
        (outcomeAt operation s (N.toNat - 1)).Error) (outcomeAt operation s (N.toNat - 1)) := by
    generalize outcomeAt operation s (N.toNat - 1) = x at hlast
    cases x <;> first | exact absurd rfl hlast | rfl
  rw [e, w]
  refine ⟨?_, ?_, rfl, rfl⟩
  · simp only
    omega
  · simp

/-- C2, at an operation that fails every time with a network error, with the
downloader's 3 attempts and 2-second initial delay. -/
theorem RetryOperation_always_fails_witness :
    ((1 : Int) ≤ 3 ∧ ∀ i, outcomeAt alwaysFails 0 i ≠ .nil) ∧
    ((RetryOperation alwaysFails 3 2000000000 0).2.calls : Int) = 3 ∧
    (RetryOperation alwaysFails 3 2000000000 0).1 =
      .wrapped "operation failed after 3 retries: attempt 2"
        (NewNetworkError "attempt 2" .nil) := by
  have hN : (1 : Int) ≤ 3 := by decide
  have hfail : ∀ i, outcomeAt alwaysFails 0 i ≠ .nil := by
    intro i
    simp [outcomeAt, alwaysFails, NewNetworkError]
  have h := RetryOperation_always_fails alwaysFails 0 3 2000000000 hN hfail
  refine ⟨⟨hN, hfail⟩, h.1, ?_⟩
  rw [h.2.2.1]
  decide

/-! ## Batch coordinator -/

theorem unitSends_length (idx : Nat) (o : UnitOutcome) : (unitSends idx o).length = 1 := by
  cases o <;> rfl

theorem unitSends_countP (idx : Nat) (o : UnitOutcome) :
    (unitSends idx o).countP (fun e => decide (e ≠ .nil)) = if o.failed then 1 else 0 := by
  cases o with
  | returned err =>
    by_cases h : err = .nil <;> simp [unitSends, UnitOutcome.failed, h]
  | panicked r => simp [unitSends, UnitOutcome.failed]

theorem sentFrom_length (run : Nat → DownloadOptions → UnitOutcome) (tasks : List DownloadOptions) :
    ∀ idx, (sentFrom run idx tasks).length = tasks.length := by
  induction tasks with
  | nil => intro idx; rfl
  | cons t ts ih =>
    intro idx
    simp only [sentFrom, List.length_append, unitSends_length, ih, List.length_cons]
    omega

theorem sentFrom_countP (run : Nat → DownloadOptions → UnitOutcome)
    (tasks : List DownloadOptions) :
    ∀ idx, (sentFrom run idx tasks).countP (fun e => decide (e ≠ .nil)) =
      failuresFrom run idx tasks := by
  induction tasks with
  | nil => intro idx; rfl
  | cons t ts ih =>
    intro idx
    simp only [sentFrom, List.countP_append, unitSends_countP, ih, failuresFrom]

theorem collectResults_enough (n : Nat) :
    ∀ c : Collected, n ≤ c.pending.length →
      collectResults n c =
        some { errors := c.errors ++ (c.pending.take n).filter (fun e => decide (e ≠ .nil)),
               received := c.received + n,
               pending := c.pending.drop n } := by
  induction n with
  | zero => intro c _; simp [collectResults]
  | succ n ih =>
    intro c hc
    obtain ⟨errors, received, pending⟩ := c
    cases pending with
    | nil => simp at hc
    | cons e rest =>
      simp only [List.length_cons, Nat.add_le_add_iff_right] at hc
      simp only [collectResults]
      rw [ih _ hc]
      by_cases h : e = .nil
      · simp [h, Nat.add_assoc, Nat.add_comm 1 n]
      · simp [h, Nat.add_assoc, Nat.add_comm 1 n]

/-- A call of `DownloadAll` whose channel delivers, in any order, the values
sent by the goroutines: it returns after one receive per task, with every
value received, and its error is computed from the non-nil values in arrival
order. -/
theorem DownloadAll_of_perm (run : Nat → DownloadOptions → UnitOutcome)
    (tasks : List DownloadOptions) (errChan : List GoError)
    (harrive : errChan.Perm (sentFrom run 0 tasks)) :
    (errChan.filter (fun e => decide (e ≠ .nil))).length = failuresFrom run 0 tasks ∧
    DownloadAll tasks errChan =
      some
        { err :=
            match errChan.filter (fun e => decide (e ≠ .nil)) with
            | [] => .nil
            | first :: _ =>
              if failuresFrom run 0 tasks = tasks.length then
                .str ("all downloads failed: " ++ fmtV "v" first)
              else
                .str (toString (failuresFrom run 0 tasks) ++ " of " ++ toString tasks.length ++
                  " downloads failed")
          received := tasks.length
          pending := [] } := by
  have hlen : errChan.length = tasks.length := by
    rw [harrive.length_eq, sentFrom_length]
  have hcount : (errChan.filter (fun e => decide (e ≠ .nil))).length =
      failuresFrom run 0 tasks := by
    rw [← List.countP_eq_length_filter, harrive.countP_eq, sentFrom_countP]
  refine ⟨hcount, ?_⟩
  unfold DownloadAll
  rw [collectResults_enough tasks.length _ (by simp [hlen])]
  simp only [List.nil_append, Nat.zero_add, ← hlen, List.take_length, List.drop_length]
  rw [hlen, hcount]

/-- C3. For a batch of `N` tasks of which `K` fail, `0 < K < N`, whatever the
order in which the results arrive, `DownloadAll` returns the error whose
message is `K of N downloads failed`, where `K` counts the tasks whose
download returned a non-nil error (or panicked) and `N` is the number of
tasks. -/
theorem DownloadAll_some_failed (run : Nat → DownloadOptions → UnitOutcome)
    (tasks : List DownloadOptions) (errChan : List GoError)
    (harrive : errChan.Perm (sentFrom run 0 tasks))
    (hpos : 0 < failuresFrom run 0 tasks)
    (hlt : failuresFrom run 0 tasks < tasks.length) :
    (DownloadAll tasks errChan).map (fun r => r.err) =
      some (.str (toString (failuresFrom run 0 tasks) ++ " of " ++ toString tasks.length ++
        " downloads failed")) := by
  obtain ⟨hcount, h⟩ := DownloadAll_of_perm run tasks errChan harrive
  rw [h]
  cases hf : errChan.filter (fun e => decide (e ≠ .nil)) with
  | nil =>
    rw [hf] at hcount
    simp only [List.length_nil] at hcount
    omega
  | cons first rest =>
    have hne : failuresFrom run 0 tasks ≠ tasks.length := by omega
    simp only [Option.map_some', hne, if_false]

/-- C3, at five tasks of which tasks 1 and 3 fail, the results arriving in the
order 3, 0, 1, 4, 2: the aggregate error reads `2 of 5 downloads failed`. -/
theorem DownloadAll_some_failed_witness :
    ([.str "task 3 panicked: index out of range", .nil, .str "download 1 failed", .nil,
        .nil].Perm (sentFrom (failing [1, 3]) 0 fiveTasks) ∧
      0 < failuresFrom (failing [1, 3]) 0 fiveTasks ∧
      failuresFrom (failing [1, 3]) 0 fiveTasks < fiveTasks.length) ∧
    (DownloadAll fiveTasks
        [.str "task 3 panicked: index out of range", .nil, .str "download 1 failed", .nil,
          .nil]).map (fun r => r.err) =
      some (.str "2 of 5 downloads failed") := by
  have harrive : [GoError.str "task 3 panicked: index out of range", .nil,
      .str "download 1 failed", .nil, .nil].Perm (sentFrom (failing [1, 3]) 0 fiveTasks) := by
    decide
  have hpos : 0 < failuresFrom (failing [1, 3]) 0 fiveTasks := by decide
  have hlt : failuresFrom (failing [1, 3]) 0 fiveTasks < fiveTasks.length := by decide
  have h := DownloadAll_some_failed (failing [1, 3]) fiveTasks _ harrive hpos hlt
  refine ⟨⟨harrive, hpos, hlt⟩, ?_⟩
  rw [h]
  decide

/-- C4. For a non-empty batch in which every task fails, whatever the order
in which the results arrive, `DownloadAll` returns the error whose message is
`all downloads failed: ` followed by the message of the first result it
received, which is a failure; no other result enters the returned error. -/
theorem DownloadAll_all_failed (run : Nat → DownloadOptions → UnitOutcome)
    (tasks : List DownloadOptions) (errChan : List GoError)
    (harrive : errChan.Perm (sentFrom run 0 tasks))
    (hne : tasks ≠ [])
    (hall : failuresFrom run 0 tasks = tasks.length) :
    ∃ first rest, errChan = first :: rest ∧ first ≠ .nil ∧
      (DownloadAll tasks errChan).map (fun r => r.err) =
        some (.str ("all downloads failed: " ++ first.Error)) := by
  obtain ⟨hcount, h⟩ := DownloadAll_of_perm run tasks errChan harrive
  have hlen : errChan.length = tasks.length := by
    rw [harrive.length_eq, sentFrom_length]
  have hkeep : errChan.filter (fun e => decide (e ≠ .nil)) = errChan := by
    rw [List.filter_eq_self]
    rw [← List.countP_eq_length, List.countP_eq_length_filter, hcount, hall, hlen]
  cases errChan with
  | nil =>
    simp only [List.length_nil] at hlen
    exact absurd (List.length_eq_zero.mp hlen.symm) hne
  | cons first rest =>
    have hfirst : first ≠ .nil := by
      have hmem := (List.filter_eq_self.mp hkeep) first (List.mem_cons_self _ _)
      simpa using hmem
    refine ⟨first, rest, rfl, hfirst, ?_⟩
    rw [h, hkeep]
    have hv : fmtV "v" first = first.Error := by
      cases first <;> first | exact absurd rfl hfirst | rfl
    simp only [Option.map_some', hall, if_true, hv]

/-- C4, at five tasks that all fail, the result of task 3 arriving first. -/
theorem DownloadAll_all_failed_witness :
    ([.str "task 3 panicked: index out of range", .str "download 0 failed",
        .str "download 1 failed", .str "download 4 failed", .str "download 2 failed"].Perm
        (sentFrom (failing [0, 1, 2, 3, 4]) 0 fiveTasks) ∧
      fiveTasks ≠ [] ∧
      failuresFrom (failing [0, 1, 2, 3, 4]) 0 fiveTasks = fiveTasks.length) ∧
    (DownloadAll fiveTasks
        [.str "task 3 panicked: index out of range", .str "download 0 failed",
          .str "download 1 failed", .str "download 4 failed",
          .str "download 2 failed"]).map (fun r => r.err) =
      some (.str "all downloads failed: task 3 panicked: index out of range") := by
  have harrive : [GoError.str "task 3 panicked: index out of range", .str "download 0 failed",
      .str "download 1 failed", .str "download 4 failed", .str "download 2 failed"].Perm
      (sentFrom (failing [0, 1, 2, 3, 4]) 0 fiveTasks) := by
    decide
  have hne : fiveTasks ≠ [] := by decide
  have hall : failuresFrom (failing [0, 1, 2, 3, 4]) 0 fiveTasks = fiveTasks.length := by decide
  obtain ⟨first, rest, hfr, _, h⟩ :=
    DownloadAll_all_failed (failing [0, 1, 2, 3, 4]) fiveTasks _ harrive hne hall
  refine ⟨⟨harrive, hne, hall⟩, ?_⟩
  rw [h]
  cases hfr
  rfl

/-- C5. For every list of tasks, the empty one included, and whatever the
order in which the results arrive, `DownloadAll` returns; it returns nil if
and only if no task failed; and before returning it has received as many
results as there are tasks, which are all the results sent, one per task. -/
theorem DownloadAll_success_iff (run : Nat → DownloadOptions → UnitOutcome)
    (tasks : List DownloadOptions) (errChan : List GoError)
    (harrive : errChan.Perm (sentFrom run 0 tasks)) :
    ∃ r, DownloadAll tasks errChan = some r ∧
      (r.err = .nil ↔ failuresFrom run 0 tasks = 0) ∧
      r.received = tasks.length ∧ r.pending = [] ∧
      (∀ idx opts, (unitSends idx (run idx opts)).length = 1) := by
  obtain ⟨hcount, h⟩ := DownloadAll_of_perm run tasks errChan harrive
  refine ⟨_, h, ?_, rfl, rfl, fun idx opts => unitSends_length idx _⟩
  cases hf : errChan.filter (fun e => decide (e ≠ .nil)) with
  | nil =>
    rw [hf] at hcount
    simp only [List.length_nil] at hcount
    simp [← hcount]
  | cons first rest =>
    rw [hf] at hcount
    simp only [List.length_cons] at hcount
    have hpos : failuresFrom run 0 tasks ≠ 0 := by omega
    by_cases hall : failuresFrom run 0 tasks = tasks.length
    · have hN : tasks.length ≠ 0 := hall ▸ hpos
      simp [hall, hN]
    · simp [hall, hpos]

/-- C5, at five tasks that all succeed, and at the empty batch. -/
theorem DownloadAll_success_iff_witness :
    [GoError.nil, .nil, .nil, .nil, .nil].Perm (sentFrom (failing []) 0 fiveTasks) ∧
    (∃ r, DownloadAll fiveTasks [.nil, .nil, .nil, .nil, .nil] = some r ∧
      (r.err = .nil ↔ failuresFrom (failing []) 0 fiveTasks = 0) ∧
      r.received = fiveTasks.length ∧ r.pending = [] ∧
      (∀ idx opts, (unitSends idx (failing [] idx opts)).length = 1)) ∧
    DownloadAll fiveTasks [.nil, .nil, .nil, .nil, .nil] =
      some { err := .nil, received := 5, pending := [] } ∧
    DownloadAll [] [] = some { err := .nil, received := 0, pending := [] } := by
  have harrive : [GoError.nil, .nil, .nil, .nil, .nil].Perm
      (sentFrom (failing []) 0 fiveTasks) := by decide
  exact ⟨harrive, DownloadAll_success_iff (failing []) fiveTasks _ harrive, by decide, by decide⟩

/-! ## Transfer executors -/

theorem fileWrite_ok {quota : Option Nat} {content data : List Byte}
    (h : (fileWrite quota content data).2 = .nil) :
    (fileWrite quota content data).1 = content ++ data := by
  unfold fileWrite at h ⊢
  cases quota with
  | none => rfl
  | some q =>
    by_cases hq : content.length + data.length ≤ q
    · simp [hq]
    · simp [hq] at h

/-- A copy of the response body that ends without error has appended to the
file the bytes the body delivers. -/
theorem ioCopy_bodyRead_ok (quota : Option Nat) (body : List ReadStep) :
    ∀ content : List Byte, (ioCopy bodyRead quota () body content).1 = .nil →
      (ioCopy bodyRead quota () body content).2.1 = content ++ streamBytes body := by
  induction body with
  | nil => intro content _; simp [ioCopy, streamBytes]
  | cons step rest ih =>
    intro content h
    have hw : ∀ (hnil : (if step.result.data.length > 0
          then fileWrite quota content step.result.data else (content, GoError.nil)).2 = .nil),
        (if step.result.data.length > 0
          then fileWrite quota content step.result.data else (content, GoError.nil)).1 =
          content ++ step.result.data := by
      intro hnil
      by_cases hpos : step.result.data.length > 0
      · simp only [hpos, if_true] at hnil ⊢
        exact fileWrite_ok hnil
      · have he : step.result.data = [] := List.length_eq_zero.mp (by omega)
        simp [he]
    simp only [ioCopy, bodyRead] at h ⊢
    by_cases hwe : (if step.result.data.length > 0
          then fileWrite quota content step.result.data else (content, GoError.nil)).2 = .nil
    · have hwc := hw hwe
      simp only [hwe, ne_eq, not_true_eq_false, if_false] at h ⊢
      by_cases herr : step.result.err = .nil
      · simp only [herr, not_true_eq_false, if_false] at h ⊢
        rw [ih _ h, hwc]
        simp [streamBytes, herr]
      · simp only [herr, not_false_eq_true, if_true] at h ⊢
        rw [hwc]
        simp [streamBytes, herr]
    · simp only [hwe, ne_eq, not_false_eq_true, if_true] at h

/-- The world an attempt of `DownloadResumable` is in once its request is sent. -/
theorem resumableAttempt_newRequest_failed (env : Env) (opts : DownloadOptions)
    (st : ResumeState) (hnew : env.newRequestErr ≠ .nil) :
    (resumableAttempt env opts st).1 ≠ .nil := by
  simp [resumableAttempt, hnew, NewNetworkError]

theorem resumableAttempt_honored (env : Env) (opts : DownloadOptions) (st : ResumeState)
    (resp : Response) (hnew : env.newRequestErr = .nil)
    (hresp : env.transport st.world.attempts (resumeRequest opts st.startByte) = .ok resp)
    (hpos : 0 < st.startByte) (hstatus : resp.StatusCode = 206) :
    resumableAttempt env opts st =
      resumableWrite env st.world.attempts resp st.startByte
        { st.world with attempts := st.world.attempts + 1,
                        requests := st.world.requests ++ [resumeRequest opts st.startByte] } := by
  have h0 : st.startByte ≠ 0 := by omega
  simp only [resumableAttempt, hnew, ne_eq, not_true_eq_false, if_false, hresp, hstatus,
    and_false, h0, false_and]

theorem resumableAttempt_fallback (env : Env) (opts : DownloadOptions) (st : ResumeState)
    (resp : Response) (hnew : env.newRequestErr = .nil)
    (hresp : env.transport st.world.attempts (resumeRequest opts st.startByte) = .ok resp)
    (hpos : 0 < st.startByte) (hstatus : resp.StatusCode = 200) :
    resumableAttempt env opts st =
      resumableWrite env st.world.attempts resp 0
        { st.world with attempts := st.world.attempts + 1,
                        requests := st.world.requests ++ [resumeRequest opts st.startByte] } := by
  simp only [resumableAttempt, hnew, ne_eq, not_true_eq_false, if_false, hresp, hstatus,
    gt_iff_lt, hpos, true_and, (by decide : ¬ ((200 : Int) = 206)), not_false_eq_true, if_true]

theorem resumableWrite_requests (env : Env) (k : Nat) (resp : Response) (startByte : Int)
    (w : World) :
    (resumableWrite env k resp startByte w).2.world.requests = w.requests ∧
    (resumableWrite env k resp startByte w).2.startByte = startByte := by
  unfold resumableWrite
  by_cases hS : startByte > 0
  · cases hf : w.file with
    | none => simp [hS]
    | some content =>
      by_cases hopen : env.openErr k = .nil
      · by_cases hcopy : (ioCopy bodyRead env.quota () resp.Body content).1 = .nil <;>
          simp [hS, hopen, hcopy]
      · simp [hS, hopen]
  · by_cases hopen : env.openErr k = .nil
    · by_cases hcopy : (ioCopy bodyRead env.quota () resp.Body []).1 = .nil <;>
        simp [hS, hopen, hcopy]
    · simp [hS, hopen]

theorem resumableWrite_create_ok (env : Env) (k : Nat) (resp : Response) (startByte : Int)
    (w : World) (hS : ¬ startByte > 0)
    (hsucc : (resumableWrite env k resp startByte w).1 = .nil) :
    (resumableWrite env k resp startByte w).2.world.file = some (streamBytes resp.Body) := by
  unfold resumableWrite at hsucc ⊢
  simp only [hS, if_false] at hsucc ⊢
  by_cases hopen : env.openErr k = .nil
  · simp only [hopen, ne_eq, not_true_eq_false, if_false] at hsucc ⊢
    by_cases hcopy : (ioCopy bodyRead env.quota () resp.Body []).1 = .nil
    · simp only [hcopy, not_true_eq_false, if_false]
      rw [ioCopy_bodyRead_ok _ _ _ hcopy]
      rfl
    · simp [hcopy, NewDownloadError] at hsucc
  · simp [hopen, NewFileSystemError] at hsucc

theorem resumableWrite_append_ok (env : Env) (k : Nat) (resp : Response) (startByte : Int)
    (w : World) (old : List Byte) (hS : startByte > 0) (hfile : w.file = some old)
    (hsucc : (resumableWrite env k resp startByte w).1 = .nil) :
    (resumableWrite env k resp startByte w).2.world.file =
      some (old ++ streamBytes resp.Body) := by
  unfold resumableWrite at hsucc ⊢
  simp only [hS, if_true, hfile] at hsucc ⊢
  by_cases hopen : env.openErr k = .nil
  · simp only [hopen, ne_eq, not_true_eq_false, if_false] at hsucc ⊢
    by_cases hcopy : (ioCopy bodyRead env.quota () resp.Body old).1 = .nil
    · simp only [hcopy, not_true_eq_false, if_false]
      rw [ioCopy_bodyRead_ok _ _ _ hcopy]
    · simp [hcopy, NewDownloadError] at hsucc
  · simp [hopen, NewFileSystemError] at hsucc

/-- C6. In an attempt of `DownloadResumable` that finds `S > 0` bytes in the
destination file and whose range request is answered with status 200 and a
body delivering the complete resource, a successful attempt leaves in the
file exactly the bytes of the resource: the file is truncated by `os.Create`,
the old `S` bytes are gone, the size is `T` and not `S + T`, and `startByte`
is reset to 0. When the directory can be created, `DownloadResumable` as a
whole returns nil after this single attempt. -/
theorem DownloadResumable_range_ignored (env : Env) (opts : DownloadOptions) (w : World)
    (old resource : List Byte) (resp : Response)
    (hfile : w.file = some old) (hS : 0 < old.length)
    (hresp : env.transport w.attempts (resumeRequest opts old.length) = .ok resp)
    (hstatus : resp.StatusCode = 200)
    (hbody : streamBytes resp.Body = resource)
    (hsucc : (resumableAttempt env opts { startByte := old.length, world := w }).1 = .nil) :
    (resumableAttempt env opts { startByte := old.length, world := w }).2.world.file =
      some resource ∧
    (resumableAttempt env opts { startByte := old.length, world := w }).2.world.file ≠
      some (old ++ resource) ∧
    (resumableAttempt env opts { startByte := old.length, world := w }).2.startByte = 0 ∧
    (env.mkdirErr = .nil →
      (DownloadResumable env opts w).1 = .nil ∧
      (DownloadResumable env opts w).2.calls = 1 ∧
      (DownloadResumable env opts w).2.state.world.file = some resource) := by
  have hpos : ((old.length : Nat) : Int) > 0 := by omega
  have hnew : env.newRequestErr = .nil := by
    by_contra hne
    exact resumableAttempt_newRequest_failed env opts _ hne hsucc
  have e := resumableAttempt_fallback env opts { startByte := old.length, world := w } resp
    hnew hresp hpos hstatus
  have key : (resumableAttempt env opts { startByte := old.length, world := w }).2.world.file =
      some resource ∧
      (resumableAttempt env opts { startByte := old.length, world := w }).2.startByte = 0 := by
    rw [e] at hsucc ⊢
    rw [resumableWrite_create_ok env _ resp 0 _ (by decide) hsucc, hbody]
    exact ⟨rfl, (resumableWrite_requests env _ resp 0 _).2⟩
  refine ⟨key.1, ?_, key.2, ?_⟩
  · rw [key.1]
    intro h
    have hl := congrArg List.length (Option.some.inj h)
    simp only [List.length_append] at hl
    omega
  · intro hmk
    have h1 : outcomeAt (resumableAttempt env opts) { startByte := old.length, world := w } 0 =
        .nil := hsucc
    have h := RetryOperation_of_succeeds (resumableAttempt env opts)
      { startByte := old.length, world := w } 3 (2 * 1000000000) 0 (by decide)
      (fun i hi => absurd hi (Nat.not_lt_zero i)) h1
    simp only [DownloadResumable, hmk, ne_eq, not_true_eq_false, if_false, hfile, h]
    exact ⟨trivial, trivial, key.1⟩

/-- C6, at a file holding 2 stale bytes and a server that ignores the range
request and sends the whole 5-byte resource with status 200. -/
theorem DownloadResumable_range_ignored_witness :
    ((worldWith (some [1, 2])).file = some [1, 2] ∧ 0 < ([1, 2] : List Byte).length ∧
      (resumableAttempt (serverEnv (sampleServer false)) sampleOpts
        { startByte := 2, world := worldWith (some [1, 2]) }).1 = .nil) ∧
    (resumableAttempt (serverEnv (sampleServer false)) sampleOpts
        { startByte := 2, world := worldWith (some [1, 2]) }).2.world.file =
      some [10, 20, 30, 40, 50] ∧
    (DownloadResumable (serverEnv (sampleServer false)) sampleOpts
        (worldWith (some [1, 2]))).2.state.world.file = some [10, 20, 30, 40, 50] := by
  have hsucc : (resumableAttempt (serverEnv (sampleServer false)) sampleOpts
      { startByte := (([1, 2] : List Byte).length : Int),
        world := worldWith (some [1, 2]) }).1 = .nil := by decide
  have h := DownloadResumable_range_ignored (serverEnv (sampleServer false)) sampleOpts
    (worldWith (some [1, 2])) [1, 2] sampleResource
    { StatusCode := 200, Status := "200 OK", ContentLength := 5,
      Body := chunkedBody [[10, 20, 30], [40, 50]] }
    rfl (by decide) rfl rfl (by decide) hsucc
  exact ⟨⟨rfl, by decide, hsucc⟩, h.1, (h.2.2.2 rfl).2.2⟩

/-- C7. In an attempt of `DownloadResumable` that finds `S > 0` bytes in the
destination file, the request carries the header `Range: bytes=S-`; when it
is answered with status 206 and the attempt succeeds, the body is appended
to the existing content: the file holds the old `S` bytes followed by the
bytes delivered, so its size is `T = S + (T - S)`; when the directory can be
created, `DownloadResumable` as a whole returns nil after this single
attempt. An attempt with `S = 0` sends a request without a Range header. -/
theorem DownloadResumable_range_honored (env : Env) (opts : DownloadOptions) (w : World)
    (old rest : List Byte) (resp : Response)
    (hfile : w.file = some old) (hS : 0 < old.length)
    (hresp : env.transport w.attempts (resumeRequest opts old.length) = .ok resp)
    (hstatus : resp.StatusCode = 206)
    (hbody : streamBytes resp.Body = rest)
    (hsucc : (resumableAttempt env opts { startByte := old.length, world := w }).1 = .nil) :
    (resumableAttempt env opts { startByte := old.length, world := w }).2.world.requests =
      w.requests ++ [{ method := "GET", url := opts.URL,
                       range := some ("bytes=" ++ toString (old.length : Int) ++ "-"),
                       userAgent := "red-goose/1.0" }] ∧
    (resumableAttempt env opts { startByte := old.length, world := w }).2.world.file =
      some (old ++ rest) ∧
    (old ++ rest).length = old.length + rest.length ∧
    (old ++ rest).take old.length = old ∧
    (env.mkdirErr = .nil →
      (DownloadResumable env opts w).1 = .nil ∧
      (DownloadResumable env opts w).2.calls = 1 ∧
      (DownloadResumable env opts w).2.state.world.file = some (old ++ rest)) ∧
    (∀ w0 : World, env.newRequestErr = .nil →
      (resumableAttempt env opts { startByte := 0, world := w0 }).2.world.requests =
        w0.requests ++ [{ method := "GET", url := opts.URL, range := none,
                          userAgent := "red-goose/1.0" }]) := by
  have hpos : ((old.length : Nat) : Int) > 0 := by omega
  have hreq : resumeRequest opts (old.length : Int) =
      { method := "GET", url := opts.URL,
        range := some ("bytes=" ++ toString (old.length : Int) ++ "-"),
        userAgent := "red-goose/1.0" } := by
    simp only [resumeRequest, hpos, if_true]
  have hnew : env.newRequestErr = .nil := by
    by_contra hne
    exact resumableAttempt_newRequest_failed env opts _ hne hsucc
  have e := resumableAttempt_honored env opts { startByte := old.length, world := w } resp
    hnew hresp hpos hstatus
  have hfin : (resumableAttempt env opts { startByte := old.length, world := w }).2.world.file =
      some (old ++ rest) := by
    have hsucc2 := hsucc
    rw [e] at hsucc2 ⊢
    refine (resumableWrite_append_ok env _ resp _ _ old hpos ?_ hsucc2).trans ?_
    · exact hfile
    · rw [hbody]
  refine ⟨?_, hfin, List.length_append _ _, List.take_left' rfl, ?_, ?_⟩
  · rw [e, (resumableWrite_requests env _ resp _ _).1, hreq]
  · intro hmk
    have h1 : outcomeAt (resumableAttempt env opts) { startByte := old.length, world := w } 0 =
        .nil := hsucc
    have h := RetryOperation_of_succeeds (resumableAttempt env opts)
      { startByte := old.length, world := w } 3 (2 * 1000000000) 0 (by decide)
      (fun i hi => absurd hi (Nat.not_lt_zero i)) h1
    simp only [DownloadResumable, hmk, ne_eq, not_true_eq_false, if_false, hfile, h]
    exact ⟨trivial, trivial, hfin⟩
  · intro w0 hnew0
    have hreq0 : resumeRequest opts 0 =
        { method := "GET", url := opts.URL, range := none, userAgent := "red-goose/1.0" } := by
      simp [resumeRequest]
    simp only [resumableAttempt, hnew0, ne_eq, not_true_eq_false, if_false, hreq0,
      lt_self_iff_false, gt_iff_lt, false_and, true_and]
    cases env.transport w0.attempts
        { method := "GET", url := opts.URL, range := none, userAgent := "red-goose/1.0" } with
    | error err => rfl
    | ok resp0 =>
      by_cases hst : resp0.StatusCode = 200
      · simp only [hst, not_true_eq_false, if_false]
        exact (resumableWrite_requests env _ resp0 0 _).1
      · simp only [hst, not_false_eq_true, if_true]

/-- C7, at a file holding the first 2 bytes of the 5-byte resource and a
server that honors the range request. -/
theorem DownloadResumable_range_honored_witness :
    ((worldWith (some [10, 20])).file = some [10, 20] ∧ 0 < ([10, 20] : List Byte).length ∧
      (resumableAttempt (serverEnv (sampleServer true)) sampleOpts
        { startByte := 2, world := worldWith (some [10, 20]) }).1 = .nil) ∧
    (resumableAttempt (serverEnv (sampleServer true)) sampleOpts
        { startByte := 2, world := worldWith (some [10, 20]) }).2.world.requests =
      [{ method := "GET", url := "https://cdn.example/v", range := some "bytes=2-",
         userAgent := "red-goose/1.0" }] ∧
    (resumableAttempt (serverEnv (sampleServer true)) sampleOpts
        { startByte := 2, world := worldWith (some [10, 20]) }).2.world.file =
      some [10, 20, 30, 40, 50] ∧
    (DownloadResumable (serverEnv (sampleServer true)) sampleOpts
        (worldWith (some [10, 20]))).2.state.world.file = some [10, 20, 30, 40, 50] := by
  have hsucc : (resumableAttempt (serverEnv (sampleServer true)) sampleOpts
      { startByte := (([10, 20] : List Byte).length : Int),
        world := worldWith (some [10, 20]) }).1 = .nil := by decide
  have h := DownloadResumable_range_honored (serverEnv (sampleServer true)) sampleOpts
    (worldWith (some [10, 20])) [10, 20] [30, 40, 50]
    { StatusCode := 206, Status := "206 Partial Content", ContentLength := 3,
      Body := chunkedBody [[30, 40], [50]] }
    rfl (by decide) rfl rfl (by decide) hsucc
  exact ⟨⟨rfl, by decide, hsucc⟩, h.1, h.2.1, (h.2.2.2.2.1 rfl).2.2⟩

/-- C8. In an attempt of `DownloadResumable` with resume offset `S ≥ 0` that
obtains a response, every status other than the accepted ones (206 when
`S > 0`, 200 when `S = 0`, 200 as the fallback when `S > 0`) makes the attempt
return a `RedGooseError` of kind network with the message `bad status: …`, and
the attempt leaves the destination file, and `startByte`, as they were. -/
theorem DownloadResumable_rejected (env : Env) (opts : DownloadOptions) (st : ResumeState)
    (resp : Response)
    (hS : 0 ≤ st.startByte)
    (hnew : env.newRequestErr = .nil)
    (hresp : env.transport st.world.attempts (resumeRequest opts st.startByte) = .ok resp)
    (hrej : ¬ ((0 < st.startByte ∧ resp.StatusCode = 206) ∨
               (st.startByte = 0 ∧ resp.StatusCode = 200) ∨
               (0 < st.startByte ∧ resp.StatusCode = 200))) :
    (resumableAttempt env opts st).1 = NewNetworkError ("bad status: " ++ resp.Status) .nil ∧
    (resumableAttempt env opts st).1.kind = some .ErrorTypeNetwork ∧
    (resumableAttempt env opts st).2.world.file = st.world.file ∧
    (resumableAttempt env opts st).2.startByte = st.startByte := by
  have h206 : 0 < st.startByte → resp.StatusCode ≠ 206 := fun h1 h2 => hrej (Or.inl ⟨h1, h2⟩)
  have h200 : resp.StatusCode ≠ 200 := by
    intro h
    rcases lt_or_eq_of_le hS with h1 | h1
    · exact hrej (Or.inr (Or.inr ⟨h1, h⟩))
    · exact hrej (Or.inr (Or.inl ⟨h1.symm, h⟩))
  have e : resumableAttempt env opts st =
      (NewNetworkError ("bad status: " ++ resp.Status) .nil,
       { st with world := { st.world with
           attempts := st.world.attempts + 1,
           requests := st.world.requests ++ [resumeRequest opts st.startByte] } }) := by
    simp only [resumableAttempt, hnew, ne_eq, not_true_eq_false, if_false, hresp, h200]
    rcases lt_or_eq_of_le hS with h1 | h1
    · simp [h1, h206 h1]
    · simp [← h1]
  rw [e]
  exact ⟨rfl, rfl, rfl, rfl⟩

/-- C8, at a file holding 2 bytes and a server that answers 404. -/
theorem DownloadResumable_rejected_witness :
    ((0 : Int) ≤ 2 ∧
      ¬ (((0 : Int) < 2 ∧ (404 : Int) = 206) ∨ ((2 : Int) = 0 ∧ (404 : Int) = 200) ∨
         ((0 : Int) < 2 ∧ (404 : Int) = 200))) ∧
    (resumableAttempt (serverEnv missingServer) sampleOpts
        { startByte := 2, world := worldWith (some [10, 20]) }).1 =
      .redGoose .ErrorTypeNetwork "bad status: 404 Not Found" .nil ∧
    (resumableAttempt (serverEnv missingServer) sampleOpts
        { startByte := 2, world := worldWith (some [10, 20]) }).2.world.file =
      some [10, 20] := by
  have hrej : ¬ (((0 : Int) < 2 ∧ (404 : Int) = 206) ∨ ((2 : Int) = 0 ∧ (404 : Int) = 200) ∨
      ((0 : Int) < 2 ∧ (404 : Int) = 200)) := by decide
  have h := DownloadResumable_rejected (serverEnv missingServer) sampleOpts
    { startByte := 2, world := worldWith (some [10, 20]) }
    { StatusCode := 404, Status := "404 Not Found", ContentLength := 0, Body := chunkedBody [] }
    (by decide) rfl rfl hrej
  exact ⟨⟨by decide, hrej⟩, h.1, h.2.2.1⟩

/-- A `Read` of a `ProgressReader` returns what the underlying reader returned. -/
theorem ProgressReader.Read_result (pr : ProgressReader) (step : ReadStep) :
    (pr.Read step).1 = step.result := by
  unfold ProgressReader.Read
  dsimp only
  split_ifs <;> rfl

/-- A `ProgressReader` around the body changes neither the error of the copy
nor the bytes that reach the file. -/
theorem ioCopy_progressRead (quota : Option Nat) (body : List ReadStep) :
    ∀ (r : ProgressReader × List Notification) (content : List Byte),
      (ioCopy progressRead quota r body content).1 =
        (ioCopy bodyRead quota () body content).1 ∧
      (ioCopy progressRead quota r body content).2.1 =
        (ioCopy bodyRead quota () body content).2.1 := by
  induction body with
  | nil => intro r content; exact ⟨rfl, rfl⟩
  | cons step rest ih =>
    intro r content
    have hres : (progressRead r step).1 = step.result := ProgressReader.Read_result r.1 step
    simp only [ioCopy, hres, bodyRead]
    by_cases hwe : (if step.result.data.length > 0
          then fileWrite quota content step.result.data else (content, GoError.nil)).2 = .nil
    · by_cases herr : step.result.err = .nil
      · simp only [hwe, herr, ne_eq, not_true_eq_false, if_false]
        exact ih _ _
      · simp [hwe, herr]
    · simp [hwe]

/-- An attempt of a full download advances the attempt counter by one. -/
theorem transferAttempt_attempts (env : Env) (opts : DownloadOptions) (progress : Bool)
    (w : World) : (transferAttempt env opts progress w).2.attempts = w.attempts + 1 := by
  unfold transferAttempt
  by_cases hnew : env.newRequestErr = .nil
  · simp only [hnew, ne_eq, not_true_eq_false, if_false]
    cases htr : env.transport w.attempts
        { method := "GET", url := opts.URL, range := none, userAgent := "red-goose/1.0" } with
    | error err => rfl
    | ok resp =>
      simp only []
      by_cases hst : resp.StatusCode = 200
      · by_cases hopen : env.openErr w.attempts = .nil
        · cases progress with
          | true =>
            by_cases hc : (ioCopy progressRead env.quota
                (NewProgressReader resp.ContentLength true (env.now w.attempts),
                 w.notifications) resp.Body []).1 = .nil
            · simp [hst, hopen, hc]
            · simp [hst, hopen, hc]
          | false =>
            by_cases hc : (ioCopy bodyRead env.quota () resp.Body []).1 = .nil
            · simp [hst, hopen, hc]
            · simp [hst, hopen, hc]
        · simp [hst, hopen]
      · simp [hst]
  · simp [hnew]

/-- Attempt `i` of a retried full download runs with the attempt counter
advanced by `i`. -/
theorem stateAt_transferAttempt_attempts (env : Env) (opts : DownloadOptions) (progress : Bool)
    (w : World) (i : Nat) :
    (stateAt (transferAttempt env opts progress) w i).attempts = w.attempts + i := by
  induction i with
  | zero => rfl
  | succ i ih =>
    show (transferAttempt env opts progress
      (stateAt (transferAttempt env opts progress) w i)).2.attempts = w.attempts + (i + 1)
    rw [transferAttempt_attempts, ih]
    rfl

/-- An attempt of a full download that returns an error of kind download
leaves no destination file when its removal succeeds, and leaves a file when
its removal fails. -/
theorem transferAttempt_download_kind (env : Env) (opts : DownloadOptions) (progress : Bool)
    (w : World) (h : (transferAttempt env opts progress w).1.kind = some .ErrorTypeDownload) :
    (env.removeErr w.attempts = .nil → (transferAttempt env opts progress w).2.file = none) ∧
    (env.removeErr w.attempts ≠ .nil → (transferAttempt env opts progress w).2.file ≠ none) := by
  unfold transferAttempt at h ⊢
  by_cases hnew : env.newRequestErr = .nil
  · simp only [hnew, ne_eq, not_true_eq_false, if_false] at h ⊢
    cases htr : env.transport w.attempts
        { method := "GET", url := opts.URL, range := none, userAgent := "red-goose/1.0" } with
    | error err => simp [htr, NewNetworkError, GoError.kind] at h
    | ok resp =>
      simp only [htr] at h ⊢
      by_cases hst : resp.StatusCode = 200
      · by_cases hopen : env.openErr w.attempts = .nil
        · cases progress with
          | true =>
            by_cases hc : (ioCopy progressRead env.quota
                (NewProgressReader resp.ContentLength true (env.now w.attempts),
                 w.notifications) resp.Body []).1 = .nil
            · simp [hst, hopen, hc, GoError.kind] at h
            · by_cases hrm : env.removeErr w.attempts = .nil
              · simp [hst, hopen, hc, hrm]
              · simp [hst, hopen, hc, hrm]
          | false =>
            by_cases hc : (ioCopy bodyRead env.quota () resp.Body []).1 = .nil
            · simp [hst, hopen, hc, GoError.kind] at h
            · by_cases hrm : env.removeErr w.attempts = .nil
              · simp [hst, hopen, hc, hrm]
              · simp [hst, hopen, hc, hrm]
        · simp [hst, hopen, NewFileSystemError, GoError.kind] at h
      · simp [hst, NewNetworkError, GoError.kind] at h
  · simp [hnew, NewNetworkError, GoError.kind] at h

/-- A retried full download whose returned error wraps an error of kind
download ends with no file at the destination when the removal of the third
attempt succeeds, and with a file there when that removal fails. -/
theorem retried_transfer_download_kind (env : Env) (opts : DownloadOptions) (progress : Bool)
    (w : World)
    (h : (RetryOperation (transferAttempt env opts progress) 3 (2 * 1000000000) w).1.Unwrap.kind =
      some .ErrorTypeDownload) :
    (env.removeErr (w.attempts + 2) = .nil →
      (RetryOperation (transferAttempt env opts progress) 3 (2 * 1000000000) w).2.state.file =
        none) ∧
    (env.removeErr (w.attempts + 2) ≠ .nil →
      (RetryOperation (transferAttempt env opts progress) 3 (2 * 1000000000) w).2.state.file ≠
        none) := by
  rcases RetryOperation_dichotomy (transferAttempt env opts progress) w 3 with
    ⟨k, hk, hfail, hok⟩ | hfail
  · rw [RetryOperation_of_succeeds _ w 3 _ k hk hfail hok] at h
    simp [GoError.Unwrap, GoError.kind] at h
  · have e := RetryOperation_of_exhausted (transferAttempt env opts progress) w 3
      (2 * 1000000000) hfail
    have h3 : (3 : Int).toNat = 3 := rfl
    simp only [h3, (by decide : ¬ (3 = 0)), if_false, Nat.add_one_sub_one] at e
    have hlast : outcomeAt (transferAttempt env opts progress) w 2 ≠ .nil := hfail 2 (by decide)
    rw [e] at h ⊢
    have hun : (errorfW ("operation failed after " ++ toString (3 : Int) ++ " retries: ")
        (outcomeAt (transferAttempt env opts progress) w 2)).Unwrap =
        outcomeAt (transferAttempt env opts progress) w 2 := by
      generalize outcomeAt (transferAttempt env opts progress) w 2 = x at hlast
      cases x <;> first | exact absurd rfl hlast | rfl
    rw [hun] at h
    have hat := stateAt_transferAttempt_attempts env opts progress w 2
    have hkind := transferAttempt_download_kind env opts progress
      (stateAt (transferAttempt env opts progress) w 2) h
    rw [hat] at hkind
    exact hkind

/-- C9, as the code has it. In an attempt of `Download` or
`DownloadWithProgress` (with or without a progress reader around the body)
that reaches the copy, whenever the copy of the response body to the file
fails with an error `e`, the attempt returns a `RedGooseError` of kind
download with cause `e`; the destination file is gone when the `os.Remove` of
the attempt succeeds, and holds the bytes written so far when it fails. Hence,
when a call of `Download` or `DownloadWithProgress` gets past the creation of
the directory and returns the error of a last attempt that failed in the copy,
no file exists at the destination if the removal of that third attempt
succeeded, and a file exists there if it failed. -/
theorem Download_copy_failure (env : Env) (opts : DownloadOptions) (progress : Bool)
    (w : World) (resp : Response) (e : GoError)
    (hnew : env.newRequestErr = .nil)
    (hresp : env.transport w.attempts
      { method := "GET", url := opts.URL, range := none, userAgent := "red-goose/1.0" } =
      .ok resp)
    (hstatus : resp.StatusCode = 200)
    (hopen : env.openErr w.attempts = .nil)
    (hcopy : (ioCopy bodyRead env.quota () resp.Body []).1 = e)
    (he : e ≠ .nil) :
    ((transferAttempt env opts progress w).1 = NewDownloadError "failed to save file" e ∧
      (transferAttempt env opts progress w).1.kind = some .ErrorTypeDownload ∧
      (transferAttempt env opts progress w).1.Unwrap = e ∧
      (env.removeErr w.attempts = .nil →
        (transferAttempt env opts progress w).2.file = none) ∧
      (env.removeErr w.attempts ≠ .nil →
        (transferAttempt env opts progress w).2.file =
          some (ioCopy bodyRead env.quota () resp.Body []).2.1)) ∧
    (∀ (callback : Bool) (w0 : World), env.mkdirErr = .nil →
      ((Download env opts w0).1.Unwrap.kind = some .ErrorTypeDownload →
        (env.removeErr (w0.attempts + 2) = .nil →
          (Download env opts w0).2.state.file = none) ∧
        (env.removeErr (w0.attempts + 2) ≠ .nil →
          (Download env opts w0).2.state.file ≠ none)) ∧
      ((DownloadWithProgress env opts callback w0).1.Unwrap.kind = some .ErrorTypeDownload →
        (env.removeErr (w0.attempts + 2) = .nil →
          (DownloadWithProgress env opts callback w0).2.state.file = none) ∧
        (env.removeErr (w0.attempts + 2) ≠ .nil →
          (DownloadWithProgress env opts callback w0).2.state.file ≠ none))) := by
  constructor
  · have hp := ioCopy_progressRead env.quota resp.Body
      (NewProgressReader resp.ContentLength true (env.now w.attempts), w.notifications) []
    have hp1 := hp.1
    have hp2 := hp.2
    rw [hcopy] at hp1
    have e1 : (transferAttempt env opts progress w).1 =
        NewDownloadError "failed to save file" e := by
      cases progress with
      | true =>
        simp only [transferAttempt, hnew, ne_eq, not_true_eq_false, if_false, hresp, hstatus,
          hopen, if_true, hp1, he, not_false_eq_true]
      | false =>
        simp only [transferAttempt, hnew, ne_eq, not_true_eq_false, if_false, hresp, hstatus,
          hopen, hcopy, he, not_false_eq_true, if_true, Bool.false_eq_true]
    have e2 : (transferAttempt env opts progress w).1.kind = some .ErrorTypeDownload := by
      rw [e1]
      rfl
    have e3 : (transferAttempt env opts progress w).2.file =
        if env.removeErr w.attempts ≠ .nil then
          some (ioCopy bodyRead env.quota () resp.Body []).2.1
        else none := by
      cases progress with
      | true =>
        simp only [transferAttempt, hnew, ne_eq, not_true_eq_false, if_false, hresp, hstatus,
          hopen, if_true, hp1, hp2, he, not_false_eq_true]
      | false =>
        simp only [transferAttempt, hnew, ne_eq, not_true_eq_false, if_false, hresp, hstatus,
          hopen, hcopy, he, not_false_eq_true, if_true, Bool.false_eq_true]
    refine ⟨e1, e2, ?_, ?_, ?_⟩
    · rw [e1]
      rfl
    · intro hrm
      rw [e3, if_neg (not_not.mpr hrm)]
    · intro hrm
      rw [e3, if_pos hrm]
  · intro callback w0 hmk
    simp only [Download, DownloadWithProgress, hmk, ne_eq, not_true_eq_false, if_false]
    exact ⟨retried_transfer_download_kind env opts _ w0,
      retried_transfer_download_kind env opts _ w0⟩

/-- C9, at a server whose body breaks off after three bytes, with a file
already present at the destination and a file system that removes files. -/
theorem Download_copy_failure_witness :
    ((ioCopy bodyRead (serverEnv brokenServer).quota () [
        { result := { data := [10, 20, 30], err := .nil },
          clock := { check := 150000000, speed := 150000000, update := 150000000 } },
        { result := { data := [], err := .str "unexpected EOF" },
          clock := { check := 200000000, speed := 200000000, update := 200000000 } }] []).1 =
        .str "unexpected EOF" ∧ GoError.str "unexpected EOF" ≠ .nil) ∧
    (transferAttempt (serverEnv brokenServer) sampleOpts true (worldWith (some [1, 2]))).1 =
      .redGoose .ErrorTypeDownload "failed to save file" (.str "unexpected EOF") ∧
    (transferAttempt (serverEnv brokenServer) sampleOpts true (worldWith (some [1, 2]))).2.file =
      none ∧
    (Download (serverEnv brokenServer) sampleOpts (worldWith (some [1, 2]))).1.Error =
      "operation failed after 3 retries: failed to save file: unexpected EOF" ∧
    (Download (serverEnv brokenServer) sampleOpts (worldWith (some [1, 2]))).2.state.file =
      none := by
  have hcopy : (ioCopy bodyRead (serverEnv brokenServer).quota () [
      { result := { data := [10, 20, 30], err := .nil },
        clock := { check := 150000000, speed := 150000000, update := 150000000 } },
      { result := { data := [], err := .str "unexpected EOF" },
        clock := { check := 200000000, speed := 200000000, update := 200000000 } }] []).1 =
      .str "unexpected EOF" := by decide
  have he : GoError.str "unexpected EOF" ≠ .nil := by decide
  have h := Download_copy_failure (serverEnv brokenServer) sampleOpts true
    (worldWith (some [1, 2]))
    { StatusCode := 200, Status := "200 OK", ContentLength := 5,
      Body := [{ result := { data := [10, 20, 30], err := .nil },
                 clock := { check := 150000000, speed := 150000000, update := 150000000 } },
               { result := { data := [], err := .str "unexpected EOF" },
                 clock := { check := 200000000, speed := 200000000, update := 200000000 } }] }
    (.str "unexpected EOF") rfl rfl rfl rfl hcopy he
  refine ⟨⟨hcopy, he⟩, h.1.1, h.1.2.2.2.1 rfl, by decide, ?_⟩
  exact ((h.2 true (worldWith (some [1, 2])) rfl).1 (by decide)).1 rfl

/-- C9 does not hold without a condition on the removal: at a server whose
body breaks off after three bytes and a file system that refuses to remove the
destination file, the copy fails, each attempt of `Download` and of
`DownloadWithProgress` returns the error of kind download with the copy error
as its cause, and the file is still at the destination, holding the three
bytes written, after the attempt and after the whole call whose last attempt
failed in the copy. -/
theorem Download_copy_failure_file_stays :
    (transferAttempt (noRemoveEnv brokenServer) sampleOpts false (worldWith (some [1, 2]))).1 =
      .redGoose .ErrorTypeDownload "failed to save file" (.str "unexpected EOF") ∧
    (transferAttempt (noRemoveEnv brokenServer) sampleOpts false
      (worldWith (some [1, 2]))).2.file = some [10, 20, 30] ∧
    (transferAttempt (noRemoveEnv brokenServer) sampleOpts true (worldWith (some [1, 2]))).1 =
      .redGoose .ErrorTypeDownload "failed to save file" (.str "unexpected EOF") ∧
    (transferAttempt (noRemoveEnv brokenServer) sampleOpts true
      (worldWith (some [1, 2]))).2.file = some [10, 20, 30] ∧
    (Download (noRemoveEnv brokenServer) sampleOpts (worldWith (some [1, 2]))).1.Unwrap =
      .redGoose .ErrorTypeDownload "failed to save file" (.str "unexpected EOF") ∧
    (Download (noRemoveEnv brokenServer) sampleOpts (worldWith (some [1, 2]))).2.calls = 3 ∧
    (Download (noRemoveEnv brokenServer) sampleOpts (worldWith (some [1, 2]))).2.state.file =
      some [10, 20, 30] ∧
    (DownloadWithProgress (noRemoveEnv brokenServer) sampleOpts true
      (worldWith (some [1, 2]))).1.Unwrap =
      .redGoose .ErrorTypeDownload "failed to save file" (.str "unexpected EOF") ∧
    (DownloadWithProgress (noRemoveEnv brokenServer) sampleOpts true
      (worldWith (some [1, 2]))).2.state.file = some [10, 20, 30] := by
  decide

/-! ## Progress stream -/

theorem ProgressReader.Read_downloaded (pr : ProgressReader) (step : ReadStep) :
    (pr.Read step).2.1.downloaded =
      if step.result.data.length > 0 then
        wrapInt64 (pr.downloaded + (step.result.data.length : Int))
      else pr.downloaded := by
  unfold ProgressReader.Read
  dsimp only
  split_ifs <;> rfl

theorem ProgressReader.Read_empty (pr : ProgressReader) (step : ReadStep)
    (h : step.result.data.length = 0) : pr.Read step = (step.result, pr, []) := by
  unfold ProgressReader.Read
  simp [h]

theorem ProgressReader.readAll_results (steps : List ReadStep) :
    ∀ pr : ProgressReader, (pr.readAll steps).1 = steps.map (fun s => s.result) := by
  induction steps with
  | nil => intro pr; rfl
  | cons step rest ih =>
    intro pr
    simp only [ProgressReader.readAll, List.map_cons, ProgressReader.Read_result, ih]

theorem ProgressReader.readAll_downloaded (steps : List ReadStep) :
    ∀ pr : ProgressReader, fitsInt64 pr.downloaded →
      (pr.readAll steps).2.1.downloaded = wrapInt64 (pr.downloaded + (bytesRead steps : Int)) := by
  induction steps with
  | nil =>
    intro pr hfit
    simp [ProgressReader.readAll, bytesRead, wrapInt64_of_fits hfit]
  | cons step rest ih =>
    intro pr hfit
    have hfit2 : fitsInt64 (pr.Read step).2.1.downloaded := by
      rw [ProgressReader.Read_downloaded]
      split_ifs
      · exact wrapInt64_fits _
      · exact hfit
    have hsum : (bytesRead (step :: rest) : Int) =
        (step.result.data.length : Int) + (bytesRead rest : Int) := by
      simp [bytesRead]
    simp only [ProgressReader.readAll]
    rw [ih _ hfit2, ProgressReader.Read_downloaded, hsum]
    split_ifs with hn
    · rw [wrapInt64_add_wrap, add_assoc]
    · have h0 : step.result.data.length = 0 := by omega
      simp [h0]

/-- C10. For every sequence of results of the underlying reader (and every
clock), the `Read` calls of a `ProgressReader` return exactly those results:
the same bytes, hence the same count, and the same error. The counter
`downloaded` after the sequence is the sum of the byte counts returned, as an
`int64`: it is that sum exactly as long as the sum is below `2^63`. A `Read`
that returns 0 bytes leaves the reader as it was and notifies nobody. -/
theorem ProgressReader_transparent (total : Int) (callback : Bool) (now : Int)
    (steps : List ReadStep) :
    ((NewProgressReader total callback now).readAll steps).1 = steps.map (fun s => s.result) ∧
    ((NewProgressReader total callback now).readAll steps).2.1.downloaded =
      wrapInt64 (bytesRead steps) ∧
    ((bytesRead steps : Int) < 9223372036854775808 →
      ((NewProgressReader total callback now).readAll steps).2.1.downloaded = bytesRead steps) ∧
    (∀ (pr : ProgressReader) (step : ReadStep), step.result.data.length = 0 →
      (pr.Read step).1 = step.result ∧ (pr.Read step).2.1 = pr ∧ (pr.Read step).2.2 = []) := by
  have h0 : fitsInt64 (NewProgressReader total callback now).downloaded := by
    show fitsInt64 0
    decide
  have hd := ProgressReader.readAll_downloaded steps _ h0
  have hz : (NewProgressReader total callback now).downloaded = 0 := rfl
  rw [hz, zero_add] at hd
  refine ⟨ProgressReader.readAll_results steps _, hd, ?_, ?_⟩
  · intro hlt
    rw [hd]
    apply wrapInt64_of_fits
    unfold fitsInt64
    constructor <;> omega
  · intro pr step h
    rw [ProgressReader.Read_empty pr step h]
    exact ⟨rfl, rfl, rfl⟩

/-- What a `Read` does to the reader and which notifications it makes: it
fires (more than 100 ms after `lastUpdate`, with at least one byte read) or
it leaves `lastUpdate` alone and is silent. -/
theorem ProgressReader.Read_cases (pr : ProgressReader) (step : ReadStep) :
    (step.clock.check - pr.lastUpdate > 100000000 ∧
      (pr.Read step).2.1.lastUpdate = step.clock.update ∧
      (pr.Read step).2.1.downloaded =
        wrapInt64 (pr.downloaded + (step.result.data.length : Int)) ∧
      (pr.Read step).2.2 =
        if pr.callback then
          [{ downloaded := wrapInt64 (pr.downloaded + (step.result.data.length : Int)),
             total := pr.total,
             speedBytes := wrapInt64 (pr.downloaded + (step.result.data.length : Int)),
             speedElapsed := step.clock.speed - pr.lastUpdate }]
        else []) ∨
    ((pr.Read step).2.1.lastUpdate = pr.lastUpdate ∧ (pr.Read step).2.2 = []) := by
  unfold ProgressReader.Read
  dsimp only
  by_cases h1 : step.result.data.length > 0
  · by_cases h2 : step.clock.check - pr.lastUpdate > 100 * 1000000
    · left
      rw [if_pos h1, if_pos h2]
      exact ⟨by omega, rfl, rfl, rfl⟩
    · right
      rw [if_pos h1, if_neg h2]
      exact ⟨rfl, rfl⟩
  · right
    rw [if_neg h1]
    exact ⟨rfl, rfl⟩

/-- Every notification of a run is made by a `Read` that started more than
100 ms after the `lastUpdate` the run started with. -/
theorem ProgressReader.readAllTimed_after (steps : List ReadStep) :
    ∀ pr : ProgressReader, (∀ s ∈ steps, s.clock.ordered) →
      ∀ e ∈ pr.readAllTimed steps, e.1.check - pr.lastUpdate > 100000000 := by
  induction steps with
  | nil => intro pr _ e he; simp [ProgressReader.readAllTimed] at he
  | cons step rest ih =>
    intro pr hclock e he
    have hstep : step.clock.ordered := hclock step (List.mem_cons_self _ _)
    have hrest : ∀ s ∈ rest, s.clock.ordered := fun s hs => hclock s (List.mem_cons_of_mem _ hs)
    unfold Clock.ordered at hstep
    simp only [ProgressReader.readAllTimed, List.mem_append, List.mem_map] at he
    rcases ProgressReader.Read_cases pr step with ⟨hgt, hlu, _, hnotes⟩ | ⟨hlu, hnotes⟩
    · rcases he with ⟨n, _, rfl⟩ | he
      · exact hgt
      · have := ih _ hrest e he
        rw [hlu] at this
        omega
    · rcases he with ⟨n, hn, _⟩ | he
      · rw [hnotes] at hn
        simp at hn
      · have := ih _ hrest e he
        rw [hlu] at this
        exact this

/-- Without overflow of the counter, every notification of a run carries at
least the count the run started with. -/
theorem ProgressReader.readAllTimed_downloaded_ge (steps : List ReadStep) :
    ∀ pr : ProgressReader, 0 ≤ pr.downloaded →
      pr.downloaded + (bytesRead steps : Int) < 9223372036854775808 →
      ∀ e ∈ pr.readAllTimed steps, pr.downloaded ≤ e.2.downloaded := by
  induction steps with
  | nil => intro pr _ _ e he; simp [ProgressReader.readAllTimed] at he
  | cons step rest ih =>
    intro pr h0 hlt e he
    have hsum : (bytesRead (step :: rest) : Int) =
        (step.result.data.length : Int) + (bytesRead rest : Int) := by
      simp [bytesRead]
    rw [hsum] at hlt
    have hn : (0 : Int) ≤ (step.result.data.length : Int) := Int.natCast_nonneg _
    have hr : (0 : Int) ≤ (bytesRead rest : Int) := Int.natCast_nonneg _
    have hw : wrapInt64 (pr.downloaded + (step.result.data.length : Int)) =
        pr.downloaded + (step.result.data.length : Int) := by
      apply wrapInt64_of_fits
      unfold fitsInt64
      constructor <;> omega
    have hd := ProgressReader.Read_downloaded pr step
    have hd2 : (pr.Read step).2.1.downloaded =
        pr.downloaded + (step.result.data.length : Int) := by
      rw [hd]
      split_ifs with hpos
      · exact hw
      · have : step.result.data.length = 0 := by omega
        simp [this]
    simp only [ProgressReader.readAllTimed, List.mem_append, List.mem_map] at he
    rcases he with ⟨n, hn1, rfl⟩ | he
    · rcases ProgressReader.Read_cases pr step with ⟨_, _, _, hnotes⟩ | ⟨_, hnotes⟩
      · rw [hnotes] at hn1
        split_ifs at hn1
        · simp only [List.mem_singleton] at hn1
          rw [hn1, hw]
          dsimp only
          omega
        · simp at hn1
      · rw [hnotes] at hn1
        simp at hn1
    · have := ih (pr.Read step).2.1 (by rw [hd2]; omega) (by rw [hd2]; omega) e he
      rw [hd2] at this
      omega

theorem ProgressReader.readAllTimed_notifications (steps : List ReadStep) :
    ∀ pr : ProgressReader,
      (pr.readAllTimed steps).map Prod.snd = (pr.readAll steps).2.2 := by
  induction steps with
  | nil => intro pr; rfl
  | cons step rest ih =>
    intro pr
    simp only [ProgressReader.readAllTimed, ProgressReader.readAll, List.map_append,
      List.map_map, ih]
    congr 1
    exact List.map_id _

/-- A `Read` makes at most one notification. -/
theorem ProgressReader.Read_notes_pairwise (pr : ProgressReader) (step : ReadStep)
    (R : Clock × Notification → Clock × Notification → Prop) :
    ((pr.Read step).2.2.map (fun n => (step.clock, n))).Pairwise R := by
  rcases ProgressReader.Read_cases pr step with ⟨_, _, _, hnotes⟩ | ⟨_, hnotes⟩
  · rw [hnotes]
    split_ifs <;> simp
  · rw [hnotes]
    simp

theorem ProgressReader.readAllTimed_spaced (steps : List ReadStep) :
    ∀ pr : ProgressReader, (∀ s ∈ steps, s.clock.ordered) →
      (pr.readAllTimed steps).Pairwise (fun a b => b.1.check - a.1.update > 100000000) := by
  induction steps with
  | nil => intro pr _; simp [ProgressReader.readAllTimed]
  | cons step rest ih =>
    intro pr hclock
    have hrest : ∀ s ∈ rest, s.clock.ordered := fun s hs => hclock s (List.mem_cons_of_mem _ hs)
    simp only [ProgressReader.readAllTimed]
    rw [List.pairwise_append]
    refine ⟨ProgressReader.Read_notes_pairwise pr step _, ih _ hrest, ?_⟩
    intro a ha b hb
    simp only [List.mem_map] at ha
    obtain ⟨n, hn, rfl⟩ := ha
    have hafter := ProgressReader.readAllTimed_after rest (pr.Read step).2.1 hrest b hb
    rcases ProgressReader.Read_cases pr step with ⟨_, hlu, _, _⟩ | ⟨_, hnotes⟩
    · rw [hlu] at hafter
      exact hafter
    · rw [hnotes] at hn
      simp at hn

theorem ProgressReader.readAllTimed_monotone (steps : List ReadStep) :
    ∀ pr : ProgressReader, 0 ≤ pr.downloaded →
      pr.downloaded + (bytesRead steps : Int) < 9223372036854775808 →
      (pr.readAllTimed steps).Pairwise (fun a b => a.2.downloaded ≤ b.2.downloaded) := by
  induction steps with
  | nil => intro pr _ _; simp [ProgressReader.readAllTimed]
  | cons step rest ih =>
    intro pr h0 hlt
    have hsum : (bytesRead (step :: rest) : Int) =
        (step.result.data.length : Int) + (bytesRead rest : Int) := by
      simp [bytesRead]
    rw [hsum] at hlt
    have hn : (0 : Int) ≤ (step.result.data.length : Int) := Int.natCast_nonneg _
    have hr : (0 : Int) ≤ (bytesRead rest : Int) := Int.natCast_nonneg _
    have hw : wrapInt64 (pr.downloaded + (step.result.data.length : Int)) =
        pr.downloaded + (step.result.data.length : Int) := by
      apply wrapInt64_of_fits
      unfold fitsInt64
      constructor <;> omega
    have hd2 : (pr.Read step).2.1.downloaded =
        pr.downloaded + (step.result.data.length : Int) := by
      rw [ProgressReader.Read_downloaded]
      split_ifs with hpos
      · exact hw
      · have : step.result.data.length = 0 := by omega
        simp [this]
    simp only [ProgressReader.readAllTimed]
    rw [List.pairwise_append]
    refine ⟨ProgressReader.Read_notes_pairwise pr step _,
      ih _ (by rw [hd2]; omega) (by rw [hd2]; omega), ?_⟩
    intro a ha b hb
    simp only [List.mem_map] at ha
    obtain ⟨n, hn1, rfl⟩ := ha
    have hge := ProgressReader.readAllTimed_downloaded_ge rest (pr.Read step).2.1
      (by rw [hd2]; omega) (by rw [hd2]; omega) b hb
    rcases ProgressReader.Read_cases pr step with ⟨_, _, hdl, hnotes⟩ | ⟨_, hnotes⟩
    · rw [hnotes] at hn1
      split_ifs at hn1
      · simp only [List.mem_singleton] at hn1
        rw [hn1]
        rw [hdl] at hge
        exact hge
      · simp at hn1
    · rw [hnotes] at hn1
      simp at hn1

/-- C11. Every notification of a `Read` carries the bytes downloaded so far,
the total, and a speed whose numerator is that same cumulative count
`downloaded`, over the time since `lastUpdate`. So a reader constructed at
time 0 with a callback, reading 3 bytes at 150 ms and 3 more bytes at 300 ms,
notifies twice, and the second notification carries a speed of 6 bytes over
150 ms, while 3 bytes were read since the previous sample. -/
theorem ProgressReader_speed_cumulative :
    (∀ (pr : ProgressReader) (step : ReadStep) (n : Notification), n ∈ (pr.Read step).2.2 →
      n.downloaded = wrapInt64 (pr.downloaded + (step.result.data.length : Int)) ∧
      n.total = pr.total ∧
      n.speedBytes = n.downloaded ∧
      n.speedElapsed = step.clock.speed - pr.lastUpdate) ∧
    ((NewProgressReader 6 true 0).readAll [readAt 150 [1, 2, 3], readAt 300 [4, 5, 6]]).2.2 =
      [{ downloaded := 3, total := 6, speedBytes := 3, speedElapsed := 150000000 },
       { downloaded := 6, total := 6, speedBytes := 6, speedElapsed := 150000000 }] ∧
    bytesRead [readAt 300 [4, 5, 6]] = 3 := by
  refine ⟨?_, by decide, by decide⟩
  intro pr step n hn
  rcases ProgressReader.Read_cases pr step with ⟨_, _, _, hnotes⟩ | ⟨_, hnotes⟩
  · rw [hnotes] at hn
    split_ifs at hn
    · simp only [List.mem_singleton] at hn
      rw [hn]
      exact ⟨rfl, rfl, rfl, rfl⟩
    · simp at hn
  · rw [hnotes] at hn
    simp at hn

/-- C12. For every sequence of `Read` calls during each of which the clock
does not run backwards: a `Read` notifies only if, when it checks, more than
100 ms have passed since `lastUpdate`, the time taken right after the
previous notification, or at construction for the first one, and it then
resets `lastUpdate`; so every notification is made more than 100 ms after
construction, and of any two notifications the later is made by a `Read` that
checks more than 100 ms after the `Read` of the earlier one took its last
clock reading. The `downloaded` values carried are non-decreasing, as long as
the bytes read stay below `2^63` (the range of the `int64` counter). -/
theorem ProgressReader_throttled (total : Int) (callback : Bool) (now : Int)
    (steps : List ReadStep) (hclock : ∀ s ∈ steps, s.clock.ordered) :
    (∀ (pr : ProgressReader) (step : ReadStep), (pr.Read step).2.2 ≠ [] →
      step.clock.check - pr.lastUpdate > 100000000 ∧
      (pr.Read step).2.1.lastUpdate = step.clock.update) ∧
    ((NewProgressReader total callback now).readAllTimed steps).map Prod.snd =
      ((NewProgressReader total callback now).readAll steps).2.2 ∧
    (∀ e ∈ (NewProgressReader total callback now).readAllTimed steps,
      e.1.check - now > 100000000) ∧
    ((NewProgressReader total callback now).readAllTimed steps).Pairwise
      (fun a b => b.1.check - a.1.update > 100000000) ∧
    ((bytesRead steps : Int) < 9223372036854775808 →
      ((NewProgressReader total callback now).readAllTimed steps).Pairwise
        (fun a b => a.2.downloaded ≤ b.2.downloaded)) := by
  refine ⟨?_, ProgressReader.readAllTimed_notifications steps _,
    ProgressReader.readAllTimed_after steps _ hclock,
    ProgressReader.readAllTimed_spaced steps _ hclock, ?_⟩
  · intro pr step hne
    rcases ProgressReader.Read_cases pr step with ⟨hgt, hlu, _, _⟩ | ⟨_, hnotes⟩
    · exact ⟨hgt, hlu⟩
    · exact absurd hnotes hne
  · intro hlt
    apply ProgressReader.readAllTimed_monotone steps
    · exact le_refl _
    · show (0 : Int) + (bytesRead steps : Int) < 9223372036854775808
      omega

/-- C12, at reads of 3 bytes at 50, 150, 200 and 300 ms by a reader
constructed at time 0: the reads at 150 and 300 ms notify. -/
theorem ProgressReader_throttled_witness :
    (∀ s ∈ [readAt 50 [1, 2, 3], readAt 150 [4, 5, 6], readAt 200 [7, 8, 9],
        readAt 300 [10, 11, 12]], s.clock.ordered) ∧
    ((NewProgressReader 12 true 0).readAll
        [readAt 50 [1, 2, 3], readAt 150 [4, 5, 6], readAt 200 [7, 8, 9],
          readAt 300 [10, 11, 12]]).2.2.map (fun n => n.downloaded) = [6, 12] ∧
    ((NewProgressReader 12 true 0).readAllTimed
        [readAt 50 [1, 2, 3], readAt 150 [4, 5, 6], readAt 200 [7, 8, 9],
          readAt 300 [10, 11, 12]]).Pairwise
      (fun a b => b.1.check - a.1.update > 100000000) := by
  have hclock : ∀ s ∈ [readAt 50 [1, 2, 3], readAt 150 [4, 5, 6], readAt 200 [7, 8, 9],
      readAt 300 [10, 11, 12]], s.clock.ordered := by decide
  have h := ProgressReader_throttled 12 true 0 _ hclock
  exact ⟨hclock, by decide, h.2.2.2.1⟩

/-! ## File names and extensions -/

theorem ReplaceAll_byte (s : List Byte) (old new : Byte) :
    ReplaceAll s old [new] = s.map (fun c => if c = old then new else c) := by
  unfold ReplaceAll
  induction s with
  | nil => rfl
  | cons c cs ih =>
    simp only [List.flatMap_cons, List.map_cons, ih]
    split_ifs <;> rfl

theorem foldl_ReplaceAll (chars : List Byte) :
    ∀ s : List Byte,
      chars.foldl (fun acc char => ReplaceAll acc char (ascii "_")) s =
        s.map (fun c => chars.foldl (fun b char => if b = char then 95 else b) c) := by
  induction chars with
  | nil => intro s; simp
  | cons ch rest ih =>
    intro s
    have h : ascii "_" = [95] := by decide
    rw [List.foldl_cons, ih, h, ReplaceAll_byte, List.map_map]
    rfl

theorem SanitizeFilename_eq (filename : List Byte) :
    SanitizeFilename filename = (filename.map sanitizeByte).take 200 := by
  unfold SanitizeFilename
  simp only [foldl_ReplaceAll]
  split_ifs with h
  · rfl
  · refine (List.take_of_length_le ?_).symm
    rw [List.length_map] at h ⊢
    omega

set_option maxRecDepth 100000 in
theorem sanitizeByte_eq : ∀ c : Byte, sanitizeByte c = if c ∈ invalid then 95 else c := by
  decide

set_option maxRecDepth 100000 in
theorem sanitizeByte_valid : ∀ c : Byte, sanitizeByte c ∉ invalid := by
  decide

set_option maxRecDepth 100000 in
theorem sanitizeByte_idem : ∀ c : Byte, sanitizeByte (sanitizeByte c) = sanitizeByte c := by
  decide

/-- C13. `SanitizeFilename` is idempotent. -/
theorem SanitizeFilename_idempotent (x : List Byte) :
    SanitizeFilename (SanitizeFilename x) = SanitizeFilename x := by
  have h : ∀ l : List Byte, (l.map sanitizeByte).map sanitizeByte = l.map sanitizeByte := by
    intro l
    induction l with
    | nil => rfl
    | cons c cs ih => rw [List.map_cons, List.map_cons, sanitizeByte_idem, ih]
  rw [SanitizeFilename_eq (SanitizeFilename x), SanitizeFilename_eq x, ← List.map_take,
    List.take_take, Nat.min_self, List.map_take, h]

/-- C14. For every string `x`, `SanitizeFilename x` contains none of the nine
disallowed bytes and is at most 200 long. When `x` is at most 200 long the
output has the length of `x` and is `x` with `_` at each position that held
a disallowed byte. The two short cases of `TestSanitizeFilename` hold. -/
theorem SanitizeFilename_valid (x : List Byte) :
    (∀ b ∈ SanitizeFilename x, b ∉ invalid) ∧
    (SanitizeFilename x).length ≤ 200 ∧
    (x.length ≤ 200 →
      (SanitizeFilename x).length = x.length ∧
      SanitizeFilename x = x.map (fun c => if c ∈ invalid then 95 else c)) ∧
    SanitizeFilename (ascii "test/file:with*invalid?chars.mp4") =
      ascii "test_file_with_invalid_chars.mp4" ∧
    SanitizeFilename (ascii "test-file.mp4") = ascii "test-file.mp4" := by
  refine ⟨?_, ?_, ?_, by decide, by decide⟩
  · intro b hb
    rw [SanitizeFilename_eq] at hb
    have hb2 := List.mem_of_mem_take hb
    rw [List.mem_map] at hb2
    obtain ⟨c, _, rfl⟩ := hb2
    exact sanitizeByte_valid c
  · rw [SanitizeFilename_eq, List.length_take]
    exact Nat.min_le_left _ _
  · intro hlen
    have hmap : x.map sanitizeByte = x.map (fun c => if c ∈ invalid then 95 else c) :=
      List.map_congr_left (fun c _ => sanitizeByte_eq c)
    have e : SanitizeFilename x = x.map (fun c => if c ∈ invalid then 95 else c) := by
      rw [SanitizeFilename_eq, hmap]
      exact List.take_of_length_le (by rw [List.length_map]; exact hlen)
    rw [e]
    exact ⟨List.length_map _ _, rfl⟩

/-- C14, at the file name of the second test case. -/
theorem SanitizeFilename_valid_witness :
    (ascii "test/file:with*invalid?chars.mp4").length ≤ 200 ∧
    (SanitizeFilename (ascii "test/file:with*invalid?chars.mp4")).length =
      (ascii "test/file:with*invalid?chars.mp4").length ∧
    (∀ b ∈ SanitizeFilename (ascii "test/file:with*invalid?chars.mp4"), b ∉ invalid) := by
  have h := SanitizeFilename_valid (ascii "test/file:with*invalid?chars.mp4")
  have hlen : (ascii "test/file:with*invalid?chars.mp4").length ≤ 200 := by decide
  exact ⟨hlen, (h.2.2.1 hlen).1, h.1⟩

set_option maxRecDepth 100000 in
/-- C15, as the test case states it, fails: on the 523-byte input of the test
case "Very long filename", `SanitizeFilename` does not return the 519-byte
value the test expects. -/
theorem SanitizeFilename_veryLong_not_expected :
    veryLongFilename.length = 523 ∧ veryLongExpected.length = 519 ∧
    SanitizeFilename veryLongFilename ≠ veryLongExpected := by
  decide

set_option maxRecDepth 100000 in
/-- C15, amended. On the 523-byte input of the test case "Very long filename",
`SanitizeFilename` returns the first 200 bytes of the input, which are also
the first 200 bytes of the value the test expects: `very_long_filename_`,
three copies of the repeated string, and the first 31 bytes of a fourth. -/
theorem SanitizeFilename_veryLong_truncated :
    SanitizeFilename veryLongFilename = veryLongFilename.take 200 ∧
    SanitizeFilename veryLongFilename = veryLongExpected.take 200 ∧
    SanitizeFilename veryLongFilename =
      ascii ("very_long_filename_a_very_long_string_that_repeats_itself_many_times_" ++
        "a_very_long_string_that_repeats_itself_many_times_" ++
        "a_very_long_string_that_repeats_itself_many_times_" ++
        "a_very_long_string_that_repeats") ∧
    (SanitizeFilename veryLongFilename).length = 200 := by
  decide

/-- `Contains s substr` holds exactly when `substr` is a contiguous part of `s`. -/
theorem Contains_iff_infix (s substr : List Byte) : Contains s substr = true ↔ substr <:+: s := by
  induction s with
  | nil => simp [Contains, List.isEmpty_iff]
  | cons c cs ih =>
    simp only [Contains, Bool.or_eq_true, List.isPrefixOf_iff_prefix, ih, List.infix_cons_iff]

/-- C16. For every MIME type `m`, `GetFileExtension m` is the extension of the
first entry of the table `mp4, webm, mp3, m4a` whose substring `m` contains
(byte for byte, so case matters), else `.unknown`; and it is `.unknown` if and
only if `m` contains none of the four substrings. The cases of
`TestGetFileExtension` hold. -/
theorem GetFileExtension_lookup (m : List Byte) :
    GetFileExtension m = lookupExtension m ∧
    (GetFileExtension m = ascii ".unknown" ↔
      ¬ ascii "mp4" <:+: m ∧ ¬ ascii "webm" <:+: m ∧ ¬ ascii "mp3" <:+: m ∧
        ¬ ascii "m4a" <:+: m) ∧
    GetFileExtension (ascii "video/mp4") = ascii ".mp4" ∧
    GetFileExtension (ascii "video/webm") = ascii ".webm" ∧
    GetFileExtension (ascii "audio/mp3") = ascii ".mp3" ∧
    GetFileExtension (ascii "audio/m4a") = ascii ".m4a" ∧
    GetFileExtension (ascii "application/octet-stream") = ascii ".unknown" ∧
    GetFileExtension (ascii "video/MP4") = ascii ".unknown" ∧
    GetFileExtension (ascii "audio/mp3; codecs=mp4a") = ascii ".mp4" := by
  refine ⟨?_, ?_, by decide, by decide, by decide, by decide, by decide, by decide, by decide⟩
  · unfold GetFileExtension lookupExtension extensionTable
    by_cases h1 : Contains m (ascii "mp4") = true
    · simp [List.find?, h1]
    · by_cases h2 : Contains m (ascii "webm") = true
      · simp [List.find?, h1, h2]
      · by_cases h3 : Contains m (ascii "mp3") = true
        · simp [List.find?, h1, h2, h3]
        · by_cases h4 : Contains m (ascii "m4a") = true
          · simp [List.find?, h1, h2, h3, h4]
          · simp [List.find?, h1, h2, h3, h4]
  · have e1 : ascii ".mp4" ≠ ascii ".unknown" := by decide
    have e2 : ascii ".webm" ≠ ascii ".unknown" := by decide
    have e3 : ascii ".mp3" ≠ ascii ".unknown" := by decide
    have e4 : ascii ".m4a" ≠ ascii ".unknown" := by decide
    simp only [← Contains_iff_infix]
    unfold GetFileExtension
    by_cases h1 : Contains m (ascii "mp4") = true
    · simp [h1, e1]
    · by_cases h2 : Contains m (ascii "webm") = true
      · simp [h1, h2, e2]
      · by_cases h3 : Contains m (ascii "mp3") = true
        · simp [h1, h2, h3, e3]
        · by_cases h4 : Contains m (ascii "m4a") = true
          · simp [h1, h2, h3, h4, e4]
          · simp [h1, h2, h3, h4]

/-! ## Video URLs -/

set_option maxRecDepth 100000 in
/-- Bytes of the class of video ids are none of the delimiters of a URL, nor
control bytes. -/
theorem isIDByte_plain : ∀ c : Byte, isIDByte c = true →
    c ≠ byte '#' ∧ c ≠ byte '?' ∧ c ≠ byte '&' ∧ c ≠ byte '%' ∧ c ≠ byte '/' ∧
      (c < byte ' ' || c == 127) = false := by
  decide

theorem cut_absent (s : List Byte) (sep : Byte) (h : sep ∉ s) : cut s sep = (s, []) := by
  have hall : ∀ b ∈ s, (b != sep) = true := by
    intro b hb
    simp only [bne_iff_ne, ne_eq]
    intro e
    exact h (e ▸ hb)
  unfold cut
  rw [List.takeWhile_eq_self_iff.mpr hall, List.dropWhile_eq_nil_iff.mpr hall]
  rfl

theorem splitQuery_absent (s : List Byte) (h : byte '?' ∉ s) : splitQuery s = (s, []) := by
  unfold splitQuery
  have hl : ¬ (s.getLast? = some (byte '?') ∧ s.count (byte '?') = 1) := by
    intro hh
    exact h (List.mem_of_getLast?_eq_some hh.1)
  rw [if_neg hl, cut_absent s _ h]

theorem getScheme_https (rest : List Byte) :
    getScheme (ascii "https:" ++ rest) = .ok (ascii "https", rest) := by
  rfl

theorem findPlaylistID_none (s : List Byte) (h : ∀ b ∈ s, isIDByte b = true) :
    findPlaylistID s = none := by
  induction s with
  | nil => rfl
  | cons c cs ih =>
    have hc := isIDByte_plain c (h c (List.mem_cons_self _ _))
    have h1 : (c == byte '?') = false := by simpa using hc.2.1
    have h2 : (c == byte '&') = false := by simpa using hc.2.2.1
    simp only [findPlaylistID, matchPlaylistIDAt, h1, h2, Bool.or_self, Bool.false_eq_true,
      false_and, if_false]
    exact ih (fun b hb => h b (List.mem_cons_of_mem _ hb))

theorem videoIDAfter_literal (literal id : List Byte) (hlen : id.length = 11)
    (hid : ∀ b ∈ id, isIDByte b = true) : videoIDAfter literal (literal ++ id) = some id := by
  have hpre : literal.isPrefixOf (literal ++ id) = true := by
    rw [List.isPrefixOf_iff_prefix]
    exact List.prefix_append _ _
  have hdrop : (literal ++ id).drop literal.length = id := List.drop_left _ _
  have htake : id.take 11 = id := List.take_of_length_le (by omega)
  have hall : id.all isIDByte = true := List.all_eq_true.mpr hid
  unfold videoIDAfter
  rw [hdrop, htake, hall, hpre]
  simp [hlen]
theorem id_absent (id : List Byte) (hid : ∀ b ∈ id, isIDByte b = true) :
    byte '#' ∉ id ∧ byte '?' ∉ id ∧ byte '%' ∉ id ∧ stringContainsCTLByte id = false := by
  refine ⟨?_, ?_, ?_, ?_⟩
  · intro h; exact (isIDByte_plain _ (hid _ h)).1 rfl
  · intro h; exact (isIDByte_plain _ (hid _ h)).2.1 rfl
  · intro h; exact (isIDByte_plain _ (hid _ h)).2.2.2.1 rfl
  · unfold stringContainsCTLByte
    rw [List.any_eq_false]
    intro b hb
    rw [(isIDByte_plain b (hid b hb)).2.2.2.2.2]
    simp

theorem getLast?_append_id (pre id : List Byte) (hne : id ≠ [])
    (hid : ∀ b ∈ id, isIDByte b = true) : (pre ++ id).getLast? ≠ some (byte '?') := by
  intro h
  rw [List.getLast?_append_of_ne_nil _ hne] at h
  exact (isIDByte_plain _ (hid _ (List.mem_of_getLast?_eq_some h))).2.1 rfl

/-- What `url.Parse` returns on a watch URL. -/
theorem urlParse_watch (id : List Byte) (hne : id ≠ []) (hid : ∀ b ∈ id, isIDByte b = true) :
    urlParse (ascii "https://www.youtube.com/watch?v=" ++ id) =
      some (.ok { Scheme := ascii "https", Opaque := [], Host := ascii "www.youtube.com",
                  Path := ascii "/watch", RawQuery := ascii "v=" ++ id, Fragment := [] }) := by
  obtain ⟨h1, _, _, h4⟩ := id_absent id hid
  have hhash : byte '#' ∉ ascii "https://www.youtube.com/watch?v=" ++ id := by
    rw [List.mem_append]
    rintro (h | h)
    · revert h; decide
    · exact h1 h
  have hctl : stringContainsCTLByte (ascii "https://www.youtube.com/watch?v=" ++ id) = false := by
    unfold stringContainsCTLByte at h4 ⊢
    rw [List.any_append, h4, Bool.or_false]
    decide
  have hstar : ascii "https://www.youtube.com/watch?v=" ++ id ≠ [byte '*'] := by
    intro h
    have e := congrArg List.head? h
    have hh : (ascii "https://www.youtube.com/watch?v=" ++ id).head? = some (byte 'h') := rfl
    rw [hh] at e
    revert e
    decide
  have hsch : getScheme (ascii "https://www.youtube.com/watch?v=" ++ id) =
      .ok (ascii "https", ascii "//www.youtube.com/watch?v=" ++ id) :=
    getScheme_https (ascii "//www.youtube.com/watch?v=" ++ id)
  have hsplit : splitQuery (ascii "//www.youtube.com/watch?v=" ++ id) =
      (ascii "//www.youtube.com/watch", ascii "v=" ++ id) := by
    unfold splitQuery
    rw [if_neg (fun hh => getLast?_append_id _ id hne hid hh.1)]
    rfl
  have hafter : parseAfterQuery (ToLower (ascii "https")) (ascii "//www.youtube.com/watch")
      (ascii "v=" ++ id) =
      some (.ok { Scheme := ascii "https", Opaque := [], Host := ascii "www.youtube.com",
                  Path := ascii "/watch", RawQuery := ascii "v=" ++ id, Fragment := [] }) := by
    rfl
  unfold urlParse
  rw [cut_absent _ _ hhash]
  simp only [urlParseNoFragment, hctl, hstar, hsch, hsplit, hafter, Bool.false_eq_true,
    if_false, if_true]

/-- What `url.Parse` returns on a short URL. -/
theorem urlParse_short (id : List Byte) (hid : ∀ b ∈ id, isIDByte b = true) :
    urlParse (ascii "https://youtu.be/" ++ id) =
      some (.ok { Scheme := ascii "https", Opaque := [], Host := ascii "youtu.be",
                  Path := ascii "/" ++ id, RawQuery := [], Fragment := [] }) := by
  obtain ⟨h1, h2, h3, h4⟩ := id_absent id hid
  have hhash : byte '#' ∉ ascii "https://youtu.be/" ++ id := by
    rw [List.mem_append]
    rintro (h | h)
    · revert h; decide
    · exact h1 h
  have hctl : stringContainsCTLByte (ascii "https://youtu.be/" ++ id) = false := by
    unfold stringContainsCTLByte at h4 ⊢
    rw [List.any_append, h4, Bool.or_false]
    decide
  have hstar : ascii "https://youtu.be/" ++ id ≠ [byte '*'] := by
    intro h
    have e := congrArg List.head? h
    have hh : (ascii "https://youtu.be/" ++ id).head? = some (byte 'h') := rfl
    rw [hh] at e
    revert e
    decide
  have hsch : getScheme (ascii "https://youtu.be/" ++ id) =
      .ok (ascii "https", ascii "//youtu.be/" ++ id) :=
    getScheme_https (ascii "//youtu.be/" ++ id)
  have hq : byte '?' ∉ ascii "//youtu.be/" ++ id := by
    rw [List.mem_append]
    rintro (h | h)
    · revert h; decide
    · exact h2 h
  have hpath : byte '%' ∉ ascii "/" ++ id := by
    rw [List.mem_append]
    rintro (h | h)
    · revert h; decide
    · exact h3 h
  have hafter : parseAfterQuery (ToLower (ascii "https")) (ascii "//youtu.be/" ++ id) [] =
      finishURL (ascii "https") (ascii "youtu.be") (ascii "/" ++ id) [] := by
    rfl
  unfold urlParse
  rw [cut_absent _ _ hhash]
  simp only [urlParseNoFragment, hctl, hstar, hsch, splitQuery_absent _ hq, hafter, finishURL,
    hpath, Bool.false_eq_true, if_false, if_true]
theorem findVideoID_of_match (s id : List Byte) (h : matchVideoIDAt s = some id) :
    findVideoID s = some id := by
  cases s with
  | nil =>
    have hnone : matchVideoIDAt [] = none := rfl
    rw [hnone] at h
    cases h
  | cons c cs => simp only [findVideoID, h]

theorem findVideoID_watch (id : List Byte) (hlen : id.length = 11)
    (hid : ∀ b ∈ id, isIDByte b = true) :
    findVideoID (ascii "https://www.youtube.com/watch?v=" ++ id) = some id := by
  have hskip : findVideoID (ascii "https://www.youtube.com/watch?v=" ++ id) =
      findVideoID (ascii "youtube.com/watch?v=" ++ id) := rfl
  rw [hskip]
  apply findVideoID_of_match
  unfold matchVideoIDAt
  rw [videoIDAfter_literal _ id hlen hid]

theorem findVideoID_short (id : List Byte) (hlen : id.length = 11)
    (hid : ∀ b ∈ id, isIDByte b = true) :
    findVideoID (ascii "https://youtu.be/" ++ id) = some id := by
  have hskip : findVideoID (ascii "https://youtu.be/" ++ id) =
      findVideoID (ascii "youtu.be/" ++ id) := rfl
  rw [hskip]
  apply findVideoID_of_match
  have h1 : videoIDAfter (ascii "youtube.com/watch?v=") (ascii "youtu.be/" ++ id) = none := rfl
  unfold matchVideoIDAt
  rw [h1, videoIDAfter_literal _ id hlen hid]

theorem findPlaylistID_watch (id : List Byte) (hid : ∀ b ∈ id, isIDByte b = true) :
    findPlaylistID (ascii "https://www.youtube.com/watch?v=" ++ id) = none := by
  have hskip : findPlaylistID (ascii "https://www.youtube.com/watch?v=" ++ id) =
      findPlaylistID id := rfl
  rw [hskip, findPlaylistID_none id hid]

theorem findPlaylistID_short (id : List Byte) (hid : ∀ b ∈ id, isIDByte b = true) :
    findPlaylistID (ascii "https://youtu.be/" ++ id) = none := by
  have hskip : findPlaylistID (ascii "https://youtu.be/" ++ id) = findPlaylistID id := rfl
  rw [hskip, findPlaylistID_none id hid]

/-- C17. For every video id of 11 bytes of the class `[A-Za-z0-9_-]`,
`ParseURL` on `https://www.youtube.com/watch?v=` followed by the id, and on
`https://youtu.be/` followed by the id, returns without error the `VideoInfo`
whose `ID` is the id, whose `URL` is the input and whose `Type` is
`VideoTypeSingle`; `ExtractVideoID` returns the id on both inputs. -/
theorem ParseURL_video (id : List Byte) (hlen : id.length = 11)
    (hid : ∀ b ∈ id, isIDByte b = true) :
    ParseURL (ascii "https://www.youtube.com/watch?v=" ++ id) =
      some (.ok { ID := id, URL := ascii "https://www.youtube.com/watch?v=" ++ id,
                  Type_ := .VideoTypeSingle, Title := [], Duration := [] }) ∧
    ParseURL (ascii "https://youtu.be/" ++ id) =
      some (.ok { ID := id, URL := ascii "https://youtu.be/" ++ id,
                  Type_ := .VideoTypeSingle, Title := [], Duration := [] }) ∧
    ExtractVideoID (ascii "https://www.youtube.com/watch?v=" ++ id) = id ∧
    ExtractVideoID (ascii "https://youtu.be/" ++ id) = id := by
  have hne : id ≠ [] := by
    intro h
    rw [h] at hlen
    simp at hlen
  have hc1 : (!Contains (ascii "www.youtube.com") (ascii "youtube.com") &&
      !Contains (ascii "www.youtube.com") (ascii "youtu.be")) = false := by decide
  have hc2 : (!Contains (ascii "youtu.be") (ascii "youtube.com") &&
      !Contains (ascii "youtu.be") (ascii "youtu.be")) = false := by decide
  refine ⟨?_, ?_, ?_, ?_⟩
  · unfold ParseURL
    rw [urlParse_watch id hne hid]
    simp only [hc1, Bool.false_eq_true, if_false, findVideoID_watch id hlen hid,
      findPlaylistID_watch id hid, hne, false_and]
  · unfold ParseURL
    rw [urlParse_short id hid]
    simp only [hc2, Bool.false_eq_true, if_false, findVideoID_short id hlen hid,
      findPlaylistID_short id hid, hne, false_and]
  · unfold ExtractVideoID
    rw [findVideoID_watch id hlen hid]
  · unfold ExtractVideoID
    rw [findVideoID_short id hlen hid]

set_option maxRecDepth 100000 in
/-- C17, at the id of the test cases. -/
theorem ParseURL_video_witness :
    ((ascii "dQw4w9WgXcQ").length = 11 ∧ ∀ b ∈ ascii "dQw4w9WgXcQ", isIDByte b = true) ∧
    ParseURL (ascii "https://www.youtube.com/watch?v=dQw4w9WgXcQ") =
      some (.ok { ID := ascii "dQw4w9WgXcQ",
                  URL := ascii "https://www.youtube.com/watch?v=dQw4w9WgXcQ",
                  Type_ := .VideoTypeSingle, Title := [], Duration := [] }) ∧
    ParseURL (ascii "https://youtu.be/dQw4w9WgXcQ") =
      some (.ok { ID := ascii "dQw4w9WgXcQ", URL := ascii "https://youtu.be/dQw4w9WgXcQ",
                  Type_ := .VideoTypeSingle, Title := [], Duration := [] }) := by
  have hlen : (ascii "dQw4w9WgXcQ").length = 11 := by decide
  have hid : ∀ b ∈ ascii "dQw4w9WgXcQ", isIDByte b = true := by decide
  have h := ParseURL_video (ascii "dQw4w9WgXcQ") hlen hid
  have e1 : ascii "https://www.youtube.com/watch?v=" ++ ascii "dQw4w9WgXcQ" =
      ascii "https://www.youtube.com/watch?v=dQw4w9WgXcQ" := by decide
  have e2 : ascii "https://youtu.be/" ++ ascii "dQw4w9WgXcQ" =
      ascii "https://youtu.be/dQw4w9WgXcQ" := by decide
  rw [e1, e2] at h
  exact ⟨⟨hlen, hid⟩, h.1, h.2.1⟩

set_option maxRecDepth 100000 in
/-- C18. `ParseURL` rejects the two inputs of the tests that are not YouTube
URLs, but it accepts `https://notyoutube.com/watch?v=dQw4w9WgXcQ`, whose host
`notyoutube.com` is neither `youtube.com` nor `youtu.be` nor a subdomain of
either: the host only contains the text `youtube.com`. It also accepts
`https://youtube.com.evil.org/?list=PL123` as a playlist. -/
theorem ParseURL_accepts_foreign_host :
    ParseURL (ascii "not-a-url") = some (.error (.str "not a YouTube URL")) ∧
    ParseURL (ascii "https://google.com") = some (.error (.str "not a YouTube URL")) ∧
    (urlParse (ascii "https://notyoutube.com/watch?v=dQw4w9WgXcQ")).map
        (fun r => r.toOption.map (fun u => u.Host)) = some (some (ascii "notyoutube.com")) ∧
    ParseURL (ascii "https://notyoutube.com/watch?v=dQw4w9WgXcQ") =
      some (.ok { ID := ascii "dQw4w9WgXcQ",
                  URL := ascii "https://notyoutube.com/watch?v=dQw4w9WgXcQ",
                  Type_ := .VideoTypeSingle, Title := [], Duration := [] }) ∧
    ParseURL (ascii "https://youtube.com.evil.org/?list=PL123") =
      some (.ok { ID := [], URL := ascii "https://youtube.com.evil.org/?list=PL123",
                  Type_ := .VideoTypePlaylist, Title := [], Duration := [] }) := by
  exact ⟨rfl, rfl, rfl, rfl, rfl⟩

/-! ## Bounded concurrency -/

theorem countP_set (p : UnitPhase → Bool) (l : List UnitPhase) :
    ∀ (i : Nat) (old new : UnitPhase), l[i]? = some old →
      (l.set i new).countP p + (if p old then 1 else 0) =
        l.countP p + (if p new then 1 else 0) := by
  induction l with
  | nil => intro i old new h; simp at h
  | cons x xs ih =>
    intro i old new h
    cases i with
    | zero =>
      simp only [List.getElem?_cons_zero, Option.some.injEq] at h
      subst h
      simp only [List.set_cons_zero, List.countP_cons]
      omega
    | succ j =>
      simp only [List.getElem?_cons_succ] at h
      have := ih j old new h
      simp only [List.set_cons_succ, List.countP_cons]
      omega

theorem countP_pos_of_getElem? (p : UnitPhase → Bool) (l : List UnitPhase) (i : Nat)
    (a : UnitPhase) (h : l[i]? = some a) (hp : p a = true) : 0 < l.countP p := by
  rw [List.countP_pos_iff]
  exact ⟨a, List.getElem?_mem h, hp⟩

theorem two_le_countP (p : UnitPhase → Bool) (l : List UnitPhase) :
    ∀ (i j : Nat) (a b : UnitPhase), i < j → l[i]? = some a → l[j]? = some b →
      p a = true → p b = true → 2 ≤ l.countP p := by
  induction l with
  | nil => intro i j a b _ h; simp at h
  | cons x xs ih =>
    intro i j a b hij ha hb hpa hpb
    obtain ⟨j1, rfl⟩ : ∃ j1, j = j1 + 1 := ⟨j - 1, by omega⟩
    simp only [List.getElem?_cons_succ] at hb
    cases i with
    | zero =>
      simp only [List.getElem?_cons_zero, Option.some.injEq] at ha
      subst ha
      have := countP_pos_of_getElem? p xs j1 b hb hpb
      simp only [List.countP_cons, hpa, if_true]
      omega
    | succ i1 =>
      simp only [List.getElem?_cons_succ] at ha
      have := ih i1 j1 a b (by omega) ha hb hpa hpb
      simp only [List.countP_cons]
      omega

/-- A step keeps the number of values in the semaphore equal to the number of
units between acquire and release, and within the capacity. -/
theorem unitStep_invariant (W : Nat) (run : Nat → DownloadOptions → UnitOutcome)
    (tasks : List DownloadOptions) (s s1 : BatchState) (i : Nat)
    (hstep : unitStep W run tasks s i = some s1)
    (hinv : s.slots = s.units.countP UnitPhase.holding ∧ s.slots ≤ W) :
    s1.slots = s1.units.countP UnitPhase.holding ∧ s1.slots ≤ W := by
  unfold unitStep at hstep
  cases hu : s.units[i]? with
  | none => simp [hu] at hstep
  | some phase =>
    cases ht : tasks[i]? with
    | none => simp [hu, ht] at hstep
    | some opts =>
      simp only [hu, ht] at hstep
      have hset := fun new => countP_set UnitPhase.holding s.units i phase new hu
      cases phase with
      | waiting =>
        by_cases hlt : s.slots < W
        · simp only [hlt, if_true, Option.some.injEq] at hstep
          subst hstep
          have := hset .transferring
          simp [UnitPhase.holding] at this
          simp only
          constructor <;> omega
        · simp [hlt] at hstep
      | transferring =>
        cases hr : run i opts with
        | returned err =>
          simp only [hr, Option.some.injEq] at hstep
          subst hstep
          have := hset (.returned err)
          simp [UnitPhase.holding] at this
          simp only
          constructor <;> omega
        | panicked r =>
          simp only [hr, Option.some.injEq] at hstep
          subst hstep
          have := hset (.releasing (some r))
          simp [UnitPhase.holding] at this
          simp only
          constructor <;> omega
      | returned err =>
        simp only [Option.some.injEq] at hstep
        subst hstep
        have := hset (.releasing none)
        simp [UnitPhase.holding] at this
        simp only
        constructor <;> omega
      | releasing p =>
        by_cases hpos : s.slots > 0
        · simp only [hpos, if_true, Option.some.injEq] at hstep
          subst hstep
          have := hset (.recovering p)
          simp [UnitPhase.holding] at this
          simp only
          constructor <;> omega
        · simp [hpos] at hstep
      | recovering p =>
        cases p with
        | none =>
          simp only [Option.some.injEq] at hstep
          subst hstep
          have := hset .finished
          simp [UnitPhase.holding] at this
          simp only
          constructor <;> omega
        | some r =>
          simp only [Option.some.injEq] at hstep
          subst hstep
          have := hset .finished
          simp [UnitPhase.holding] at this
          simp only
          constructor <;> omega
      | finished => simp at hstep

theorem runSchedule_invariant (W : Nat) (run : Nat → DownloadOptions → UnitOutcome)
    (tasks : List DownloadOptions) (schedule : List Nat) :
    ∀ s : BatchState, (s.slots = s.units.countP UnitPhase.holding ∧ s.slots ≤ W) →
      (runSchedule W run tasks schedule s).slots =
        (runSchedule W run tasks schedule s).units.countP UnitPhase.holding ∧
      (runSchedule W run tasks schedule s).slots ≤ W := by
  induction schedule with
  | nil => intro s h; exact h
  | cons i rest ih =>
    intro s h
    simp only [runSchedule]
    cases hstep : unitStep W run tasks s i with
    | none => exact ih s h
    | some s1 => exact ih s1 (unitStep_invariant W run tasks s s1 i hstep h)

theorem initial_invariant (W : Nat) (tasks : List DownloadOptions) :
    (BatchState.initial tasks).slots =
      (BatchState.initial tasks).units.countP UnitPhase.holding ∧
    (BatchState.initial tasks).slots ≤ W := by
  unfold BatchState.initial
  simp only [Nat.zero_le, and_true]
  symm
  rw [List.countP_eq_zero]
  intro a ha
  rw [List.mem_map] at ha
  obtain ⟨_, _, rfl⟩ := ha
  simp [UnitPhase.holding]
/-- From a state in which unit `i` is inside its download, three steps of
that unit take it out of the section between acquire and release and take
one value out of the semaphore, however the download ends. -/
theorem unit_releases (W : Nat) (run : Nat → DownloadOptions → UnitOutcome)
    (tasks : List DownloadOptions) (s : BatchState) (i : Nat) (opts : DownloadOptions)
    (hinv : s.slots = s.units.countP UnitPhase.holding ∧ s.slots ≤ W)
    (ht : tasks[i]? = some opts) (hu : s.units[i]? = some .transferring) :
    (runSchedule W run tasks [i, i, i] s).slots + 1 = s.slots ∧
    ∃ phase, (runSchedule W run tasks [i, i, i] s).units[i]? = some phase ∧
      phase.holding = false := by
  have hlt : i < s.units.length := (List.getElem?_eq_some_iff.mp hu).1
  have hpos : s.slots > 0 := by
    have := countP_pos_of_getElem? UnitPhase.holding s.units i _ hu rfl
    omega
  cases hr : run i opts with
  | returned err =>
    have h1 : unitStep W run tasks s i =
        some { s with units := s.units.set i (.returned err) } := by
      simp only [unitStep, hu, ht, hr]
    have h2 : unitStep W run tasks { s with units := s.units.set i (.returned err) } i =
        some { s with errChan := s.errChan ++ [err],
                      units := s.units.set i (.releasing none) } := by
      simp only [unitStep, List.getElem?_set_self hlt, ht, List.set_set]
    have h3 : unitStep W run tasks
        { s with errChan := s.errChan ++ [err], units := s.units.set i (.releasing none) } i =
        some { s with errChan := s.errChan ++ [err], slots := s.slots - 1,
                      units := s.units.set i (.recovering none) } := by
      simp only [unitStep, List.getElem?_set_self hlt, ht, List.set_set, hpos, if_true]
    simp only [runSchedule, h1, h2, h3]
    refine ⟨by omega, .recovering none, List.getElem?_set_self hlt, rfl⟩
  | panicked r =>
    have h1 : unitStep W run tasks s i =
        some { s with units := s.units.set i (.releasing (some r)) } := by
      simp only [unitStep, hu, ht, hr]
    have h2 : unitStep W run tasks { s with units := s.units.set i (.releasing (some r)) } i =
        some { s with slots := s.slots - 1, units := s.units.set i (.recovering (some r)) } := by
      simp only [unitStep, List.getElem?_set_self hlt, ht, List.set_set, hpos, if_true]
    have h3 : unitStep W run tasks
        { s with slots := s.slots - 1, units := s.units.set i (.recovering (some r)) } i =
        some { s with slots := s.slots - 1,
                      errChan := s.errChan ++
                        [.str ("task " ++ toString i ++ " panicked: " ++ r)],
                      units := s.units.set i .finished } := by
      simp only [unitStep, List.getElem?_set_self hlt, ht, List.set_set]
    simp only [runSchedule, h1, h2, h3]
    refine ⟨by omega, .finished, List.getElem?_set_self hlt, rfl⟩

theorem countP_isTransferring_le (l : List UnitPhase) :
    l.countP UnitPhase.isTransferring ≤ l.countP UnitPhase.holding := by
  apply List.countP_mono_left
  intro a _ h
  cases a <;> simp_all [UnitPhase.isTransferring, UnitPhase.holding]

/-- C19. For every capacity `W` of the semaphore (in particular `W ≥ 1`),
every list of tasks, every way the downloads end and every schedule of the
goroutines, in the state reached the values in the semaphore are as many as
the units between acquire and release, and these are at most `W`; so at most
`W` units are inside their download. With `W = 1` no two units are inside
their download together. A unit inside its download leaves the section and
frees its slot in its next three steps, whether the download returns nil,
returns an error or panics. -/
theorem DownloadAll_bounded (W : Nat) (run : Nat → DownloadOptions → UnitOutcome)
    (tasks : List DownloadOptions) (schedule : List Nat) :
    (reached W run tasks schedule).slots =
      (reached W run tasks schedule).units.countP UnitPhase.holding ∧
    (reached W run tasks schedule).units.countP UnitPhase.holding ≤ W ∧
    (reached W run tasks schedule).units.countP UnitPhase.isTransferring ≤ W ∧
    (W = 1 → ∀ (i j : Nat) (a b : UnitPhase), i < j →
      (reached W run tasks schedule).units[i]? = some a →
      (reached W run tasks schedule).units[j]? = some b →
      ¬ (a.isTransferring = true ∧ b.isTransferring = true)) ∧
    (∀ (i : Nat) (opts : DownloadOptions), tasks[i]? = some opts →
      (reached W run tasks schedule).units[i]? = some .transferring →
      (runSchedule W run tasks [i, i, i] (reached W run tasks schedule)).slots + 1 =
        (reached W run tasks schedule).slots ∧
      ∃ phase,
        (runSchedule W run tasks [i, i, i] (reached W run tasks schedule)).units[i]? =
          some phase ∧ phase.holding = false) := by
  have hinv := runSchedule_invariant W run tasks schedule (BatchState.initial tasks)
    (initial_invariant W tasks)
  have hle := countP_isTransferring_le (reached W run tasks schedule).units
  have hinv2 : (reached W run tasks schedule).slots =
      (reached W run tasks schedule).units.countP UnitPhase.holding ∧
      (reached W run tasks schedule).slots ≤ W := hinv
  refine ⟨hinv2.1, by omega, by omega, ?_, ?_⟩
  · intro hW i j a b hij ha hb hab
    have := two_le_countP UnitPhase.isTransferring _ i j a b hij ha hb hab.1 hab.2
    omega
  · intro i opts ht hu
    exact unit_releases W run tasks _ i opts hinv2 ht hu

/-! ## The values on `errChan` -/

theorem sentSoFar_set_same (run : Nat → DownloadOptions → UnitOutcome)
    (tasks : List DownloadOptions) :
    ∀ (idx : Nat) (phases : List UnitPhase) (i : Nat) (old new : UnitPhase),
      phases[i]? = some old → new.hasSent = old.hasSent →
      sentSoFar run idx tasks (phases.set i new) = sentSoFar run idx tasks phases := by
  induction tasks with
  | nil => intro idx phases i old new _ _; cases phases <;> cases i <;> rfl
  | cons t ts ih =>
    intro idx phases i old new hold hsame
    cases phases with
    | nil => simp at hold
    | cons ph phs =>
      cases i with
      | zero =>
        simp only [List.getElem?_cons_zero, Option.some.injEq] at hold
        subst hold
        simp only [List.set_cons_zero, sentSoFar, hsame]
      | succ j =>
        simp only [List.getElem?_cons_succ] at hold
        simp only [List.set_cons_succ, sentSoFar, ih (idx + 1) phs j old new hold hsame]

theorem sentSoFar_set_sent (run : Nat → DownloadOptions → UnitOutcome)
    (tasks : List DownloadOptions) :
    ∀ (idx : Nat) (phases : List UnitPhase) (i : Nat) (old new : UnitPhase)
      (opts : DownloadOptions),
      phases[i]? = some old → tasks[i]? = some opts →
      old.hasSent = false → new.hasSent = true →
      (sentSoFar run idx tasks (phases.set i new)).Perm
        (sentSoFar run idx tasks phases ++ unitSends (idx + i) (run (idx + i) opts)) := by
  induction tasks with
  | nil => intro idx phases i old new opts _ ht; simp at ht
  | cons t ts ih =>
    intro idx phases i old new opts hold ht hno hyes
    cases phases with
    | nil => simp at hold
    | cons ph phs =>
      cases i with
      | zero =>
        simp only [List.getElem?_cons_zero, Option.some.injEq] at hold ht
        subst hold
        subst ht
        simp only [List.set_cons_zero, sentSoFar, hno, hyes, if_true, Bool.false_eq_true,
          if_false, List.nil_append, Nat.add_zero]
        exact List.perm_append_comm
      | succ j =>
        simp only [List.getElem?_cons_succ] at hold ht
        have h := ih (idx + 1) phs j old new opts hold ht hno hyes
        have e : idx + 1 + j = idx + (j + 1) := by omega
        rw [e] at h
        simp only [List.set_cons_succ, sentSoFar, List.append_assoc]
        exact List.Perm.append_left _ h

theorem sentSoFar_finished (run : Nat → DownloadOptions → UnitOutcome)
    (tasks : List DownloadOptions) :
    ∀ (idx : Nat) (phases : List UnitPhase), phases.length = tasks.length →
      (∀ ph ∈ phases, ph = .finished) →
      sentSoFar run idx tasks phases = sentFrom run idx tasks := by
  induction tasks with
  | nil => intro idx phases _ _; cases phases <;> rfl
  | cons t ts ih =>
    intro idx phases hlen hall
    cases phases with
    | nil => simp at hlen
    | cons ph phs =>
      have hph : ph = .finished := hall ph (List.mem_cons_self _ _)
      subst hph
      simp only [List.length_cons, Nat.add_right_cancel_iff] at hlen
      simp only [sentSoFar, sentFrom, UnitPhase.hasSent, if_true]
      rw [ih (idx + 1) phs hlen (fun p hp => hall p (List.mem_cons_of_mem _ hp))]

/-- What a step keeps true of `errChan`: it holds, in some order, the values
sent so far by the units, whose phases agree with how their downloads end. -/
theorem unitStep_errChan (W : Nat) (run : Nat → DownloadOptions → UnitOutcome)
    (tasks : List DownloadOptions) (s s1 : BatchState) (i : Nat)
    (hstep : unitStep W run tasks s i = some s1)
    (hlen : s.units.length = tasks.length)
    (hagree : ∀ (j : Nat) (ph : UnitPhase) (o : DownloadOptions), s.units[j]? = some ph →
      tasks[j]? = some o → ph.agrees (run j o))
    (hperm : s.errChan.Perm (sentSoFar run 0 tasks s.units)) :
    s1.units.length = tasks.length ∧
    (∀ (j : Nat) (ph : UnitPhase) (o : DownloadOptions), s1.units[j]? = some ph →
      tasks[j]? = some o → ph.agrees (run j o)) ∧
    s1.errChan.Perm (sentSoFar run 0 tasks s1.units) := by
  unfold unitStep at hstep
  cases hu : s.units[i]? with
  | none => simp [hu] at hstep
  | some phase =>
    cases ht : tasks[i]? with
    | none => simp [hu, ht] at hstep
    | some opts =>
      simp only [hu, ht] at hstep
      have hi : i < s.units.length := (List.getElem?_eq_some_iff.mp hu).1
      have hag := hagree i phase opts hu ht
      -- agreement of the phases after a unit moves to `new`
      have hagree' : ∀ new : UnitPhase, new.agrees (run i opts) →
          ∀ (j : Nat) (ph : UnitPhase) (o : DownloadOptions),
            (s.units.set i new)[j]? = some ph → tasks[j]? = some o → ph.agrees (run j o) := by
        intro new hnew j ph o hj ho
        rw [List.getElem?_set] at hj
        by_cases hij : i = j
        · subst hij
          simp only [if_true, hi] at hj
          rw [ht] at ho
          cases ho
          cases hj
          exact hnew
        · simp only [hij, if_false] at hj
          exact hagree j ph o hj ho
      have hsame := fun new h => sentSoFar_set_same run tasks 0 s.units i phase new hu h
      have hsent := fun new h1 h2 =>
        sentSoFar_set_sent run tasks 0 s.units i phase new opts hu ht h1 h2
      cases phase with
      | waiting =>
        by_cases hlt : s.slots < W
        · simp only [hlt, if_true, Option.some.injEq] at hstep
          subst hstep
          refine ⟨by simpa using hlen, hagree' _ trivial, ?_⟩
          simp only
          rw [hsame .transferring rfl]
          exact hperm
        · simp [hlt] at hstep
      | transferring =>
        cases hr : run i opts with
        | returned err =>
          simp only [hr, Option.some.injEq] at hstep
          subst hstep
          refine ⟨by simpa using hlen, hagree' _ hr, ?_⟩
          simp only
          rw [hsame (.returned err) rfl]
          exact hperm
        | panicked r =>
          simp only [hr, Option.some.injEq] at hstep
          subst hstep
          refine ⟨by simpa using hlen, hagree' _ hr, ?_⟩
          simp only
          rw [hsame (.releasing (some r)) rfl]
          exact hperm
      | returned err =>
        simp only [Option.some.injEq] at hstep
        subst hstep
        have hrun : run i opts = .returned err := hag
        refine ⟨by simpa using hlen, hagree' _ ⟨err, hrun⟩, ?_⟩
        simp only
        have h := hsent (.releasing none) rfl rfl
        rw [Nat.zero_add, hrun] at h
        exact (List.Perm.append_right _ hperm).trans h.symm
      | releasing p =>
        by_cases hpos : s.slots > 0
        · simp only [hpos, if_true, Option.some.injEq] at hstep
          subst hstep
          cases p with
          | none =>
            refine ⟨by simpa using hlen, hagree' _ hag, ?_⟩
            simp only
            rw [hsame (.recovering none) rfl]
            exact hperm
          | some r =>
            refine ⟨by simpa using hlen, hagree' _ hag, ?_⟩
            simp only
            rw [hsame (.recovering (some r)) rfl]
            exact hperm
        · simp [hpos] at hstep
      | recovering p =>
        cases p with
        | none =>
          simp only [Option.some.injEq] at hstep
          subst hstep
          refine ⟨by simpa using hlen, hagree' _ trivial, ?_⟩
          simp only
          rw [hsame .finished rfl]
          exact hperm
        | some r =>
          simp only [Option.some.injEq] at hstep
          subst hstep
          have hrun : run i opts = .panicked r := hag
          refine ⟨by simpa using hlen, hagree' _ trivial, ?_⟩
          simp only
          have h := hsent .finished rfl rfl
          rw [Nat.zero_add, hrun] at h
          exact (List.Perm.append_right _ hperm).trans h.symm
      | finished => simp at hstep

theorem runSchedule_errChan (W : Nat) (run : Nat → DownloadOptions → UnitOutcome)
    (tasks : List DownloadOptions) (schedule : List Nat) :
    ∀ s : BatchState, s.units.length = tasks.length →
      (∀ (j : Nat) (ph : UnitPhase) (o : DownloadOptions), s.units[j]? = some ph →
        tasks[j]? = some o → ph.agrees (run j o)) →
      s.errChan.Perm (sentSoFar run 0 tasks s.units) →
      (runSchedule W run tasks schedule s).units.length = tasks.length ∧
      (runSchedule W run tasks schedule s).errChan.Perm
        (sentSoFar run 0 tasks (runSchedule W run tasks schedule s).units) := by
  induction schedule with
  | nil => intro s h1 _ h3; exact ⟨h1, h3⟩
  | cons i rest ih =>
    intro s h1 h2 h3
    simp only [runSchedule]
    cases hstep : unitStep W run tasks s i with
    | none => exact ih s h1 h2 h3
    | some s1 =>
      obtain ⟨a, b, c⟩ := unitStep_errChan W run tasks s s1 i hstep h1 h2 h3
      exact ih s1 a b c

/-- Once every goroutine has finished, `errChan` holds exactly the values
sent by the goroutines, one per task, in the order of their sends. -/
theorem reached_errChan_perm (W : Nat) (run : Nat → DownloadOptions → UnitOutcome)
    (tasks : List DownloadOptions) (schedule : List Nat)
    (hdone : ∀ ph ∈ (reached W run tasks schedule).units, ph = .finished) :
    (reached W run tasks schedule).errChan.Perm (sentFrom run 0 tasks) := by
  have hinit_len : (BatchState.initial tasks).units.length = tasks.length := by
    simp [BatchState.initial]
  have hinit_agree : ∀ (j : Nat) (ph : UnitPhase) (o : DownloadOptions),
      (BatchState.initial tasks).units[j]? = some ph → tasks[j]? = some o →
      ph.agrees (run j o) := by
    intro j ph o hj _
    have hmem := List.getElem?_mem hj
    simp only [BatchState.initial, List.mem_map] at hmem
    obtain ⟨_, _, rfl⟩ := hmem
    trivial
  have hinit_perm : (BatchState.initial tasks).errChan.Perm
      (sentSoFar run 0 tasks (BatchState.initial tasks).units) := by
    have : ∀ (idx : Nat) (ts : List DownloadOptions),
        sentSoFar run idx ts (ts.map (fun _ => UnitPhase.waiting)) = [] := by
      intro idx ts
      induction ts generalizing idx with
      | nil => rfl
      | cons t ts ih =>
        simp only [List.map_cons, sentSoFar, UnitPhase.hasSent, Bool.false_eq_true, if_false,
          List.nil_append]
        exact ih _
    simp only [BatchState.initial, this]
    exact List.Perm.refl _
  obtain ⟨hlen, hperm⟩ := runSchedule_errChan W run tasks schedule _ hinit_len hinit_agree
    hinit_perm
  have e := sentSoFar_finished run tasks 0 (reached W run tasks schedule).units hlen hdone
  unfold reached at e hdone ⊢
  rw [e] at hperm
  exact hperm

set_option maxRecDepth 100000 in
/-- A run of two tasks through a semaphore of capacity 1 in which unit 1 is
scheduled first at every turn: unit 1 gets the slot, unit 0 cannot move until
it is released, and the results arrive in the order 1, 0. -/
theorem reached_two_tasks :
    reached 1 (failing [1]) twoTasks [1, 0, 1, 0, 1, 0] =
      { slots := 1, units := [.waiting, .releasing none],
        errChan := [.str "download 1 failed"] } ∧
    reached 1 (failing [1]) twoTasks [1, 0, 1, 0, 1, 0, 1, 0, 1, 0, 0, 0, 0] =
      { slots := 0, units := [.finished, .finished],
        errChan := [.str "download 1 failed", .nil] } ∧
    DownloadAll twoTasks [.str "download 1 failed", .nil] =
      some { err := .str "1 of 2 downloads failed", received := 2, pending := [] } := by
  decide

/-! ## Total backoff -/

theorem backoff_sum (D : Int) (n : Nat) :
    ((List.range n).map (fun i => 2 ^ i * D)).sum = (2 ^ n - 1) * D := by
  induction n with
  | zero => simp
  | succ n ih =>
    rw [List.range_succ, List.map_append, List.sum_append, ih]
    simp only [List.map_cons, List.map_nil, List.sum_cons, List.sum_nil, add_zero]
    ring

/-- C20. For `N ≥ 1` and an operation that fails on every invocation,
`RetryOperation` invokes it `N` times and sleeps `N` times, once after each
failed attempt, the last one included, with the delays `D, 2D, …, 2^(N-1)·D`
of `time.Duration` (64-bit) arithmetic; when these products fit in 64 bits
they are the exact integers and add up to `(2^N - 1)·D`. For the downloader's
3 attempts and 2 seconds this is 2 s + 4 s + 8 s = 14 s, which `Download`
spends sleeping when its three attempts fail. For `N ≤ 0` the function
returns a non-nil error without invoking the operation or sleeping. -/
theorem RetryOperation_total_backoff {σ : Type} (operation : σ → GoError × σ) (s : σ)
    (N D : Int) (hD : fitsInt64 D) :
    (1 ≤ N → (∀ i, outcomeAt operation s i ≠ .nil) →
      (RetryOperation operation N D s).1 ≠ .nil ∧
      ((RetryOperation operation N D s).2.calls : Int) = N ∧
      ((RetryOperation operation N D s).2.sleeps.length : Int) = N ∧
      (RetryOperation operation N D s).2.sleeps = backoff D N.toNat ∧
      ((∀ i, i < N.toNat → fitsInt64 (2 ^ i * D)) →
        (RetryOperation operation N D s).2.sleeps =
          (List.range N.toNat).map (fun i => 2 ^ i * D) ∧
        (RetryOperation operation N D s).2.sleeps.sum = (2 ^ N.toNat - 1) * D)) ∧
    (N ≤ 0 →
      (RetryOperation operation N D s).1 ≠ .nil ∧
      (RetryOperation operation N D s).2.calls = 0 ∧
      (RetryOperation operation N D s).2.sleeps = [] ∧
      (RetryOperation operation N D s).2.state = s) ∧
    (∀ (env : Env) (opts : DownloadOptions) (w : World), env.mkdirErr = .nil →
      (∀ i, outcomeAt (transferAttempt env opts opts.ShowProgress) w i ≠ .nil) →
      (Download env opts w).2.sleeps = [2000000000, 4000000000, 8000000000] ∧
      (Download env opts w).2.sleeps.sum = 14 * 1000000000) := by
  refine ⟨?_, ?_, ?_⟩
  · intro hN hfail
    have e := RetryOperation_of_exhausted operation s N D (fun i _ => hfail i)
    have hne : N.toNat ≠ 0 := by omega
    have hlast := hfail (N.toNat - 1)
    simp only [hne, if_false] at e
    rw [e]
    refine ⟨?_, by simp only; omega, ?_, delays_eq_backoff _ D hD, ?_⟩
    · generalize outcomeAt operation s (N.toNat - 1) = x at hlast
      cases x <;> first | exact absurd rfl hlast | simp [errorfW]
    · simp only [delays_length]
      omega
    · intro hfit
      simp only
      rw [delays_eq_backoff _ D hD, backoff_exact D _ hfit]
      exact ⟨rfl, backoff_sum D _⟩
  · intro hN
    have h0 : N.toNat = 0 := by omega
    have e := RetryOperation_of_exhausted operation s N D
      (fun i hi => absurd hi (by omega))
    simp only [h0, if_true] at e
    rw [e]
    exact ⟨by simp [errorfW], rfl, rfl, rfl⟩
  · intro env opts w hmk hfail
    have e := RetryOperation_of_exhausted (transferAttempt env opts opts.ShowProgress) w 3
      (2 * 1000000000) (fun i _ => hfail i)
    simp only [Download, hmk, ne_eq, not_true_eq_false, if_false, e]
    exact ⟨by decide, by decide⟩

/-- C20, at an operation that always fails, with 3 attempts and 2 seconds,
and with 0 attempts. -/
theorem RetryOperation_total_backoff_witness :
    fitsInt64 2000000000 ∧
    (RetryOperation alwaysFails 3 2000000000 0).2.sleeps =
      [2000000000, 4000000000, 8000000000] ∧
    (RetryOperation alwaysFails 3 2000000000 0).2.sleeps.sum = 14000000000 ∧
    (RetryOperation alwaysFails 0 2000000000 0).1 =
      .str "operation failed after 0 retries: %!w(<nil>)" ∧
    (RetryOperation alwaysFails 0 2000000000 0).2.calls = 0 := by
  have hD : fitsInt64 2000000000 := by decide
  have h := RetryOperation_total_backoff alwaysFails 0 3 2000000000 hD
  have h0 := RetryOperation_total_backoff alwaysFails 0 0 2000000000 hD
  have hfail : ∀ i, outcomeAt alwaysFails 0 i ≠ .nil := by
    intro i
    simp [outcomeAt, alwaysFails, NewNetworkError]
  have h1 := h.1 (by decide) hfail
  have hfit : ∀ i, i < (3 : Int).toNat → fitsInt64 (2 ^ i * 2000000000) := by
    intro i hi
    have : i < 3 := hi
    interval_cases i <;> decide
  have h2 := h1.2.2.2.2 hfit
  refine ⟨hD, ?_, ?_, by decide, (h0.2.1 (by decide)).2.1⟩
  · rw [h2.1]
    decide
  · rw [h2.2]
    decide

/-! ## The resume offset across attempts -/

theorem resumableWrite_attempts (env : Env) (k : Nat) (resp : Response) (startByte : Int)
    (w : World) : (resumableWrite env k resp startByte w).2.world.attempts = w.attempts := by
  unfold resumableWrite
  by_cases hS : startByte > 0
  · cases hf : w.file with
    | none => simp [hS]
    | some content =>
      by_cases hopen : env.openErr k = .nil
      · by_cases hcopy : (ioCopy bodyRead env.quota () resp.Body content).1 = .nil <;>
          simp [hS, hopen, hcopy]
      · simp [hS, hopen]
  · by_cases hopen : env.openErr k = .nil
    · by_cases hcopy : (ioCopy bodyRead env.quota () resp.Body []).1 = .nil <;>
        simp [hS, hopen, hcopy]
    · simp [hS, hopen]

/-- What an attempt of `DownloadResumable` does to the variables that do not
hold file content: it counts itself, it logs the request built from the
`startByte` it found, and it leaves `startByte` as it was or, from a positive
value, resets it to 0. The content of the file plays no part. -/
theorem resumableAttempt_offset (env : Env) (opts : DownloadOptions) (st : ResumeState) :
    (resumableAttempt env opts st).2.world.attempts = st.world.attempts + 1 ∧
    (env.newRequestErr = .nil →
      (resumableAttempt env opts st).2.world.requests =
        st.world.requests ++ [resumeRequest opts st.startByte]) ∧
    ((resumableAttempt env opts st).2.startByte = st.startByte ∨
      (0 < st.startByte ∧ (resumableAttempt env opts st).2.startByte = 0)) := by
  by_cases hnew : env.newRequestErr = .nil
  · cases htr : env.transport st.world.attempts (resumeRequest opts st.startByte) with
    | error err =>
      have e : resumableAttempt env opts st =
          (NewNetworkError "failed to download" err,
           { st with world := { st.world with
               attempts := st.world.attempts + 1,
               requests := st.world.requests ++ [resumeRequest opts st.startByte] } }) := by
        simp only [resumableAttempt, hnew, ne_eq, not_true_eq_false, if_false, htr]
      rw [e]
      exact ⟨rfl, fun _ => rfl, Or.inl rfl⟩
    | ok resp =>
      have hbad : ∀ c : Prop, resumableAttempt env opts st =
          (NewNetworkError ("bad status: " ++ resp.Status) .nil,
           { st with world := { st.world with
               attempts := st.world.attempts + 1,
               requests := st.world.requests ++ [resumeRequest opts st.startByte] } }) →
          (resumableAttempt env opts st).2.world.attempts = st.world.attempts + 1 ∧
          (c → (resumableAttempt env opts st).2.world.requests =
            st.world.requests ++ [resumeRequest opts st.startByte]) ∧
          ((resumableAttempt env opts st).2.startByte = st.startByte ∨
            (0 < st.startByte ∧ (resumableAttempt env opts st).2.startByte = 0)) := by
        intro c e
        rw [e]
        exact ⟨rfl, fun _ => rfl, Or.inl rfl⟩
      by_cases h1 : st.startByte > 0 ∧ resp.StatusCode ≠ 206
      · by_cases h2 : resp.StatusCode = 200
        · have e := resumableAttempt_fallback env opts st resp hnew htr h1.1 h2
          rw [e]
          have hr := resumableWrite_requests env st.world.attempts resp 0
            { st.world with attempts := st.world.attempts + 1,
                            requests := st.world.requests ++ [resumeRequest opts st.startByte] }
          have ha := resumableWrite_attempts env st.world.attempts resp 0
            { st.world with attempts := st.world.attempts + 1,
                            requests := st.world.requests ++ [resumeRequest opts st.startByte] }
          exact ⟨ha, fun _ => hr.1, Or.inr ⟨h1.1, hr.2⟩⟩
        · apply hbad
          simp only [resumableAttempt, hnew, ne_eq, not_true_eq_false, if_false, htr]
          rw [if_pos h1, if_neg h2]
      · by_cases h3 : st.startByte = 0 ∧ resp.StatusCode ≠ 200
        · apply hbad
          simp only [resumableAttempt, hnew, ne_eq, not_true_eq_false, if_false, htr]
          rw [if_neg h1, if_pos h3]
        · have e : resumableAttempt env opts st =
              resumableWrite env st.world.attempts resp st.startByte
                { st.world with attempts := st.world.attempts + 1,
                                requests := st.world.requests ++
                                  [resumeRequest opts st.startByte] } := by
            simp only [resumableAttempt, hnew, ne_eq, not_true_eq_false, if_false, htr]
            rw [if_neg h1, if_neg h3]
          rw [e]
          have hr := resumableWrite_requests env st.world.attempts resp st.startByte
            { st.world with attempts := st.world.attempts + 1,
                            requests := st.world.requests ++ [resumeRequest opts st.startByte] }
          have ha := resumableWrite_attempts env st.world.attempts resp st.startByte
            { st.world with attempts := st.world.attempts + 1,
                            requests := st.world.requests ++ [resumeRequest opts st.startByte] }
          exact ⟨ha, fun _ => hr.1, Or.inl hr.2⟩
  · have e : resumableAttempt env opts st =
        (NewNetworkError "failed to create request" env.newRequestErr,
         { st with world := { st.world with attempts := st.world.attempts + 1 } }) := by
      simp only [resumableAttempt, hnew, ne_eq, not_false_eq_true, if_true]
    rw [e]
    exact ⟨rfl, fun h => absurd h hnew, Or.inl rfl⟩

/-- Before every attempt of a retried resumable download, `startByte` is the
value the first attempt started with, or 0. -/
theorem resumable_stateAt_offset (env : Env) (opts : DownloadOptions) (st : ResumeState)
    (i : Nat) :
    (stateAt (resumableAttempt env opts) st i).startByte = st.startByte ∨
    (stateAt (resumableAttempt env opts) st i).startByte = 0 := by
  induction i with
  | zero => exact Or.inl rfl
  | succ i ih =>
    simp only [stateAt]
    rcases (resumableAttempt_offset env opts (stateAt (resumableAttempt env opts) st i)).2.2 with
      h | h
    · rw [h]
      exact ih
    · exact Or.inr h.2
/-- C21. `DownloadResumable` reads the resume offset from the size of the
destination file once, before it calls `RetryOperation`. Before every attempt
`startByte` is that value, or 0 after a fallback, whatever the file holds by
then, and the attempt builds its request, Range header included, from it.
Consequently, when the file holds `S > 0` bytes, the first attempt is honored
with 206, appends `j > 0` bytes and fails in the copy, and the second attempt,
whose request again asks for the bytes from `S` on, is honored with the
remaining `T - S` bytes and succeeds, the call returns nil after two attempts
and the file holds the old bytes, the `j` bytes and the `T - S` bytes:
`T + j` bytes, not `T`. -/
theorem DownloadResumable_stale_offset (env : Env) (opts : DownloadOptions) (w : World)
    (old written rest : List Byte) (resp1 resp2 : Response)
    (hmk : env.mkdirErr = .nil) (hnew : env.newRequestErr = .nil)
    (hfile : w.file = some old) (hS : 0 < old.length)
    (hresp1 : env.transport w.attempts (resumeRequest opts old.length) = .ok resp1)
    (hst1 : resp1.StatusCode = 206)
    (hfail1 : (resumableAttempt env opts { startByte := old.length, world := w }).1.kind =
      some .ErrorTypeDownload)
    (hfile1 : (resumableAttempt env opts { startByte := old.length, world := w }).2.world.file =
      some (old ++ written))
    (hj : 0 < written.length)
    (hresp2 : env.transport (w.attempts + 1) (resumeRequest opts old.length) = .ok resp2)
    (hst2 : resp2.StatusCode = 206)
    (hbody2 : streamBytes resp2.Body = rest)
    (hsucc2 : (resumableAttempt env opts
      (resumableAttempt env opts { startByte := old.length, world := w }).2).1 = .nil) :
    DownloadResumable env opts w =
      RetryOperation (resumableAttempt env opts) 3 (2 * 1000000000)
        { startByte := old.length, world := w } ∧
    (∀ (st : ResumeState) (i : Nat),
      ((stateAt (resumableAttempt env opts) st i).startByte = st.startByte ∨
        (stateAt (resumableAttempt env opts) st i).startByte = 0) ∧
      (stateAt (resumableAttempt env opts) st (i + 1)).world.requests =
        (stateAt (resumableAttempt env opts) st i).world.requests ++
          [resumeRequest opts (stateAt (resumableAttempt env opts) st i).startByte] ∧
      ((stateAt (resumableAttempt env opts) st i).startByte = 0 →
        (stateAt (resumableAttempt env opts) st (i + 1)).startByte = 0)) ∧
    (DownloadResumable env opts w).1 = .nil ∧
    (DownloadResumable env opts w).2.calls = 2 ∧
    (DownloadResumable env opts w).2.sleeps = [2000000000] ∧
    (DownloadResumable env opts w).2.state.startByte = old.length ∧
    (DownloadResumable env opts w).2.state.world.requests =
      w.requests ++
        [{ method := "GET", url := opts.URL,
           range := some ("bytes=" ++ toString (old.length : Int) ++ "-"),
           userAgent := "red-goose/1.0" },
         { method := "GET", url := opts.URL,
           range := some ("bytes=" ++ toString (old.length : Int) ++ "-"),
           userAgent := "red-goose/1.0" }] ∧
    (DownloadResumable env opts w).2.state.world.file = some (old ++ written ++ rest) ∧
    (old ++ written ++ rest).length = (old.length + rest.length) + written.length ∧
    (old ++ written ++ rest).length ≠ old.length + rest.length := by
  have hpos : ((old.length : Nat) : Int) > 0 := by omega
  have hreq : resumeRequest opts (old.length : Int) =
      { method := "GET", url := opts.URL,
        range := some ("bytes=" ++ toString (old.length : Int) ++ "-"),
        userAgent := "red-goose/1.0" } := by
    simp only [resumeRequest, hpos, if_true]
  have hdef : DownloadResumable env opts w =
      RetryOperation (resumableAttempt env opts) 3 (2 * 1000000000)
        { startByte := old.length, world := w } := by
    simp only [DownloadResumable, hmk, ne_eq, not_true_eq_false, if_false, hfile]
  -- the first attempt
  have e1 := resumableAttempt_honored env opts { startByte := old.length, world := w } resp1
    hnew hresp1 hpos hst1
  have hoff1 := resumableAttempt_offset env opts { startByte := old.length, world := w }
  have hsb1 : (resumableAttempt env opts { startByte := old.length, world := w }).2.startByte =
      old.length := by
    rw [e1]
    exact (resumableWrite_requests env _ resp1 _ _).2
  have hne1 : (resumableAttempt env opts { startByte := old.length, world := w }).1 ≠ .nil := by
    intro h
    rw [h] at hfail1
    cases hfail1
  -- the second attempt
  have hresp2' : env.transport
      (resumableAttempt env opts { startByte := old.length, world := w }).2.world.attempts
      (resumeRequest opts
        (resumableAttempt env opts { startByte := old.length, world := w }).2.startByte) =
      .ok resp2 := by
    rw [hoff1.1, hsb1]
    exact hresp2
  have e2 := resumableAttempt_honored env opts
    (resumableAttempt env opts { startByte := old.length, world := w }).2 resp2
    hnew hresp2' (by rw [hsb1]; exact hpos) hst2
  have hoff2 := resumableAttempt_offset env opts
    (resumableAttempt env opts { startByte := old.length, world := w }).2
  have hfile2 : (resumableAttempt env opts
      (resumableAttempt env opts { startByte := old.length, world := w }).2).2.world.file =
      some (old ++ written ++ rest) := by
    have hsucc := hsucc2
    rw [e2] at hsucc ⊢
    refine (resumableWrite_append_ok env _ resp2 _ _ (old ++ written)
      (by rw [hsb1]; exact hpos) ?_ hsucc).trans ?_
    · exact hfile1
    · rw [hbody2]
  have hsb2 : (resumableAttempt env opts
      (resumableAttempt env opts { startByte := old.length, world := w }).2).2.startByte =
      old.length := by
    rw [e2, (resumableWrite_requests env _ resp2 _ _).2, hsb1]
  have hreq2 : (resumableAttempt env opts
      (resumableAttempt env opts { startByte := old.length, world := w }).2).2.world.requests =
      w.requests ++ [resumeRequest opts old.length, resumeRequest opts old.length] := by
    rw [hoff2.2.1 hnew, hoff1.2.1 hnew, hsb1, List.append_assoc]
    rfl
  -- the retried run
  have hrun := RetryOperation_of_succeeds (resumableAttempt env opts)
    { startByte := old.length, world := w } 3 (2 * 1000000000) 1 (by decide)
    (fun i hi => by
      have h0 : i = 0 := by omega
      subst h0
      exact hne1)
    hsucc2
  have hstate : stateAt (resumableAttempt env opts) { startByte := old.length, world := w } 2 =
      (resumableAttempt env opts
        (resumableAttempt env opts { startByte := old.length, world := w }).2).2 := rfl
  have hlen : (old ++ written ++ rest).length = (old.length + rest.length) + written.length := by
    simp only [List.length_append]
    omega
  refine ⟨hdef, ?_, ?_, ?_, ?_, ?_, ?_, ?_, hlen, by omega⟩
  · intro st i
    have hoff := resumableAttempt_offset env opts (stateAt (resumableAttempt env opts) st i)
    refine ⟨resumable_stateAt_offset env opts st i, hoff.2.1 hnew, ?_⟩
    intro hz
    rcases hoff.2.2 with h | h
    · simp only [stateAt]
      rw [h, hz]
    · exact h.2
  · rw [hdef, hrun]
  · rw [hdef, hrun]
  · rw [hdef, hrun]
    rfl
  · rw [hdef, hrun]
    simp only
    rw [hstate, hsb2]
  · rw [hdef, hrun]
    simp only
    rw [hstate, hreq2, hreq]
  · rw [hdef, hrun]
    simp only
    rw [hstate, hfile2]

/-- C21, at a file holding the first 2 bytes of the 5-byte resource, a first
attempt whose body breaks off after 1 byte and a second attempt that is
served the last 3 bytes: the file ends with 6 bytes. -/
theorem DownloadResumable_stale_offset_witness :
    ((resumableAttempt interruptedEnv sampleOpts
        { startByte := 2, world := worldWith (some [10, 20]) }).1.kind =
        some .ErrorTypeDownload ∧
      (resumableAttempt interruptedEnv sampleOpts
        { startByte := 2, world := worldWith (some [10, 20]) }).2.world.file =
        some [10, 20, 30] ∧
      (resumableAttempt interruptedEnv sampleOpts
        (resumableAttempt interruptedEnv sampleOpts
          { startByte := 2, world := worldWith (some [10, 20]) }).2).1 = .nil) ∧
    (DownloadResumable interruptedEnv sampleOpts (worldWith (some [10, 20]))).1 = .nil ∧
    (DownloadResumable interruptedEnv sampleOpts (worldWith (some [10, 20]))).2.calls = 2 ∧
    (DownloadResumable interruptedEnv sampleOpts
        (worldWith (some [10, 20]))).2.state.world.requests.map (fun r => r.range) =
      [some "bytes=2-", some "bytes=2-"] ∧
    (DownloadResumable interruptedEnv sampleOpts
        (worldWith (some [10, 20]))).2.state.world.file = some [10, 20, 30, 30, 40, 50] := by
  have hfail1 : (resumableAttempt interruptedEnv sampleOpts
      { startByte := (([10, 20] : List Byte).length : Int),
        world := worldWith (some [10, 20]) }).1.kind = some .ErrorTypeDownload := by decide
  have hfile1 : (resumableAttempt interruptedEnv sampleOpts
      { startByte := (([10, 20] : List Byte).length : Int),
        world := worldWith (some [10, 20]) }).2.world.file =
      some ([10, 20] ++ [30]) := by decide
  have hsucc2 : (resumableAttempt interruptedEnv sampleOpts
      (resumableAttempt interruptedEnv sampleOpts
        { startByte := (([10, 20] : List Byte).length : Int),
          world := worldWith (some [10, 20]) }).2).1 = .nil := by decide
  have h := DownloadResumable_stale_offset interruptedEnv sampleOpts
    (worldWith (some [10, 20])) [10, 20] [30] [30, 40, 50]
    { StatusCode := 206, Status := "206 Partial Content", ContentLength := 3,
      Body := [{ result := { data := [30], err := .nil },
                 clock := { check := 50000000, speed := 50000000, update := 50000000 } },
               { result := { data := [], err := .str "unexpected EOF" },
                 clock := { check := 100000000, speed := 100000000,
                            update := 100000000 } }] }
    { StatusCode := 206, Status := "206 Partial Content", ContentLength := 3,
      Body := chunkedBody [[30, 40], [50]] }
    rfl rfl rfl (by decide) rfl rfl hfail1 hfile1 (by decide) rfl rfl (by decide) hsucc2
  refine ⟨⟨hfail1, hfile1, hsucc2⟩, h.2.2.1, h.2.2.2.1, ?_, h.2.2.2.2.2.2.2.1⟩
  rw [h.2.2.2.2.2.2.1]
  decide

end RedGoose
